import Mathlib

/-!
# Verification of the Iterative Repair Engine

Shallow embedding of the repair engine of the AI-Dev autonomous CI/CD healing
agent (`backend/app`): the Output Interpreter (`services/test_runner.py`), the
Fault Localizer and Fix Applier (`services/fix_generator.py`), the Bug
Classifier (`FixGenerator._classify_bug_type` and the priority selection in
`generate_fix_for_file`), and the Repair Loop Controller (`agent.py`,
`Agent.run`).

Modelling conventions:
* Python strings are Lean `String`s; all scanning is done on `List Char`.
* Python regular expressions are embedded as purpose-built scanners that
  follow each concrete pattern's semantics on the inputs the program meets
  (ASCII word characters; greedy character classes; the classes involved are
  disjoint from their followers, so backtracking is not observable except in
  the noted corner cases, which are documented at each scanner).
* The file system of the cloned repository is an explicit value (a list of
  files in `os.walk` order); `os.path.join(repo_path, p)`/`os.path.relpath`
  are modelled on repo-relative paths, where they are mutually inverse.
* Network collaborators (the Fix Oracle / Sarvam call, git push, CI poll) are
  oracle parameters, as in spec section 6.
-/

/- ### String and character helpers -/

/-- Python `\w` on ASCII input: letters, digits, underscore. -/
def isWordChar (c : Char) : Bool := c.isAlphanum || c = '_'

/-- Python `str.lower()` (ASCII). -/
def lowerStr (s : String) : String := String.mk (s.data.map Char.toLower)

/-- `needle` occurs as a contiguous sublist of `hay` (Python `needle in hay`). -/
def listContainsSub (hay needle : List Char) : Bool :=
  match hay with
  | [] => needle.isEmpty
  | _ :: t => needle.isPrefixOf hay || listContainsSub t needle

/-- Python substring test `needle in hay`. -/
def containsSub (hay needle : String) : Bool := listContainsSub hay.data needle.data

/-- Python `\s`: `[ \t\n\r\f\v]`. -/
def isSpaceChar (c : Char) : Bool :=
  c = ' ' || c = '\t' || c = '\n' || c = '\r' || c = '\x0b' || c = '\x0c'

/-- Python `s.split("\n")`. -/
def splitNlGo (cur : List Char) : List Char → List (List Char)
  | [] => [cur.reverse]
  | '\n' :: t => cur.reverse :: splitNlGo [] t
  | c :: t => splitNlGo (c :: cur) t

def splitOnNl (s : String) : List String := (splitNlGo [] s.data).map List.asString

/-- Python `"\n".join(...)`. -/
def joinNl : List String → String
  | [] => ""
  | [s] => s
  | s :: t => s ++ "\n" ++ joinNl t

/-- Python `str.strip()`. -/
def pyStrip (s : String) : String :=
  (((s.data.dropWhile isSpaceChar).reverse.dropWhile isSpaceChar).reverse).asString

/-- Python `str.startswith`. -/
def startsWithStr (s pre : String) : Bool := pre.data.isPrefixOf s.data

/-- The character class `[\w./\\-]` (also `[\w/\\._-]`): path-like tokens. -/
def isPathChar (c : Char) : Bool :=
  isWordChar c || c = '.' || c = '/' || c = '\\' || c = '-'

/-- Match a literal: if `lit` is a prefix of `l`, return the rest. -/
def dropLit (lit : List Char) (l : List Char) : Option (List Char) :=
  if lit.isPrefixOf l then some (l.drop lit.length) else none

/-- Numeric value of a digit run (the regex groups are `(\d+)`). -/
def digitsVal (ds : List Char) : Nat :=
  ds.foldl (fun a c => a * 10 + (c.toNat - '0'.toNat)) 0

/-- `re.finditer`: scan left to right, a match consumes its text
(non-overlapping), a failed position advances one character.  The fuel is
`l.length + 1` at top level, which covers every position since every match of
the patterns below consumes at least one character. -/
def scanMatches {α : Type} (step : List Char → Option (α × List Char)) :
    Nat → List Char → List α
  | 0, _ => []
  | _ + 1, [] => []
  | fuel + 1, l@(_ :: t) =>
    match step l with
    | some (a, rest) => a :: scanMatches step fuel rest
    | none => scanMatches step fuel t

/-- `re.search` (first match only) with the same stepping discipline. -/
def scanFirst {α : Type} (step : List Char → Option (α × List Char)) :
    Nat → List Char → Option (α × List Char)
  | 0, _ => none
  | _ + 1, [] => none
  | fuel + 1, l@(_ :: t) =>
    match step l with
    | some r => some r
    | none => scanFirst step fuel t

/-- Strip terminal color escapes: `re.sub(r'\x1b\[[0-9;]*m', '', output)`
(`test_runner.py` line 262). -/
def stripAnsiGo : Nat → List Char → List Char
  | 0, l => l
  | _ + 1, [] => []
  | fuel + 1, c :: rest =>
    if c = '\x1b' then
      match rest with
      | '[' :: r2 =>
        match r2.dropWhile (fun d => d.isDigit || d = ';') with
        | 'm' :: r4 => stripAnsiGo fuel r4
        | _ => c :: stripAnsiGo fuel rest
      | _ => c :: stripAnsiGo fuel rest
    else c :: stripAnsiGo fuel rest

def stripAnsiStr (s : String) : String :=
  (stripAnsiGo (s.data.length + 1) s.data).asString

/-- `error_msg.split(":")[0] if ":" in error_msg else error_msg`:
the part before the first colon, or the whole string. -/
def beforeColon (s : String) : String :=
  if containsSub s ":" then (s.data.takeWhile (· ≠ ':')).asString else s

/-- `re.sub(r'^(\.\./)+', '', raw_path)` on the character list: drop the
maximal run of leading `../` segments. -/
def stripDotDotGo : List Char → List Char
  | '.' :: '.' :: '/' :: rest => stripDotDotGo rest
  | l => l

/-- Path normalisation of the pytest dialect (`test_runner.py` line 293). -/
def stripLeadingTraversal (s : String) : String := (stripDotDotGo s.data).asString

/-- Whether a path still begins with a parent-directory traversal segment. -/
def hasLeadingTraversal (s : String) : Bool := "../".data.isPrefixOf s.data

/-- `os.path.basename`: the part after the last `/`. -/
def pathBasename (s : String) : String :=
  ((s.data.reverse.takeWhile (· ≠ '/')).reverse).asString

/- ### Data model (`models.py`) -/

/-- `BugType` enumeration (`models.py` lines 36-43). -/
inductive BugType where
  | LINTING
  | SYNTAX
  | LOGIC
  | TYPE_ERROR
  | IMPORT
  | INDENTATION
  | UNKNOWN
  deriving DecidableEq, Repr

/-- The string value of each `BugType` member. -/
def BugType.value : BugType → String
  | .LINTING => "LINTING"
  | .SYNTAX => "SYNTAX"
  | .LOGIC => "LOGIC"
  | .TYPE_ERROR => "TYPE_ERROR"
  | .IMPORT => "IMPORT"
  | .INDENTATION => "INDENTATION"
  | .UNKNOWN => "UNKNOWN"

/-- `TestFailure` (`models.py` lines 56-63): one parsed test failure. -/
structure TestFailure where
  test_name : String := ""
  file_path : String := ""
  error_message : String := ""
  error_type : String := ""
  line_number : Option Nat := none
  raw_output : String := ""
  deriving DecidableEq, Repr

/-- `FileChange` (`models.py` lines 66-75): one file change made by the agent. -/
structure FileChange where
  file_path : String
  original_content : String := ""
  fixed_content : String := ""
  diff : String := ""
  description : String := ""
  bug_type : BugType := BugType.UNKNOWN
  commit_message : String := ""
  line_number : Option Nat := none
  status : String := "fixed"
  deriving DecidableEq, Repr

/- ### Bug Classifier (`fix_generator.py`) -/

/-- `FixGenerator._classify_bug_type` (`fix_generator.py` lines 169-188):
keyword classification of a single failure record. -/
def classifyBugType (failure : TestFailure) : BugType :=
  let err := lowerStr (failure.error_message ++ " " ++ failure.error_type)
  if ["import", "modulenotfounderror", "no module named"].any (containsSub err) then
    .IMPORT
  else if ["syntaxerror", "syntax error", "missing colon", "unexpected eof",
      "invalid syntax"].any (containsSub err) then
    .SYNTAX
  else if ["indentationerror", "indentation", "unexpected indent",
      "unindent"].any (containsSub err) then
    .INDENTATION
  else if ["typeerror", "type error", "not callable",
      "unsupported operand"].any (containsSub err) then
    .TYPE_ERROR
  else if ["unused", "lint", "flake8", "pylint", "undefined variable",
      "undefined name"].any (containsSub err) then
    .LINTING
  else if ["assert", "assertEqual", "expected", "actual", "!=", "=="].any
      (containsSub err) then
    .LOGIC
  else
    .LOGIC

/-- The fixed priority list of `generate_fix_for_file`
(`fix_generator.py` lines 311-312). -/
def bugPriority : List BugType :=
  [.SYNTAX, .INDENTATION, .TYPE_ERROR, .IMPORT, .LOGIC, .LINTING, .UNKNOWN]

/-- `next((b for b in priority if b in bug_types), BugType.LOGIC)`
(`fix_generator.py` line 313): the first priority member present among the
individually classified types. -/
def selectBugType (bug_types : List BugType) : BugType :=
  (bugPriority.find? (fun b => bug_types.any (fun x => x = b))).getD .LOGIC

/-- Position of a category in the priority order (0 = most severe). -/
def bugPriorityIdx : BugType → Nat
  | .SYNTAX => 0
  | .INDENTATION => 1
  | .TYPE_ERROR => 2
  | .IMPORT => 3
  | .LOGIC => 4
  | .LINTING => 5
  | .UNKNOWN => 6

/- ### Output Interpreter: pytest dialect (`test_runner.py` lines 276-400) -/

/-- One step of `re.finditer(r"FAILED\s+([\w./\\-]+)::(\w+)(?:\s*-\s*(.+))?", output)`:
the optional message group is matched greedily without backtracking, which
agrees with the regex whenever the text after the dash holds a non-space
character on the same line (the character classes involved are disjoint). -/
def failedStep (l : List Char) : Option ((String × String × Option String) × List Char) := do
  let r1 ← dropLit "FAILED".data l
  let sp := r1.takeWhile isSpaceChar
  guard (!sp.isEmpty)
  let r2 := r1.dropWhile isSpaceChar
  let path := r2.takeWhile isPathChar
  guard (!path.isEmpty)
  let r3 := r2.dropWhile isPathChar
  let r4 ← dropLit "::".data r3
  let name := r4.takeWhile isWordChar
  guard (!name.isEmpty)
  let r5 := r4.dropWhile isWordChar
  let l1 := r5.dropWhile isSpaceChar
  match l1 with
  | '-' :: l2 =>
    let l3 := l2.dropWhile isSpaceChar
    let msg := l3.takeWhile (· ≠ '\n')
    if msg.isEmpty then return ((path.asString, name.asString, none), r5)
    else return ((path.asString, name.asString, some msg.asString), l3.drop msg.length)
  | _ => return ((path.asString, name.asString, none), r5)

/-- All `FAILED path::test [- message]` captures, in order of appearance. -/
def failedMatches (output : List Char) : List (String × String × Option String) :=
  scanMatches failedStep (output.length + 1) output

/-- `re.search(r"_{3,}\s+" + re.escape(test_name) + r"\s+_{3,}", output)` followed
by `re.search(re.escape(basename) + r":(\d+):", output[section_start:section_start+2000])`
(`test_runner.py` lines 297-310): the line number for a FAILED record. -/
def headerStep (test_name : List Char) (l : List Char) : Option (Unit × List Char) := do
  let us := l.takeWhile (· = '_')
  guard (us.length ≥ 3)
  let r1 := l.dropWhile (· = '_')
  let sp := r1.takeWhile isSpaceChar
  guard (!sp.isEmpty)
  let r2 := r1.dropWhile isSpaceChar
  let r3 ← dropLit test_name r2
  let sp2 := r3.takeWhile isSpaceChar
  guard (!sp2.isEmpty)
  let r4 := r3.dropWhile isSpaceChar
  let us2 := r4.takeWhile (· = '_')
  guard (us2.length ≥ 3)
  return ((), r4.drop us2.length)

def lineRefStep (basename : List Char) (l : List Char) : Option (Nat × List Char) := do
  let r1 ← dropLit (basename ++ [':']) l
  let ds := r1.takeWhile Char.isDigit
  guard (!ds.isEmpty)
  let r2 ← dropLit [':'] (r1.drop ds.length)
  return (digitsVal ds, r2)

def failedLineNo (output : List Char) (test_name file_path : String) : Option Nat :=
  match scanFirst (headerStep test_name.data) (output.length + 1) output with
  | none => none
  | some (_, sect) =>
    let sect := sect.take 2000
    match scanFirst (lineRefStep (pathBasename file_path).data) (sect.length + 1) sect with
    | none => none
    | some (n, _) => some n

/-- The `TestFailure` built for one FAILED match (`test_runner.py` lines 312-319). -/
def mkFailedRecord (output : List Char) (m : String × String × Option String) : TestFailure :=
  let file_path := stripLeadingTraversal m.1
  let error_msg := m.2.2.getD ""
  { test_name := m.2.1
    file_path := file_path
    error_message := error_msg
    error_type := beforeColon error_msg
    line_number := failedLineNo output m.2.1 file_path
    raw_output := output.asString }

def failedRecords (output : List Char) : List TestFailure :=
  (failedMatches output).map (mkFailedRecord output)

/-- One step of `re.finditer(r"ERROR\s+([\w./\\-]+)\s+-\s+(.+)", output)`
(collection errors with an inline message, `test_runner.py` line 323). -/
def collectMsgStep (l : List Char) : Option ((String × String) × List Char) := do
  let r1 ← dropLit "ERROR".data l
  let sp := r1.takeWhile isSpaceChar
  guard (!sp.isEmpty)
  let r2 := r1.dropWhile isSpaceChar
  let path := r2.takeWhile isPathChar
  guard (!path.isEmpty)
  let r3 := r2.dropWhile isPathChar
  let sp2 := r3.takeWhile isSpaceChar
  guard (!sp2.isEmpty)
  let r4 ← dropLit ['-'] (r3.dropWhile isSpaceChar)
  let sp3 := r4.takeWhile isSpaceChar
  guard (!sp3.isEmpty)
  let r5 := r4.dropWhile isSpaceChar
  let msg := r5.takeWhile (· ≠ '\n')
  guard (!msg.isEmpty)
  return ((path.asString, msg.asString), r5.drop msg.length)

def collectMsgMatches (output : List Char) : List (String × String) :=
  scanMatches collectMsgStep (output.length + 1) output

/-- The record built for a collection error with message
(`test_runner.py` lines 329-341). -/
def mkCollectMsgRecord (output : List Char) (m : String × String) : TestFailure :=
  let file_path := stripLeadingTraversal m.1
  let error_msg := pyStrip m.2
  { test_name := "(collection error)"
    file_path := file_path
    error_message := error_msg
    error_type := if containsSub error_msg ":" then beforeColon error_msg
      else "CollectionError"
    line_number := none
    raw_output := output.asString }

def collectMsgRecords (output : List Char) : List TestFailure :=
  (collectMsgMatches output).map (mkCollectMsgRecord output)

/-- One anchored match of `re.compile(r"^ERROR\s+([\w./\\-]+)\s*$",
re.MULTILINE)` at a line start: `\s+` is greedy and may span newlines (the
captured path can sit on a later line), the capture is the maximal
path-character run after it (the two character classes are disjoint, so the
run boundaries are forced), and `\s*$` succeeds iff the whitespace run after
the path reaches the end of the text (the match consumes it all) or contains a
newline (greedy backtracking ends the match just before the last one).
Returns the capture and the text from the match end. -/
def bareErrorStep (l : List Char) : Option (String × List Char) := do
  let r1 ← dropLit "ERROR".data l
  let sp := r1.takeWhile isSpaceChar
  guard (!sp.isEmpty)
  let r2 := r1.drop sp.length
  let path := r2.takeWhile isPathChar
  guard (!path.isEmpty)
  let r3 := r2.drop path.length
  let run := r3.takeWhile isSpaceChar
  let rest := r3.drop run.length
  if rest.isEmpty then
    return (path.asString, rest)
  else
    let afterNl := run.reverse.takeWhile (· ≠ '\n')
    guard (afterNl.length < run.length)
    return (path.asString, run.drop (run.length - afterNl.length - 1) ++ rest)

/-- Advance to the start of the next line. -/
def dropToNextLine (l : List Char) : List Char := (l.dropWhile (· ≠ '\n')).drop 1

/-- `collect_bare.finditer(output)`: a `^`-anchored match can only begin at a
line start, a match never ends right after a newline, and scanning resumes at
the first line start at or after the match end. -/
def bareScanGo : Nat → List Char → List String
  | 0, _ => []
  | fuel + 1, l =>
    if l.isEmpty then []
    else
      match bareErrorStep l with
      | some (cap, rest) => cap :: bareScanGo fuel (dropToNextLine rest)
      | none => bareScanGo fuel (dropToNextLine l)

def bareCollectMatches (output : List Char) : List String :=
  bareScanGo (output.length + 1) output

/-- Bare `ERROR path` captures whose (normalised) path was not already handled
by a collection error with message (`test_runner.py` lines 343-347). -/
def bareCollectNew (output : List Char) : List String :=
  let parsed := (collectMsgMatches output).map (fun m => stripLeadingTraversal m.1)
  ((bareCollectMatches output).map stripLeadingTraversal).filter
    (fun p => !parsed.any (fun q => q = p))

/-- `re.search(r'(IndentationError|SyntaxError|ImportError|ModuleNotFoundError|NameError|TypeError)[:\s]([^\n]*)', output)`
(`test_runner.py` lines 353-356). -/
def errorTypeStep (l : List Char) : Option ((String × String) × List Char) :=
  (["IndentationError", "SyntaxError", "ImportError", "ModuleNotFoundError",
    "NameError", "TypeError"].firstM fun kw => do
    let r1 ← dropLit kw.data l
    match r1 with
    | c :: r2 =>
      if c = ':' || isSpaceChar c then
        let msg := r2.takeWhile (· ≠ '\n')
        return ((kw, msg.asString), r2.drop msg.length)
      else failure
    | [] => failure)

def errorTypeSearch (output : List Char) : Option (String × String) :=
  (scanFirst errorTypeStep (output.length + 1) output).map (·.1)

/-- One step of `re.findall(r'File "([^"]+)", line (\d+)', output)`. -/
def fileRefStep (l : List Char) : Option ((String × Nat) × List Char) := do
  let r1 ← dropLit "File \"".data l
  let path := r1.takeWhile (· ≠ '"')
  guard (!path.isEmpty)
  let r2 ← dropLit ('"' :: ", line ".data) (r1.drop path.length)
  let ds := r2.takeWhile Char.isDigit
  guard (!ds.isEmpty)
  return ((path.asString, digitsVal ds), r2.drop ds.length)

/-- One step of `re.findall(r'\n([\w./\\-]+):(\d+):', output)`. -/
def pathLineStep (l : List Char) : Option ((String × Nat) × List Char) := do
  let r1 ← dropLit ['\n'] l
  let path := r1.takeWhile isPathChar
  guard (!path.isEmpty)
  let r2 ← dropLit [':'] (r1.drop path.length)
  let ds := r2.takeWhile Char.isDigit
  guard (!ds.isEmpty)
  let r3 ← dropLit [':'] (r2.drop ds.length)
  return ((path.asString, digitsVal ds), r3)

/-- Internal paths skipped when resolving a traceback reference
(`test_runner.py` line 378). -/
def isInternalPath (p : String) : Bool :=
  ["site-packages", "<frozen", "lib/python"].any (containsSub p)

/-- The repository working tree, for the interpreter: the set of paths
(relative to the repository root) that exist on disk.
`os.path.join(repo_path, p)` and `os.path.relpath(·, repo_path)` are mutually
inverse on such paths, so both are modelled as the identity; an absolute path
is one that starts with `/`. -/
def fsExists (fs : List String) (p : String) : Bool := fs.any (fun q => q = p)

/-- Walk `reversed(matches_1 + matches_2)` and take the first reference that is
not runner/stdlib internal and exists on disk (`test_runner.py` lines 365-389). -/
def resolveTraceback (fs : List String) (locs : List (String × Nat)) :
    Option (String × Nat) :=
  locs.reverse.find? (fun m => !isInternalPath m.1 && fsExists fs m.1)

/-- The record built for a bare collection error (`test_runner.py` lines 349-398). -/
def mkBareCollectRecord (fs : List String) (output : List Char) (file_path : String) :
    TestFailure :=
  let etm := errorTypeSearch output
  let error_type := match etm with
    | some (kw, _) => kw
    | none => "CollectionError"
  let error_msg := match etm with
    | some (kw, rest) => kw ++ ": " ++ pyStrip rest
    | none => "Collection error in " ++ file_path
  let locs := scanMatches fileRefStep (output.length + 1) output ++
    scanMatches pathLineStep (output.length + 1) output
  match resolveTraceback fs locs with
  | some (p, n) =>
    { test_name := "(collection error)", file_path := p, error_message := error_msg
      error_type := error_type, line_number := some n, raw_output := output.asString }
  | none =>
    { test_name := "(collection error)", file_path := file_path
      error_message := error_msg, error_type := error_type, line_number := none
      raw_output := output.asString }

/-- `TestRunner._parse_pytest_failures` (`test_runner.py` lines 276-400). -/
def parsePytestFailures (fs : List String) (output : String) : List TestFailure :=
  failedRecords output.data ++ collectMsgRecords output.data ++
    (bareCollectNew output.data).map (mkBareCollectRecord fs output.data)

/- ### Output Interpreter: Jest/Vitest dialect (`test_runner.py` lines 402-476) -/

/-- `re.search(r"FAIL\s+([\w/\\._-]+)", line)` (`test_runner.py` line 413). -/
def failLineStep (l : List Char) : Option (String × List Char) := do
  let r1 ← dropLit "FAIL".data l
  let sp := r1.takeWhile isSpaceChar
  guard (!sp.isEmpty)
  let r2 := r1.dropWhile isSpaceChar
  let path := r2.takeWhile isPathChar
  guard (!path.isEmpty)
  return (path.asString, r2.drop path.length)

def failLineSearch (line : String) : Option String :=
  (scanFirst failLineStep (line.data.length + 1) line.data).map (·.1)

/-- The anchored tail `\s*\(?([\w/\\._-]+):(\d+):(\d+)\)?` of the stack-frame
pattern, tried at one position. -/
def stackAnchor (l : List Char) : Option ((String × Nat × Nat) × List Char) := do
  let r1 := l.dropWhile isSpaceChar
  let r2 := match r1 with
    | '(' :: t => t
    | _ => r1
  let path := r2.takeWhile isPathChar
  guard (!path.isEmpty)
  let r3 ← dropLit [':'] (r2.drop path.length)
  let ds1 := r3.takeWhile Char.isDigit
  guard (!ds1.isEmpty)
  let r4 ← dropLit [':'] (r3.drop ds1.length)
  let ds2 := r4.takeWhile Char.isDigit
  guard (!ds2.isEmpty)
  let r5 := r4.drop ds2.length
  let r6 := match r5 with
    | ')' :: t => t
    | _ => r5
  return ((path.asString, digitsVal ds1, digitsVal ds2), r6)

/-- The lazy `.*?` of the stack-frame pattern: try the anchor at each shift,
shortest first, never crossing a newline. -/
def lazyScan {α : Type} (anchor : List Char → Option (α × List Char)) :
    Nat → List Char → Option (α × List Char)
  | 0, _ => none
  | _ + 1, [] => anchor []
  | fuel + 1, l@(c :: t) =>
    match anchor l with
    | some r => some r
    | none => if c = '\n' then none else lazyScan anchor fuel t

/-- One step of
`re.findall(r"at\s+.*?\s*\(?([\w/\\._-]+):(\d+):(\d+)\)?", error_detail)`
(`test_runner.py` line 436). -/
def stackFrameStep (l : List Char) : Option ((String × Nat × Nat) × List Char) := do
  let r1 ← dropLit "at".data l
  let sp := r1.takeWhile isSpaceChar
  guard (!sp.isEmpty)
  let r2 := r1.dropWhile isSpaceChar
  lazyScan stackAnchor (r2.length + 1) r2

def stackFrames (detail : List Char) : List (String × Nat × Nat) :=
  scanMatches stackFrameStep (detail.length + 1) detail

/-- Frames inside dependency or runtime-internal directories are skipped
(`test_runner.py` line 439). -/
def isJestInternal (p : String) : Bool :=
  ["node_modules", "internal/", "jest-circus"].any (containsSub p)

/-- Error-category keywords checked against the block (`test_runner.py` lines 445-453). -/
def jestErrorType (detail : String) : String :=
  if containsSub detail "ReferenceError:" then "ReferenceError"
  else if containsSub detail "TypeError:" then "TypeError"
  else if containsSub detail "SyntaxError:" then "SyntaxError"
  else if containsSub detail "Cannot find module" then "ModuleNotFoundError"
  else "AssertionError"

/-- The block of lines following a bullet, up to the next bullet or the
`Test Suites:` summary, at most 49 lines (`range(i + 1, min(i + 50, len(lines)))`). -/
def jestBlock : List String → List String
  | [] => []
  | l :: t =>
    if startsWithStr (pyStrip l) "●" || startsWithStr (pyStrip l) "Test Suites:" then []
    else l :: jestBlock t

/-- The record built for one `●` bullet (`test_runner.py` lines 418-462). -/
def mkJestRecord (cur : Option String) (stripped : String) (rest : List String) :
    TestFailure :=
  let test_name := pyStrip ((stripped.data.drop 2).asString)
  let error_detail := pyStrip (joinNl (jestBlock (rest.take 49)))
  let frame := (stackFrames error_detail.data).find? (fun f => !isJestInternal f.1)
  let actual_file := match frame with
    | some f => some f.1
    | none => cur
  { test_name := test_name
    file_path := match actual_file with
      | some p => if p = "" then "(unknown)" else p
      | none => "(unknown)"
    error_message := (error_detail.data.take 500).asString
    error_type := jestErrorType error_detail
    line_number := frame.map (fun f => f.2.1)
    raw_output := error_detail }

/-- The per-line state machine of `_parse_jest_failures`: `current_file` is
updated by `FAIL path` lines; each `●` line yields a record. -/
def jestGo (cur : Option String) : List String → List TestFailure
  | [] => []
  | line :: rest =>
    let cur := match failLineSearch line with
      | some p => some p
      | none => cur
    let stripped := pyStrip line
    if startsWithStr stripped "●" then
      mkJestRecord cur stripped rest :: jestGo cur rest
    else
      jestGo cur rest

/-- One step of
`re.finditer(r"Error: (.*?)\n\s*at .*? \(([\w/\\._-]+):(\d+):(\d+)\)", output)`
for the bare Vitest fallback (`test_runner.py` line 466).  The step also
returns the matched span (`match.group(0)` is stored as `raw_output`). -/
def vitestAnchor (l : List Char) : Option ((String × Nat × Nat) × List Char) := do
  let r1 ← dropLit " (".data l
  let path := r1.takeWhile isPathChar
  guard (!path.isEmpty)
  let r2 ← dropLit [':'] (r1.drop path.length)
  let ds1 := r2.takeWhile Char.isDigit
  guard (!ds1.isEmpty)
  let r3 ← dropLit [':'] (r2.drop ds1.length)
  let ds2 := r3.takeWhile Char.isDigit
  guard (!ds2.isEmpty)
  let r4 ← dropLit [')'] (r3.drop ds2.length)
  return ((path.asString, digitsVal ds1, digitsVal ds2), r4)

def vitestStep (l : List Char) :
    Option ((String × String × String × Nat) × List Char) := do
  let r1 ← dropLit "Error: ".data l
  let msg := r1.takeWhile (· ≠ '\n')
  let r2 ← dropLit ['\n'] (r1.drop msg.length)
  let r3 := r2.dropWhile isSpaceChar
  let r4 ← dropLit "at ".data r3
  let (f, rest) ← lazyScan vitestAnchor (r4.length + 1) r4
  let matched := (l.take (l.length - rest.length)).asString
  return ((msg.asString, matched, f.1, f.2.1), rest)

def vitestRecords (output : List Char) : List TestFailure :=
  (scanMatches vitestStep (output.length + 1) output).map fun m =>
    { test_name := "(vitest error)"
      file_path := m.2.2.1
      error_message := m.1
      error_type := if containsSub m.1 ":" then beforeColon m.1 else "Error"
      line_number := some m.2.2.2
      raw_output := m.2.1 }

/-- `TestRunner._parse_jest_failures` (`test_runner.py` lines 402-476).
The `repo_path` parameter of the source function is unused in its body, so it
does not appear here: this dialect reads no file-system state. -/
def parseJestFailures (output : String) : List TestFailure :=
  let failures := jestGo none (splitOnNl output)
  if failures.isEmpty && containsSub output "Error:" then vitestRecords output.data
  else failures

/- ### Output Interpreter: fallback dialect and entry point -/

/-- `TestRunner._parse_generic_failures` (`test_runner.py` lines 478-493). -/
def parseGenericFailures (output : String) : List TestFailure :=
  let error_lines := (splitOnNl output).filter fun line =>
    ["error", "failed", "fail", "exception"].any (containsSub (lowerStr line))
  if error_lines.isEmpty then []
  else
    [{ test_name := "(generic failure)"
       error_message := joinNl (error_lines.take 10)
       error_type := "GenericError"
       raw_output := output }]

/-- `TestRunner._parse_failures` (`test_runner.py` lines 251-274): strip color
escapes, apply the dialect parsers selected by the language hints, fall back to
generic parsing when nothing structured was produced but a failure keyword is
present. -/
def parseFailures (fs : List String) (languages : List String) (output : String) :
    List TestFailure :=
  let clean := stripAnsiStr output
  let pyFailures := if languages.any (fun l => l = "python") then
    parsePytestFailures fs clean else []
  let jsFailures := if languages.any (fun l => l = "javascript") ||
      languages.any (fun l => l = "typescript") then
    parseJestFailures clean else []
  let failures := pyFailures ++ jsFailures
  if failures.isEmpty && (containsSub clean "FAILED" || containsSub clean "FAIL" ||
      containsSub clean "Error" || containsSub clean "error") then
    parseGenericFailures clean
  else failures

/-- `\n`-keepends line split: the line-based reference semantics through
which a stored unified diff is parsed and applied. -/
def splitKeepGo (cur : List Char) : List Char → List (List Char)
  | [] => if cur.isEmpty then [] else [cur.reverse]
  | c :: t =>
    if c = '\n' then ((c :: cur).reverse) :: splitKeepGo [] t
    else splitKeepGo (c :: cur) t

def splitKeepNl (s : String) : List String := (splitKeepGo [] s.data).map List.asString

/-- The line terminators of Python `str.splitlines`: `\n`, `\r`, `\v`,
`\f`, the separator controls `\x1c`-`\x1e`, `\x85`, and the Unicode line
and paragraph separators. -/
def isPyLineBreak (c : Char) : Bool :=
  c = '\n' || c = '\r' || c = '\x0b' || c = '\x0c' ||
    c = Char.ofNat 0x1c || c = Char.ofNat 0x1d || c = Char.ofNat 0x1e ||
    c = Char.ofNat 0x85 || c = Char.ofNat 0x2028 || c = Char.ofNat 0x2029

/-- Python `str.splitlines(keepends=True)`: split after every line terminator,
with `\r\n` kept together as a single terminator.  A final character closes
the last line whether or not it is a terminator. -/
def pySplitGo (cur : List Char) : List Char → List (List Char)
  | [] => if cur.isEmpty then [] else [cur.reverse]
  | [c] => [(c :: cur).reverse]
  | c :: d :: t =>
    if c = '\r' && d = '\n' then ((d :: c :: cur).reverse) :: pySplitGo [] t
    else if isPyLineBreak c then ((c :: cur).reverse) :: pySplitGo [] (d :: t)
    else pySplitGo (c :: cur) (d :: t)

def pySplitlines (s : String) : List String := (pySplitGo [] s.data).map List.asString

/-- `a[i1:i2]`. -/
def sliceList (l : List String) (i j : Nat) : List String := (l.drop i).take (j - i)

/- ### Applying a unified diff

The round-trip property of a Change Record's `diff` field is stated against a
standard unified-diff application function: parse the `---`/`+++` headers and
the `@@ -s,l +s,l @@` hunks, verify every context and deletion line against
the original at the stated positions, and splice in the insertions; any
mismatch yields `none`. -/

inductive HunkTag where
  | ctx
  | del
  | ins
  deriving DecidableEq, Repr

structure Hunk where
  aStart : Nat
  aLen : Nat
  bLen : Nat
  body : List (HunkTag × String)
  deriving DecidableEq, Repr

/-- Parse a leading digit run. -/
def parseNatPrefix (l : List Char) : Option (Nat × List Char) :=
  let ds := l.takeWhile Char.isDigit
  if ds.isEmpty then none else some (digitsVal ds, l.drop ds.length)

/-- Parse one `start[,length]` range of a hunk header, returning the 0-based
start index and the length (`_format_range_unified` in reverse). -/
def parseRange (l : List Char) : Option ((Nat × Nat) × List Char) := do
  let (s, r1) ← parseNatPrefix l
  if r1.head? = some ',' then
    let (len, r3) ← parseNatPrefix (r1.drop 1)
    return ((if len = 0 then s else s - 1, len), r3)
  else
    return ((s - 1, 1), r1)

/-- Parse a `@@ -a +b @@` hunk header line (with its trailing newline),
returning the 0-based `a` start and both lengths. -/
def parseHunkHeader (l : List Char) : Option (Nat × Nat × Nat) := do
  let r1 ← dropLit "@@ -".data l
  let ((aStart, aLen), r2) ← parseRange r1
  let r3 ← dropLit " +".data r2
  let ((_, bLen), r4) ← parseRange r3
  let r5 ← dropLit " @@\n".data r4
  guard r5.isEmpty
  return (aStart, aLen, bLen)

/-- Read the body lines of one hunk, driven by the header counts: a context
line counts against both sides, a deletion against the original only, an
insertion against the new side only. -/
def parseBody : List String → Nat → Nat → Option (List (HunkTag × String) × List String)
  | ls, aLen, bLen =>
    if aLen = 0 ∧ bLen = 0 then some ([], ls)
    else
      match ls with
      | [] => none
      | line :: rest =>
        match line.data with
        | ' ' :: content =>
          if aLen ≠ 0 ∧ bLen ≠ 0 then
            (parseBody rest (aLen - 1) (bLen - 1)).map
              (fun r => ((HunkTag.ctx, content.asString) :: r.1, r.2))
          else none
        | '-' :: content =>
          if aLen ≠ 0 then
            (parseBody rest (aLen - 1) bLen).map
              (fun r => ((HunkTag.del, content.asString) :: r.1, r.2))
          else none
        | '+' :: content =>
          if bLen ≠ 0 then
            (parseBody rest aLen (bLen - 1)).map
              (fun r => ((HunkTag.ins, content.asString) :: r.1, r.2))
          else none
        | _ => none

/-- Parse all hunks (fuel: one unit per hunk, the line count suffices). -/
def parseHunksGo : Nat → List String → Option (List Hunk)
  | _, [] => some []
  | 0, _ :: _ => none
  | fuel + 1, line :: rest => do
    let (aStart, aLen, bLen) ← parseHunkHeader line.data
    let (body, rem) ← parseBody rest aLen bLen
    let hs ← parseHunksGo fuel rem
    return ⟨aStart, aLen, bLen, body⟩ :: hs

def parseHunks (ls : List String) : Option (List Hunk) := parseHunksGo ls.length ls

/-- Apply one hunk body at position `p` of the original lines: context and
deletion lines must match the original; returns the emitted lines and the
position after the consumed original lines. -/
def applyBody (orig : List String) : Nat → List (HunkTag × String) →
    Option (List String × Nat)
  | p, [] => some ([], p)
  | p, (tag, s) :: rest =>
    match tag with
    | .ctx =>
      match orig.get? p with
      | some t =>
        if t = s then (applyBody orig (p + 1) rest).map (fun r => (s :: r.1, r.2))
        else none
      | none => none
    | .del =>
      match orig.get? p with
      | some t => if t = s then applyBody orig (p + 1) rest else none
      | none => none
    | .ins => (applyBody orig p rest).map (fun r => (s :: r.1, r.2))

/-- Apply a list of hunks from position `pos`: copy the untouched lines up to
each hunk's start, apply its body, and copy the tail after the last hunk. -/
def applyHunksFrom (orig : List String) : Nat → List Hunk → Option (List String)
  | pos, [] => if pos ≤ orig.length then some (orig.drop pos) else none
  | pos, h :: rest =>
    if pos ≤ h.aStart then
      match applyBody orig h.aStart h.body with
      | some (out, endPos) =>
        (applyHunksFrom orig endPos rest).map
          (fun restOut => sliceList orig pos h.aStart ++ out ++ restOut)
      | none => none
    else none

/-- Apply a unified diff (as produced by `difflib.unified_diff` and stored in
a Change Record) to the original content: an empty diff leaves the content
unchanged; otherwise the two file headers are skipped and the hunks applied. -/
def applyUnifiedDiff (diff original : String) : Option String :=
  match splitKeepNl diff with
  | [] => some original
  | l1 :: l2 :: rest =>
    if startsWithStr l1 "--- " && startsWithStr l2 "+++ " then
      match parseHunks rest with
      | some hunks =>
        (applyHunksFrom (splitKeepNl original) 0 hunks).map String.join
      | none => none
    else none
  | _ => none

/- ### Unified diff (`FixGenerator._generate_diff`, `fix_generator.py` lines 638-651)

`difflib.unified_diff` over `pySplitlines` (= `splitlines(keepends=True)`)
is ported: the matching-block search follows the documented semantics of
`SequenceMatcher.find_longest_match` (the longest block, earliest in `a`,
then earliest in `b`).  The junk heuristics (autojunk, active only for
sequences of 200+ lines) are not modelled — they change which blocks are
chosen, never the correctness of the emitted hunks. -/

/-- Length of the common run `a[i:ahi]` / `b[j:bhi]` starting at `i, j`
(fuel is `ahi - i`). -/
def matchLen (a b : List String) (ahi bhi : Nat) : Nat → Nat → Nat → Nat
  | 0, _, _ => 0
  | fuel + 1, i, j =>
    if i < ahi && j < bhi then
      match a.get? i, b.get? j with
      | some x, some y =>
        if x = y then 1 + matchLen a b ahi bhi fuel (i + 1) (j + 1) else 0
      | _, _ => 0
    else 0

/-- `SequenceMatcher.find_longest_match(alo, ahi, blo, bhi)`: the longest
matching block; ties go to the earliest start in `a`, then in `b`. -/
def findLongestMatch (a b : List String) (alo ahi blo bhi : Nat) : Nat × Nat × Nat :=
  (List.range' alo (ahi - alo)).foldl (fun best i =>
    (List.range' blo (bhi - blo)).foldl (fun best j =>
      let k := matchLen a b ahi bhi (ahi - i) i j
      if k > best.2.2 then (i, j, k) else best) best)
    (alo, blo, 0)

/-- The recursive block collection of `get_matching_blocks` (left part, match,
right part), with fuel `(ahi - alo) + (bhi - blo) + 1`. -/
def matchingBlocksGo (a b : List String) :
    Nat → Nat → Nat → Nat → Nat → List (Nat × Nat × Nat)
  | 0, _, _, _, _ => []
  | fuel + 1, alo, ahi, blo, bhi =>
    let m := findLongestMatch a b alo ahi blo bhi
    if m.2.2 = 0 then []
    else matchingBlocksGo a b fuel alo m.1 blo m.2.1 ++
      m :: matchingBlocksGo a b fuel (m.1 + m.2.2) ahi (m.2.1 + m.2.2) bhi

/-- The adjacent-block merge at the end of `get_matching_blocks`. -/
def mergeAdjacent : (Nat × Nat × Nat) → List (Nat × Nat × Nat) → List (Nat × Nat × Nat)
  | (i1, j1, k1), [] => if k1 ≠ 0 then [(i1, j1, k1)] else []
  | (i1, j1, k1), (i2, j2, k2) :: rest =>
    if i1 + k1 = i2 && j1 + k1 = j2 then mergeAdjacent (i1, j1, k1 + k2) rest
    else (if k1 ≠ 0 then [(i1, j1, k1)] else []) ++ mergeAdjacent (i2, j2, k2) rest

/-- `SequenceMatcher.get_matching_blocks`, ending with the `(la, lb, 0)` sentinel. -/
def getMatchingBlocks (a b : List String) : List (Nat × Nat × Nat) :=
  mergeAdjacent (0, 0, 0)
      (matchingBlocksGo a b (a.length + b.length + 1) 0 a.length 0 b.length) ++
    [(a.length, b.length, 0)]

inductive OpTag where
  | replace
  | delete
  | insert
  | equal
  deriving DecidableEq, Repr

/-- One opcode `(tag, i1, i2, j1, j2)` of `get_opcodes`. -/
structure Op where
  tag : OpTag
  i1 : Nat
  i2 : Nat
  j1 : Nat
  j2 : Nat
  deriving DecidableEq, Repr

def opcodesGo : Nat → Nat → List (Nat × Nat × Nat) → List Op
  | _, _, [] => []
  | i, j, (ai, bj, size) :: rest =>
    (if i < ai && j < bj then [⟨.replace, i, ai, j, bj⟩]
     else if i < ai then [⟨.delete, i, ai, j, bj⟩]
     else if j < bj then [⟨.insert, i, ai, j, bj⟩]
     else []) ++
    (if size ≠ 0 then [⟨.equal, ai, ai + size, bj, bj + size⟩] else []) ++
    opcodesGo (ai + size) (bj + size) rest

/-- `SequenceMatcher.get_opcodes`. -/
def getOpcodes (a b : List String) : List Op := opcodesGo 0 0 (getMatchingBlocks a b)

/-- Head trim of `get_grouped_opcodes`: a leading equal run is cut to its last
`n` lines. -/
def trimHeadOp (n : Nat) : List Op → List Op
  | [] => []
  | c :: rest =>
    if c.tag = .equal then
      { c with i1 := max c.i1 (c.i2 - n), j1 := max c.j1 (c.j2 - n) } :: rest
    else c :: rest

/-- Tail trim of `get_grouped_opcodes`: a trailing equal run is cut to its
first `n` lines. -/
def trimLastOp (n : Nat) (l : List Op) : List Op :=
  match l.reverse with
  | [] => []
  | c :: restRev =>
    ((if c.tag = .equal then
        { c with i2 := min c.i2 (c.i1 + n), j2 := min c.j2 (c.j1 + n) } else c) ::
      restRev).reverse

/-- Whether the final pending group is suppressed (`len(group) == 1 and
group[0][0] == 'equal'`, or an empty group). -/
def isTrivialGroup (group : List Op) : Bool :=
  group.isEmpty || (group.length = 1 && (group.head?.map Op.tag) = some OpTag.equal)

/-- The grouping loop of `get_grouped_opcodes(n)`: a long equal opcode closes
the current group (keeping `n` context lines) and opens the next one. -/
def groupGo (n : Nat) (group : List Op) : List Op → List (List Op)
  | [] => if isTrivialGroup group then [] else [group]
  | c :: rest =>
    if c.tag = .equal && c.i2 - c.i1 > n + n then
      (group ++ [{ c with i2 := min c.i2 (c.i1 + n), j2 := min c.j2 (c.j1 + n) }]) ::
        groupGo n [{ c with i1 := max c.i1 (c.i2 - n), j1 := max c.j1 (c.j2 - n) }] rest
    else groupGo n (group ++ [c]) rest

/-- `SequenceMatcher.get_grouped_opcodes(n)`. -/
def getGroupedOpcodes (n : Nat) (a b : List String) : List (List Op) :=
  let codes := getOpcodes a b
  let codes := if codes.isEmpty then [⟨.equal, 0, 1, 0, 1⟩] else codes
  groupGo n [] (trimLastOp n (trimHeadOp n codes))

/-- Decimal digits of `n` (most significant first, empty for 0); the fuel
`n + 1` dominates the digit count. -/
def natDigitsGo : Nat → Nat → List Char
  | 0, _ => []
  | fuel + 1, n =>
    if n = 0 then [] else natDigitsGo fuel (n / 10) ++ [Char.ofNat (48 + n % 10)]

/-- Python `str(n)` for a natural number. -/
def natToStr (n : Nat) : String := if n = 0 then "0" else (natDigitsGo (n + 1) n).asString

/-- `difflib._format_range_unified`. -/
def formatRangeUnified (start stop : Nat) : String :=
  let beginning := start + 1
  let length := stop - start
  if length = 1 then natToStr beginning
  else natToStr (if length = 0 then beginning - 1 else beginning) ++ "," ++ natToStr length

/-- The body lines emitted for one opcode (`' '`, `'-'`, `'+'` prefixes). -/
def opLines (a b : List String) (op : Op) : List String :=
  if op.tag = .equal then (sliceList a op.i1 op.i2).map (" " ++ ·)
  else
    (if op.tag = .replace || op.tag = .delete then
      (sliceList a op.i1 op.i2).map ("-" ++ ·) else []) ++
    (if op.tag = .replace || op.tag = .insert then
      (sliceList b op.j1 op.j2).map ("+" ++ ·) else [])

/-- The parsed form of the body lines of one opcode. -/
def opItems (a b : List String) (op : Op) : List (HunkTag × String) :=
  if op.tag = .equal then (sliceList a op.i1 op.i2).map (fun s => (HunkTag.ctx, s))
  else
    (if op.tag = .replace || op.tag = .delete then
      (sliceList a op.i1 op.i2).map (fun s => (HunkTag.del, s)) else []) ++
    (if op.tag = .replace || op.tag = .insert then
      (sliceList b op.j1 op.j2).map (fun s => (HunkTag.ins, s)) else [])

def groupItems (a b : List String) (g : List Op) : List (HunkTag × String) :=
  (g.map (opItems a b)).flatten

/-- The hunk a rendered group parses back to. -/
def toHunk (a b : List String) (g : List Op) : Hunk :=
  match g.head?, g.getLast? with
  | some first, some last =>
    ⟨first.i1, last.i2 - first.i1, last.j2 - first.j1, groupItems a b g⟩
  | _, _ => ⟨0, 0, 0, []⟩

/-- The lines emitted for one opcode group of `unified_diff`. -/
def renderGroup (a b : List String) (group : List Op) : List String :=
  match group.head?, group.getLast? with
  | some first, some last =>
    ("@@ -" ++ formatRangeUnified first.i1 last.i2 ++
        " +" ++ formatRangeUnified first.j1 last.j2 ++ " @@\n") ::
      (group.map (opLines a b)).flatten
  | _, _ => []

/-- `difflib.unified_diff(a, b, fromfile, tofile)` with the default context
`n = 3` and line terminator `"\n"`: the `---`/`+++` headers are emitted only
when at least one group exists. -/
def unifiedDiffLines (a b : List String) (fromfile tofile : String) : List String :=
  match getGroupedOpcodes 3 a b with
  | [] => []
  | groups =>
    ("--- " ++ fromfile ++ "\n") :: ("+++ " ++ tofile ++ "\n") ::
      (groups.map (renderGroup a b)).flatten

/-- `FixGenerator._generate_diff` (`fix_generator.py` lines 638-651):
`"".join(difflib.unified_diff(original_lines, fixed_lines, "a/<base>", "b/<base>"))`. -/
def generateDiff (original fixed filepath : String) : String :=
  String.join (unifiedDiffLines (pySplitlines original) (pySplitlines fixed)
    ("a/" ++ pathBasename filepath) ("b/" ++ pathBasename filepath))

/- ### Repository model for the Fault Localizer and Fix Applier

The cloned working tree: files listed in `os.walk` order, with contents.  All
paths are kept relative to the repository root (`os.path.join(repo_path, ·)`
and `os.path.relpath(·, repo_path)` are mutually inverse on them and are both
modelled as the identity). -/

structure RepoFile where
  path : String
  content : String
  deriving DecidableEq, Repr

abbrev Repo := List RepoFile

def repoExists (repo : Repo) (p : String) : Bool := repo.any (fun f => f.path = p)

def repoRead (repo : Repo) (p : String) : Option String :=
  (repo.find? (fun f => f.path = p)).map (·.content)

def repoWrite (repo : Repo) (p : String) (c : String) : Repo :=
  repo.map (fun f => if f.path = p then { f with content := c } else f)

/-- Python `str.endswith`. -/
def endsWithStr (s suf : String) : Bool := suf.data.reverse.isPrefixOf s.data.reverse

/-- Python `s.split(sep)[-1]` for a one-character separator. -/
def lastDotComponent (s : String) : String :=
  ((s.data.reverse.takeWhile (· ≠ '.')).reverse).asString

/-- Python `s.split(".")[0]`. -/
def firstDotComponent (s : String) : String := (s.data.takeWhile (· ≠ '.')).asString

/-- `f[:-3]`: the stem of a `.py` basename. -/
def stemStr (s : String) : String := (s.data.take (s.data.length - 3)).asString

/-- Python `str.replace(old, new)` (all non-overlapping occurrences, left to
right; `old` is non-empty at every use site). -/
def replaceSubGo (old new : List Char) : Nat → List Char → List Char
  | 0, l => l
  | _ + 1, [] => []
  | fuel + 1, l@(c :: t) =>
    if old.isPrefixOf l then new ++ replaceSubGo old new fuel (l.drop old.length)
    else c :: replaceSubGo old new fuel t

def replaceSub (s old new : String) : String :=
  (replaceSubGo old.data new.data (s.data.length + 1) s.data).asString

/-- Directory names pruned from every `os.walk` in `fix_generator.py`
(`dirs[:] = [d for d in dirs if not d.startswith(".") and d not in [...]]`). -/
def prunedDirs : List String := ["node_modules", "__pycache__", "venv", ".venv"]

/-- The additional directories pruned by the naming-convention strategy
(`fix_generator.py` lines 594-596). -/
def prunedDirsStrat2 : List String :=
  ["node_modules", "__pycache__", "venv", ".venv", "test", "tests",
   "__tests__", "dist", "build"]

/-- Split a path on `/`. -/
def splitSlashGo (cur : List Char) : List Char → List (List Char)
  | [] => [cur.reverse]
  | '/' :: t => cur.reverse :: splitSlashGo [] t
  | c :: t => splitSlashGo (c :: cur) t

def pathComponents (p : String) : List String := (splitSlashGo [] p.data).map List.asString

/-- A file survives the walk pruning iff none of its directory components is
hidden or blocked. -/
def walkVisible (blocked : List String) (p : String) : Bool :=
  (pathComponents p).dropLast.all fun d =>
    !startsWithStr d "." && !blocked.any (fun b => b = d)

/-- `os.walk` with the pruning applied: the files of the repository, in walk
order, that are not under a pruned directory. -/
def walkFiles (blocked : List String) (repo : Repo) : Repo :=
  repo.filter (fun f => walkVisible blocked f.path)

/-- The files of the top-level directory, yielded first by `os.walk`. -/
def rootFiles (repo : Repo) : Repo :=
  repo.filter (fun f => !containsSub f.path "/")

/- ### Fault Localizer (`FixGenerator._locate_source_file`,
`fix_generator.py` lines 448-619) -/

/-- The structural-parse-failure markers of the fatal-syntax shortcut
(`fix_generator.py` line 460). -/
def syntaxKeywords : List String :=
  ["indentationerror", "syntaxerror", "taberror", "unexpected indent",
   "unindent", "invalid syntax"]

/-- The standard-library modules skipped by the import strategy
(`fix_generator.py` lines 546-548). -/
def stdlibModules : List String :=
  ["os", "sys", "re", "json", "math", "pytest", "unittest", "mock", "datetime",
   "collections", "typing", "pathlib", "io", "abc"]

/-- `re.search(r"no module named ['\"]?([\w.]+)['\"]?", text)` at one position. -/
def missingModuleStep (l : List Char) : Option (String × List Char) := do
  let r1 ← dropLit "no module named ".data l
  let r2 := match r1 with
    | '\'' :: t => t
    | '"' :: t => t
    | _ => r1
  let name := r2.takeWhile (fun c => isWordChar c || c = '.')
  guard (!name.isEmpty)
  return (name.asString, r2.drop name.length)

def missingModuleSearch (text : String) : Option String :=
  (scanFirst missingModuleStep (text.data.length + 1) text.data).map (·.1)

/-- `re.search(r"name ['\"]?([\w]+)['\"]? is not defined", text)` at one position. -/
def nameErrorStep (l : List Char) : Option (String × List Char) := do
  let r1 ← dropLit "name ".data l
  let r2 := match r1 with
    | '\'' :: t => t
    | '"' :: t => t
    | _ => r1
  let name := r2.takeWhile isWordChar
  guard (!name.isEmpty)
  let r3 := r2.drop name.length
  let r4 := match r3 with
    | '\'' :: t => t
    | '"' :: t => t
    | _ => r3
  let r5 ← dropLit " is not defined".data r4
  return (name.asString, r5)

def nameErrorSearch (text : String) : Option String :=
  (scanFirst nameErrorStep (text.data.length + 1) text.data).map (·.1)

/-- One match of `from\s+([\w.]+)\s+import`. -/
def fromImportStep (l : List Char) : Option (String × List Char) := do
  let r1 ← dropLit "from".data l
  let sp := r1.takeWhile isSpaceChar
  guard (!sp.isEmpty)
  let r2 := r1.dropWhile isSpaceChar
  let name := r2.takeWhile (fun c => isWordChar c || c = '.')
  guard (!name.isEmpty)
  let r3 := r2.drop name.length
  let sp2 := r3.takeWhile isSpaceChar
  guard (!sp2.isEmpty)
  let r4 ← dropLit "import".data (r3.dropWhile isSpaceChar)
  return (name.asString, r4)

def fromImports (content : String) : List String :=
  scanMatches fromImportStep (content.data.length + 1) content.data

/-- One match of `import\s+([\w.]+)` (no anchor — as used by the NameError
strategy, where it also fires on the `import` inside a `from ... import`). -/
def importAnywhereStep (l : List Char) : Option (String × List Char) := do
  let r1 ← dropLit "import".data l
  let sp := r1.takeWhile isSpaceChar
  guard (!sp.isEmpty)
  let r2 := r1.dropWhile isSpaceChar
  let name := r2.takeWhile (fun c => isWordChar c || c = '.')
  guard (!name.isEmpty)
  return (name.asString, r2.drop name.length)

def importsAnywhere (content : String) : List String :=
  scanMatches importAnywhereStep (content.data.length + 1) content.data

/-- `re.compile(r"^import\s+([\w.]+)", re.MULTILINE)`: anchored at line
starts (as used by the import-graph strategy). -/
def importsAnchored (content : String) : List String :=
  (splitOnNl content).filterMap fun line => (importAnywhereStep line.data).map (·.1)

/-- Whether a `.py` basename is test-like for the fuzzy matches
(`f.startswith("test") or "test" in f` skips it). -/
def isTestLikeName (n : String) : Bool := startsWithStr n "test" || containsSub n "test"

/-- Strategy 0 helper: some non-test `.py` file fuzzy-matches the missing
module name (`fix_generator.py` lines 472-479). -/
def fuzzyModuleHit (repo : Repo) (missing_base : String) : Bool :=
  (walkFiles prunedDirs repo).any fun f =>
    let n := pathBasename f.path
    endsWithStr n ".py" && !isTestLikeName n &&
      (startsWithStr (stemStr n) missing_base || startsWithStr missing_base (stemStr n))

/-- Strategy 0: on a ModuleNotFoundError whose missing name fuzzy-matches a
real module, return `test.py` at the root, else the first test-named `.py`
file of an unpruned walk (`fix_generator.py` lines 465-488). -/
def strat0ModuleNotFound (failure : TestFailure) (repo : Repo) : Option String :=
  let all_error_text := lowerStr (failure.error_message ++ " " ++ failure.error_type ++
    " " ++ failure.raw_output)
  if containsSub all_error_text "modulenotfounderror" ||
      (containsSub all_error_text "importerror" && containsSub all_error_text "no module") then
    match missingModuleSearch all_error_text with
    | some missing =>
      let missing_base := lastDotComponent missing
      if fuzzyModuleHit repo missing_base then
        if repoExists repo "test.py" then some "test.py"
        else (repo.find? fun f =>
          startsWithStr (pathBasename f.path) "test" &&
            endsWithStr (pathBasename f.path) ".py").map (·.path)
      else none
    | none => none
  else none

/-- Strategy 0b inner fold: find the source candidate for the NameError reroute.
Once a candidate is set, each later import only rescans the first walked
directory (the repository root) before the `break` fires
(`fix_generator.py` lines 509-517). -/
def nameErrorCandidate (repo : Repo) : List String → Option String → Option String
  | [], cand => cand
  | imp :: rest, cand =>
    let base := firstDotComponent imp
    let hit := fun (r : Repo) => (r.find? fun f =>
      pathBasename f.path = base ++ ".py" || pathBasename f.path = base ++ "s.py").map (·.path)
    match cand with
    | none => nameErrorCandidate repo rest (hit repo)
    | some c =>
      match hit (rootFiles repo) with
      | some c' => nameErrorCandidate repo rest (some c')
      | none => nameErrorCandidate repo rest (some c)

/-- Strategy 0b: a NameError in the test file whose missing name is defined in
an imported source file reroutes to the test file
(`fix_generator.py` lines 490-530). -/
def strat0bNameError (failure : TestFailure) (repo : Repo) (err_lower : String) :
    Option String :=
  if containsSub err_lower "nameerror" && containsSub err_lower "name" &&
      containsSub err_lower "is not defined" then
    match nameErrorSearch err_lower with
    | some missing_name =>
      if repoExists repo failure.file_path then
        match repoRead repo failure.file_path with
        | some content =>
          let imports := fromImports content ++ importsAnywhere content
          match nameErrorCandidate repo imports none with
          | some cand =>
            match repoRead repo cand with
            | some src =>
              if containsSub src ("def " ++ missing_name) ||
                  containsSub src ("class " ++ missing_name) then
                some failure.file_path
              else none
            | none => none
          | none => none
        | none => none
      else none
    | none => none
  else none

/-- One module of the import-graph strategy: exact path or basename match
first (checked during the walk), then fuzzy basename match among non-test
files (`fix_generator.py` lines 543-573). -/
def strat1TryModule (repo : Repo) (module_name : String) : Option String :=
  if stdlibModules.any (fun m => m = module_name) then none
  else
    let module_path :=
      (module_name.data.map (fun c => if c = '.' then '/' else c)).asString ++ ".py"
    let pyFiles := (walkFiles prunedDirs repo).filter
      (fun f => endsWithStr (pathBasename f.path) ".py")
    match pyFiles.find? (fun f => f.path = module_path ||
        pathBasename f.path = module_name ++ ".py") with
    | some f => some f.path
    | none =>
      let base := lastDotComponent module_name
      (pyFiles.find? fun f =>
        let n := pathBasename f.path
        (startsWithStr (stemStr n) base || startsWithStr base (stemStr n)) &&
          !isTestLikeName n).map (·.path)

/-- The first hit of a list of options. -/
def firstSomeList {α : Type} : List (Option α) → Option α
  | [] => none
  | some a :: _ => some a
  | none :: rest => firstSomeList rest

/-- Strategy 1: parse the test file's imports and look each module up
(`fix_generator.py` lines 532-576). -/
def strat1Imports (failure : TestFailure) (repo : Repo) : Option String :=
  if repoExists repo failure.file_path then
    match repoRead repo failure.file_path with
    | some content =>
      let modules := fromImports content ++ importsAnchored content
      firstSomeList (modules.map (strat1TryModule repo))
    | none => none
  else none

/-- Strategy 2: naming-convention candidates derived from the record's
basename (`fix_generator.py` lines 578-599). -/
def strat2Candidates (basename : String) : List String :=
  (if startsWithStr basename "test_" then [(basename.data.drop 5).asString] else []) ++
  (if endsWithStr basename "_test.py" then [replaceSub basename "_test.py" ".py"] else []) ++
  (if containsSub basename ".test." then [replaceSub basename ".test." "."] else []) ++
  (if containsSub basename ".spec." then [replaceSub basename ".spec." "."] else []) ++
  (if endsWithStr basename "Test.java" then [replaceSub basename "Test.java" ".java"] else [])

def strat2Naming (failure : TestFailure) (repo : Repo) : Option String :=
  let candidates := strat2Candidates (pathBasename failure.file_path)
  ((walkFiles prunedDirsStrat2 repo).find? fun f =>
    candidates.any (fun c => c = pathBasename f.path)).map (·.path)

/-- One token of `re.findall(r'[\w/\\]+\.\w+', text)`. -/
def fileRefTokenStep (l : List Char) : Option (String × List Char) := do
  let a := l.takeWhile (fun c => isWordChar c || c = '/' || c = '\\')
  guard (!a.isEmpty)
  let r1 ← dropLit ['.'] (l.drop a.length)
  let ext := r1.takeWhile isWordChar
  guard (!ext.isEmpty)
  return ((a ++ '.' :: ext).asString, r1.drop ext.length)

/-- `FixGenerator._extract_file_refs` (`fix_generator.py` lines 621-629). -/
def extractFileRefs (repo : Repo) (text : String) : List String :=
  (scanMatches fileRefTokenStep (text.data.length + 1) text.data).filter
    (repoExists repo)

def strat3MessageRefs (failure : TestFailure) (repo : Repo) : Option String :=
  if failure.error_message ≠ "" then (extractFileRefs repo failure.error_message).head?
  else none

/-- Strategy 4: any non-test, non-tooling Python file
(`fix_generator.py` lines 607-613). -/
def strat4AnyPy (repo : Repo) : Option String :=
  ((walkFiles prunedDirs repo).find? fun f =>
    let n := pathBasename f.path
    endsWithStr n ".py" && !startsWithStr n "test_" && !endsWithStr n "_test.py" &&
      n ≠ "conftest.py" && n ≠ "setup.py").map (·.path)

/-- `FixGenerator._locate_source_file` (`fix_generator.py` lines 448-619):
the strategies in priority order, first match wins. -/
def locateSourceFile (failure : TestFailure) (repo : Repo) : Option String :=
  let err_lower := lowerStr (failure.error_message ++ " " ++ failure.error_type)
  if syntaxKeywords.any (containsSub err_lower) && repoExists repo failure.file_path then
    some failure.file_path
  else match strat0ModuleNotFound failure repo with
  | some p => some p
  | none => match strat0bNameError failure repo err_lower with
    | some p => some p
    | none => match strat1Imports failure repo with
      | some p => some p
      | none => match strat2Naming failure repo with
        | some p => some p
        | none => match strat3MessageRefs failure repo with
          | some p => some p
          | none => match strat4AnyPy repo with
            | some p => some p
            | none =>
              if repoExists repo failure.file_path then some failure.file_path
              else none

/- ### Fix Applier (`FixGenerator.generate_fix`, `generate_fix_for_file`,
`_extract_code`; `fix_generator.py`)

The Fix Oracle (`_call_sarvam`) is an opaque network collaborator (spec
sections 1 and 6): its outcome is the `aiResponse` parameter (`none` for an
empty response or a raised error, both of which the applier treats as "no
fix").  Prompt construction (`_build_prompt`/`_build_multi_prompt`) is pure
string formatting consumed only by the oracle and is not modelled.  The
outcome records whether the oracle was invoked. -/

/-- `re.sub(r'\b' + re.escape(target) + r'\b', replacement, s)` for a target
made of word characters: replace every identifier-bounded occurrence.
Boundary checks look at the original text on both sides of the match. -/
def wbrGo (tgt rep : List Char) (prevWord : Bool) : Nat → List Char → List Char
  | 0, l => l
  | _ + 1, [] => []
  | fuel + 1, l@(c :: t) =>
    if !prevWord && tgt.isPrefixOf l &&
        (match l.drop tgt.length with
         | [] => true
         | d :: _ => !isWordChar d) then
      rep ++ wbrGo tgt rep true fuel (l.drop tgt.length)
    else c :: wbrGo tgt rep (isWordChar c) fuel t

def wordBoundedReplace (target replacement s : String) : String :=
  (wbrGo target.data replacement.data false (s.data.length + 1) s.data).asString

/-- The lazy `(.*?)` up to a literal: text before the first occurrence of
`lit`, plus the rest after it. -/
def takeUntilLit (lit : List Char) : Nat → List Char → Option (List Char × List Char)
  | 0, _ => none
  | fuel + 1, l =>
    if lit.isPrefixOf l then some ([], l.drop lit.length)
    else match l with
      | [] => none
      | c :: t => (takeUntilLit lit fuel t).map (fun r => (c :: r.1, r.2))

/-- One match of `re.findall(r"```(?:\w+)?\n(.*?)```", ai_response, re.DOTALL)`. -/
def codeBlockStep (l : List Char) : Option (String × List Char) := do
  let r1 ← dropLit "```".data l
  let r2 := r1.dropWhile isWordChar
  let r3 ← dropLit ['\n'] r2
  let (body, rest) ← takeUntilLit "```".data (r3.length + 1) r3
  return (body.asString, rest)

/-- `FixGenerator._extract_code` (`fix_generator.py` lines 426-446).  The
`original` parameter of the source function is unused in its body. -/
def extractCode (ai_response : String) : Option String :=
  let code_blocks := scanMatches codeBlockStep (ai_response.data.length + 1)
    ai_response.data
  match code_blocks with
  | b :: rest =>
    -- `max(code_blocks, key=len)`: the first block of maximal length.
    let best := rest.foldl (fun best c =>
      if c.data.length > best.data.length then c else best) b
    some (pyStrip best ++ "\n")
  | [] =>
    let lines := splitOnNl (pyStrip ai_response)
    let code_lines := lines.filter fun ln =>
      !startsWithStr ln "#" || startsWithStr ln "#!/"
    if code_lines.length > 3 then some (pyStrip (joinNl code_lines) ++ "\n")
    else none

/-- The outcome of one applier invocation: the Change Record (if any), the
working tree after any write, and whether the Fix Oracle was invoked. -/
structure FixOutcome where
  change : Option FileChange
  repo : Repo
  oracleCalled : Bool
  deriving Repr

/-- The real-module search of the programmatic import fix
(`fix_generator.py` lines 50-63): the first non-test `.py` stem that
fuzzy-matches the missing name. -/
def findRealModule (repo : Repo) (mn_base : String) : Option String :=
  ((walkFiles prunedDirs repo).find? fun f =>
    let n := pathBasename f.path
    endsWithStr n ".py" && !isTestLikeName n &&
      (startsWithStr (stemStr n) mn_base || startsWithStr mn_base (stemStr n))).map
    (fun f => stemStr (pathBasename f.path))

/-- The Change Record of the programmatic import fix
(`fix_generator.py` lines 82-92). -/
def mkProgImportChange (source_file missing real_module original fixed : String)
    (line_number : Option Nat) : FileChange :=
  { file_path := source_file
    original_content := original
    fixed_content := fixed
    diff := generateDiff original fixed source_file
    description := "Fixed import: '" ++ missing ++ "' → '" ++ real_module ++ "'"
    bug_type := BugType.IMPORT
    commit_message := "[AI-AGENT] Fix IMPORT in " ++ source_file ++
      ": wrong module name '" ++ missing ++ "'"
    line_number := line_number
    status := "fixed" }

/-- The guard chain of the programmatic ModuleNotFoundError import rename
(`fix_generator.py` lines 41-94): the error text must indicate a missing
module, the localized target must be test-named, a real module must
fuzzy-match, and the identifier-bounded rewrite must change the file.
Returns `(missing, real_module, original, fixed)`. -/
def progImportArgs (failure : TestFailure) (repo : Repo) (source_file : String) :
    Option (String × String × String × String) :=
  let all_err := lowerStr (failure.error_message ++ " " ++ failure.error_type ++
    " " ++ failure.raw_output)
  if containsSub all_err "modulenotfounderror" ||
      (containsSub all_err "importerror" && containsSub all_err "no module") then
    match missingModuleSearch all_err with
    | some missing =>
      if startsWithStr (pathBasename source_file) "test" then
        let mn_base := lastDotComponent missing
        match findRealModule repo mn_base with
        | some real_module =>
          if real_module ≠ mn_base then
            match repoRead repo source_file with
            | some original =>
              let fixed := wordBoundedReplace mn_base real_module original
              if fixed ≠ original then some (missing, real_module, original, fixed)
              else none
            | none => none
          else none
        | none => none
      else none
    | none => none
  else none

/-- The programmatic ModuleNotFoundError import rename tried before the
oracle: write the rewritten file and return an IMPORT Change Record. -/
def tryProgImportFix (failure : TestFailure) (repo : Repo) (source_file : String) :
    Option (FileChange × Repo) :=
  (progImportArgs failure repo source_file).map fun a =>
    (mkProgImportChange source_file a.1 a.2.1 a.2.2.1 a.2.2.2 failure.line_number,
      repoWrite repo source_file a.2.2.2)

/-- The Change Record of an oracle fix for a single failure
(`fix_generator.py` lines 150-160). -/
def mkAiChange (failure : TestFailure) (source_file original fixed : String) : FileChange :=
  let bug_type := classifyBugType failure
  { file_path := source_file
    original_content := original
    fixed_content := fixed
    diff := generateDiff original fixed source_file
    description := "Fix for " ++ failure.test_name ++ ": " ++ failure.error_type
    bug_type := bug_type
    commit_message := "[AI-AGENT] Fix " ++ bug_type.value ++ " in " ++ source_file ++
      ": " ++ failure.error_type
    line_number := failure.line_number
    status := "fixed" }

/-- The oracle/extraction stage shared by both applier entry points: `none`
for no response, no extractable block, or content identical to the original
("no progress this round"). -/
def aiFixedContent (aiResponse : Option String) (original : String) : Option String :=
  match aiResponse with
  | none => none
  | some resp =>
    match extractCode resp with
    | some fixed => if fixed ≠ original then some fixed else none
    | none => none

/-- `FixGenerator.generate_fix` (`fix_generator.py` lines 26-167): locate the
file, try the programmatic import fix, else consult the oracle, extract a code
block, and apply it when it differs from the original. -/
def generateFix (aiResponse : Option String) (failure : TestFailure) (repo : Repo) :
    FixOutcome :=
  match locateSourceFile failure repo with
  | none => ⟨none, repo, false⟩
  | some source_file =>
    match tryProgImportFix failure repo source_file with
    | some (change, repo') => ⟨some change, repo', false⟩
    | none =>
      match repoRead repo source_file with
      | none => ⟨none, repo, false⟩
      | some original =>
        -- the oracle is consulted from here on
        { change := (aiFixedContent aiResponse original).map
            (mkAiChange failure source_file original)
          repo := match aiFixedContent aiResponse original with
            | some fixed => repoWrite repo source_file fixed
            | none => repo
          oracleCalled := true }

/-- First-occurrence deduplication: Python's `set(...)` iteration order is
implementation-defined; it is modelled as first-occurrence order (the value
only feeds human-readable description strings). -/
def dedupFirst : List String → List String
  | [] => []
  | s :: rest => s :: (dedupFirst rest).filter (fun t => t ≠ s)

def joinCommaSep : List String → String
  | [] => ""
  | [s] => s
  | s :: rest => s ++ ", " ++ joinCommaSep rest

/-- The Change Record of a batched multi-error oracle fix
(`fix_generator.py` lines 319-329). -/
def mkMultiChange (failures : List TestFailure) (source_file original fixed : String) :
    FileChange :=
  let bug_type := selectBugType (failures.map classifyBugType)
  let error_types_str := joinCommaSep (dedupFirst
    ((failures.map TestFailure.error_type).filter (fun t => t ≠ "")))
  { file_path := source_file
    original_content := original
    fixed_content := fixed
    diff := generateDiff original fixed source_file
    description := "Fixed " ++ Nat.repr failures.length ++ " error(s): " ++ error_types_str
    bug_type := bug_type
    commit_message := "[AI-AGENT] Fix " ++ bug_type.value ++ " (" ++
      Nat.repr failures.length ++ " errors) in " ++ source_file
    line_number := match failures.head? with
      | some f => f.line_number
      | none => none
    status := "fixed" }

/-- `FixGenerator.generate_fix_for_file` (`fix_generator.py` lines 233-336):
one oracle call for all failures of a single file. -/
def generateFixForFile (aiResponse : Option String) (failures : List TestFailure)
    (source_file : String) (repo : Repo) : FixOutcome :=
  if failures.isEmpty then ⟨none, repo, false⟩
  else
    match repoRead repo source_file with
    | none => ⟨none, repo, false⟩
    | some original =>
      { change := (aiFixedContent aiResponse original).map
          (mkMultiChange failures source_file original)
        repo := match aiFixedContent aiResponse original with
          | some fixed => repoWrite repo source_file fixed
          | none => repo
        oracleCalled := true }

/- ### Validity predicates for opcodes and groups (used by the round-trip
development for the `diff` field) -/

/-- A well-formed opcode over `a`, `b`: ordered bounds; an `equal` opcode
relates genuinely equal aligned segments; `insert`/`delete` leave the other
side empty. -/
def OpOK (a b : List String) (op : Op) : Prop :=
  op.i1 ≤ op.i2 ∧ op.j1 ≤ op.j2 ∧ op.i2 ≤ a.length ∧ op.j2 ≤ b.length ∧
    (op.tag = .equal → sliceList a op.i1 op.i2 = sliceList b op.j1 op.j2 ∧
      op.i2 - op.i1 = op.j2 - op.j1) ∧
    (op.tag = .insert → op.i1 = op.i2) ∧
    (op.tag = .delete → op.j1 = op.j2)

/-- A contiguous chain of well-formed opcodes from `(i, j)` to `(e, e')`. -/
inductive Chain (a b : List String) : Nat → Nat → List Op → Nat → Nat → Prop where
  | nil : ∀ i j, Chain a b i j [] i j
  | cons : ∀ (op : Op) (ops : List Op) (e e' : Nat), OpOK a b op →
      Chain a b op.i2 op.j2 ops e e' → Chain a b op.i1 op.j1 (op :: ops) e e'

/-- The shape `get_grouped_opcodes` guarantees: consecutive non-empty opcode
chains whose gaps (before each group and after the last) are equal segments
of `a` and `b`. -/
def GroupsSpec (a b : List String) : Nat → Nat → List (List Op) → Prop
  | p, p', [] =>
    sliceList a p a.length = sliceList b p' b.length ∧ p ≤ a.length ∧ p' ≤ b.length
  | p, p', g :: gs => ∃ s s' e e', g ≠ [] ∧ Chain a b s s' g e e' ∧ p ≤ s ∧ p' ≤ s' ∧
      sliceList a p s = sliceList b p' s' ∧ GroupsSpec a b e e' gs

/-- The matching blocks produced inside a window: ordered, bounded, genuine. -/
def BlocksIn (a b : List String) : Nat → Nat → Nat → Nat → List (Nat × Nat × Nat) → Prop
  | _, _, _, _, [] => True
  | alo, blo, ahi, bhi, (bi, bj, k) :: rest =>
    alo ≤ bi ∧ blo ≤ bj ∧ bi + k ≤ ahi ∧ bj + k ≤ bhi ∧
      (∀ t < k, a.get? (bi + t) = b.get? (bj + t)) ∧
      BlocksIn a b (bi + k) (bj + k) ahi bhi rest

/-- The block list consumed by `get_opcodes`: ordered, bounded, genuine, and
(thanks to the sentinel) ending exactly at `(a.length, b.length)`. -/
def BlocksSpec (a b : List String) : Nat → Nat → List (Nat × Nat × Nat) → Prop
  | i, j, [] => i = a.length ∧ j = b.length
  | i, j, (bi, bj, k) :: rest =>
    i ≤ bi ∧ j ≤ bj ∧ bi + k ≤ a.length ∧ bj + k ≤ b.length ∧
      (∀ t < k, a.get? (bi + t) = b.get? (bj + t)) ∧
      BlocksSpec a b (bi + k) (bj + k) rest

/- ### Repair Loop Controller (`Agent.run`, `agent.py` lines 43-291)

The controller's collaborators are oracle parameters (spec section 6): test
execution is a sequence of results indexed by execution count, localization
and fix generation are per-iteration functions (the working tree mutates
between iterations), CI presence and outcome are fixed booleans.  The
externally observable operations — test executions, per-group fix
applications, and `commit_changes` invocations — are recorded in a trace in
the order the controller performs them.  The clone/analyze/branch phases,
push, pull-request and event emission are mechanical I/O wrappers outside the
core (spec section 1) and are not modelled. -/

/-- `CICDStatus` (`models.py` lines 28-33). -/
inductive CicdStatus where
  | PENDING
  | RUNNING
  | PASSED
  | FAILED
  | UNKNOWN
  deriving DecidableEq, Repr

/-- The result of one `run_tests` call: `success` is the process exit status,
`failures` the parsed Failure Records. -/
structure TestResult where
  success : Bool
  failures : List TestFailure
  deriving DecidableEq, Repr

/-- `IterationResult` (`models.py` lines 78-86), the fields the loop sets. -/
structure IterationRecord where
  iteration_number : Nat
  failures_before : Nat
  failures_after : Nat
  fixes_applied : List FileChange
  status : String
  deriving DecidableEq, Repr

/-- One externally observable operation of the controller. -/
inductive LoopEvent where
  | testExec
  | fixApplied (file : String)
  | commitCall (message : String)
  deriving DecidableEq, Repr

def isCommitEvent : LoopEvent → Bool
  | .commitCall _ => true
  | _ => false

/-- The collaborators of one run. -/
structure AgentWorld where
  testResults : Nat → TestResult
  locate : Nat → TestFailure → Option String
  fixOracle : Nat → TestFailure → Option FileChange
  fixOracleMulti : Nat → String → List TestFailure → Option FileChange
  hasWorkflows : Bool
  cicdResult : CicdStatus

/-- Insertion into the insertion-ordered grouping dict
(`file_failure_groups.setdefault(src, []).append(failure)`, `agent.py` line 142). -/
def groupInsert (groups : List (String × List TestFailure)) (src : String)
    (f : TestFailure) : List (String × List TestFailure) :=
  match groups with
  | [] => [(src, [f])]
  | (k, fs) :: rest =>
    if k = src then (k, fs ++ [f]) :: rest else (k, fs) :: groupInsert rest src f

/-- Group the outstanding failures by the file the Localizer resolves them to;
unresolvable records are dropped (`agent.py` lines 137-142). -/
def groupFailures (locate : TestFailure → Option String) (failures : List TestFailure) :
    List (String × List TestFailure) :=
  failures.foldl (fun gs f =>
    match locate f with
    | none => gs
    | some src => groupInsert gs src f) []

/-- `generate_fix` tried per failure of the group, first hit wins
(`agent.py` lines 153-157). -/
def firstFixFor (genFix : TestFailure → Option FileChange) :
    List TestFailure → Option FileChange
  | [] => none
  | f :: rest =>
    match genFix f with
    | some fx => some fx
    | none => firstFixFor genFix rest

/-- One group's fix: per-failure `generate_fix`, else the batched
`generate_fix_for_file` (`agent.py` lines 152-164). -/
def fixForGroup (w : AgentWorld) (it : Nat) (g : String × List TestFailure) :
    Option FileChange :=
  match firstFixFor (w.fixOracle it) g.2 with
  | some fx => some fx
  | none => w.fixOracleMulti it g.1 g.2

structure LoopOut where
  iterations : List IterationRecord
  allChanges : List FileChange
  finalResult : TestResult
  trace : List LoopEvent
  deriving Repr

/-- The iteration loop (`agent.py` lines 111-198): `n` is the remaining
budget, `it` the 1-based iteration number, `k` the index of the next test
execution, `tr` the latest test result.  An iteration with no outstanding
failures breaks without a record; otherwise the groups are fixed, the suite is
re-run, and the iteration record is appended with status `success`/`failed`. -/
def agentLoop (w : AgentWorld) : Nat → Nat → Nat → TestResult → LoopOut
  | 0, _, _, tr => ⟨[], [], tr, []⟩
  | n + 1, it, k, tr =>
    if tr.failures.isEmpty then ⟨[], [], tr, []⟩
    else
      let groups := groupFailures (w.locate it) tr.failures
      let fixes := groups.filterMap (fixForGroup w it)
      let fixEvents := fixes.map (fun fx => LoopEvent.fixApplied fx.file_path)
      let rerun := w.testResults k
      if rerun.success then
        ⟨[{ iteration_number := it, failures_before := tr.failures.length,
            failures_after := rerun.failures.length, fixes_applied := fixes,
            status := "success" }],
          fixes, rerun, fixEvents ++ [LoopEvent.testExec]⟩
      else
        let rest := agentLoop w n (it + 1) (k + 1) rerun
        ⟨{ iteration_number := it, failures_before := tr.failures.length,
            failures_after := rerun.failures.length, fixes_applied := fixes,
            status := "failed" } :: rest.iterations,
          fixes ++ rest.allChanges, rest.finalResult,
          fixEvents ++ [LoopEvent.testExec] ++ rest.trace⟩

structure RunOutcome where
  iterations : List IterationRecord
  allChanges : List FileChange
  totalFixesApplied : Nat
  cicdStatus : CicdStatus
  trace : List LoopEvent
  deriving Repr

/-- `Agent.run` (`agent.py` lines 90-268, the phases of the core loop): the
initial test run returns early with status PASSED on success; otherwise up to
`maxIterations` repair iterations run (`settings.max_iterations`, default 5;
`config.py` line 21), then the accumulated changes are committed in one
`commit_changes` call if any exist, and the final status is the CI result
(when workflows exist and changes were made) or the last local test result. -/
def agentRun (w : AgentWorld) (maxIterations : Nat) : RunOutcome :=
  let r0 := w.testResults 0
  if r0.success then
    { iterations := [], allChanges := [], totalFixesApplied := 0,
      cicdStatus := .PASSED, trace := [.testExec] }
  else
    let L := agentLoop w maxIterations 1 1 r0
    let commitTrace : List LoopEvent :=
      if L.allChanges.isEmpty then []
      else [.commitCall ("Fix: " ++ Nat.repr L.allChanges.length ++
        " fix(es) applied across " ++
        Nat.repr (dedupFirst (L.allChanges.map (·.file_path))).length ++ " file(s)")]
    let status :=
      if w.hasWorkflows && !L.allChanges.isEmpty then w.cicdResult
      else if L.finalResult.success then CicdStatus.PASSED else CicdStatus.FAILED
    { iterations := L.iterations, allChanges := L.allChanges,
      totalFixesApplied := L.allChanges.length, cicdStatus := status,
      trace := LoopEvent.testExec :: (L.trace ++ commitTrace) }

/-- A run that times out: the test command fails with no parseable output, so
zero Failure Records are produced while `success` is `false`. -/
def exWorldTimeout : AgentWorld :=
  { testResults := fun _ => { success := false, failures := [] }
    locate := fun _ _ => none
    fixOracle := fun _ _ => none
    fixOracleMulti := fun _ _ _ => none
    hasWorkflows := false
    cicdResult := .UNKNOWN }

def exFailA : TestFailure := { test_name := "ta", file_path := "a.py" }

def exFailB : TestFailure := { test_name := "tb", file_path := "b.py" }

/-- A run whose first iteration fixes two file groups and then passes. -/
def exWorldTwoGroups : AgentWorld :=
  { testResults := fun k =>
      if k = 0 then { success := false, failures := [exFailA, exFailB] }
      else { success := true, failures := [] }
    locate := fun _ f => some f.file_path
    fixOracle := fun _ f => some { file_path := f.file_path }
    fixOracleMulti := fun _ _ _ => none
    hasWorkflows := false
    cicdResult := .UNKNOWN }

def isTestExecEvent : LoopEvent → Bool
  | .testExec => true
  | _ => false

/-- A run whose initial suite passes. -/
def exWorldPassing : AgentWorld :=
  { testResults := fun _ => { success := true, failures := [] }
    locate := fun _ _ => none
    fixOracle := fun _ _ => none
    fixOracleMulti := fun _ _ _ => none
    hasWorkflows := false
    cicdResult := .UNKNOWN }

/- ### Concrete example inputs used by witnesses and counterexamples -/

/-- A repository where the missing module `mathutil` fuzzy-matches the real
`mathutils.py` and no test-named file exists, so the Localizer resolves the
failure to `mathutils.py` via the import-graph strategy. -/
def exRepoMod : Repo :=
  [⟨"mathutils.py", "def add(a, b):\n    return a + b\n"⟩,
   ⟨"runner.py", "import mathutil\n"⟩]

def exFailMod : TestFailure :=
  { test_name := "t", file_path := "runner.py",
    error_message := "ModuleNotFoundError: No module named 'mathutil'",
    error_type := "ModuleNotFoundError" }

/-- An oracle response holding one fenced code block. -/
def exOracleResponse : String := "```\nx = 1\n```"

/-- The Change Record the applier produces on `exRepoMod`. -/
def exAiChange : FileChange :=
  ((generateFix (some exOracleResponse) exFailMod exRepoMod).change).getD
    { file_path := "" }

def exFailSyn : TestFailure :=
  { file_path := "test.py"
    error_message := "IndentationError: unexpected indent"
    error_type := "IndentationError" }

def exRepoSyn : Repo := [⟨"test.py", "import app\n"⟩, ⟨"app.py", "x = 1\n"⟩]

/-- A line as produced by `splitlines(keepends=True)` on newline-terminated
text: a `\n`-terminated string with no interior newline. -/
def ProperLine (s : String) : Prop :=
  ∃ core, s.data = core ++ ['\n'] ∧ ∀ c ∈ core, c ≠ '\n'

/-- The invariant carried through the `find_longest_match` fold. -/
def FLMInv (a b : List String) (alo ahi blo bhi : Nat) (best : Nat × Nat × Nat) : Prop :=
  (best.2.2 = 0 → best = (alo, blo, 0)) ∧
  (0 < best.2.2 → alo ≤ best.1 ∧ blo ≤ best.2.1 ∧ best.1 + best.2.2 ≤ ahi ∧
    best.2.1 + best.2.2 ≤ bhi ∧
    ∀ t < best.2.2, a.get? (best.1 + t) = b.get? (best.2.1 + t))

def exFailNoNl : TestFailure :=
  { test_name := "t", file_path := "calc.py",
    error_message := "SyntaxError: invalid syntax", error_type := "SyntaxError" }

def exRepoNoNl : Repo := [⟨"calc.py", "a"⟩]

def exNoNlChange : FileChange :=
  ((generateFix (some "```\nb\n```") exFailNoNl exRepoNoNl).change).getD
    { file_path := "" }

theorem selectBugType_spec (l : List BugType) (h : l ≠ []) :
    selectBugType l ∈ l ∧ ∀ b ∈ l, bugPriorityIdx (selectBugType l) ≤ bugPriorityIdx b := by
  have hmem : ∀ (b : BugType), (l.any (fun x => x = b)) = true ↔ b ∈ l := by
    intro b
    simp [List.any_eq_true]
  by_cases h0 : l.any (fun x => x = BugType.SYNTAX) = true
  · constructor
    · simpa [selectBugType, bugPriority, List.find?, h0] using (hmem _).mp h0
    · intro b _
      simp [selectBugType, bugPriority, List.find?, h0, bugPriorityIdx]
  · by_cases h1 : l.any (fun x => x = BugType.INDENTATION) = true
    · constructor
      · simpa [selectBugType, bugPriority, List.find?, h0, h1] using (hmem _).mp h1
      · intro b hb
        have hb' : b ≠ BugType.SYNTAX := by
          rintro rfl; exact h0 ((hmem _).mpr hb)
        simp only [selectBugType, bugPriority, List.find?, h0, h1]
        cases b <;> simp_all [bugPriorityIdx]
    · by_cases h2 : l.any (fun x => x = BugType.TYPE_ERROR) = true
      · constructor
        · simpa [selectBugType, bugPriority, List.find?, h0, h1, h2] using (hmem _).mp h2
        · intro b hb
          simp only [selectBugType, bugPriority, List.find?, h0, h1, h2]
          cases b <;> simp_all [bugPriorityIdx]
      · by_cases h3 : l.any (fun x => x = BugType.IMPORT) = true
        · constructor
          · simpa [selectBugType, bugPriority, List.find?, h0, h1, h2, h3] using (hmem _).mp h3
          · intro b hb
            simp only [selectBugType, bugPriority, List.find?, h0, h1, h2, h3]
            cases b <;> simp_all [bugPriorityIdx]
        · by_cases h4 : l.any (fun x => x = BugType.LOGIC) = true
          · constructor
            · simpa [selectBugType, bugPriority, List.find?, h0, h1, h2, h3, h4] using
                (hmem _).mp h4
            · intro b hb
              simp only [selectBugType, bugPriority, List.find?, h0, h1, h2, h3, h4]
              cases b <;> simp_all [bugPriorityIdx]
          · by_cases h5 : l.any (fun x => x = BugType.LINTING) = true
            · constructor
              · simpa [selectBugType, bugPriority, List.find?, h0, h1, h2, h3, h4, h5] using
                  (hmem _).mp h5
              · intro b hb
                simp only [selectBugType, bugPriority, List.find?, h0, h1, h2, h3, h4, h5]
                cases b <;> simp_all [bugPriorityIdx]
            · by_cases h6 : l.any (fun x => x = BugType.UNKNOWN) = true
              · constructor
                · simpa [selectBugType, bugPriority, List.find?, h0, h1, h2, h3, h4, h5, h6]
                    using (hmem _).mp h6
                · intro b hb
                  simp only [selectBugType, bugPriority, List.find?, h0, h1, h2, h3, h4, h5, h6]
                  cases b <;> simp_all [bugPriorityIdx]
              · exfalso
                match l, h with
                | b :: t, _ =>
                  have hb : b ∈ b :: t := List.mem_cons_self _ _
                  cases b
                  · exact h5 ((hmem _).mpr hb)
                  · exact h0 ((hmem _).mpr hb)
                  · exact h4 ((hmem _).mpr hb)
                  · exact h2 ((hmem _).mpr hb)
                  · exact h3 ((hmem _).mpr hb)
                  · exact h1 ((hmem _).mpr hb)
                  · exact h6 ((hmem _).mpr hb)

/-- C5: for a non-empty group of failure records for one file, the combined
category chosen by `generate_fix_for_file` is the individually classified
category highest in the priority order
SYNTAX > INDENTATION > TYPE_ERROR > IMPORT > LOGIC > LINTING > UNKNOWN. -/
theorem C5_classifier_priority (fs : List TestFailure) (h : fs ≠ []) :
    selectBugType (fs.map classifyBugType) ∈ fs.map classifyBugType ∧
      ∀ b ∈ fs.map classifyBugType,
        bugPriorityIdx (selectBugType (fs.map classifyBugType)) ≤ bugPriorityIdx b :=
  selectBugType_spec _ (by simpa using h)

/-- C5 witness: a ModuleNotFoundError record (classified IMPORT) and a
SyntaxError record (classified SYNTAX) for the same file combine to SYNTAX. -/
theorem C5_classifier_priority_witness :
    (let fs : List TestFailure :=
      [{ test_name := "test_a", file_path := "test_a.py",
         error_message := "ModuleNotFoundError: No module named 'mathutil'",
         error_type := "ModuleNotFoundError" },
       { test_name := "test_b", file_path := "test_a.py",
         error_message := "SyntaxError: invalid syntax",
         error_type := "SyntaxError" }]
     selectBugType (fs.map classifyBugType) ∈ fs.map classifyBugType ∧
       ∀ b ∈ fs.map classifyBugType,
         bugPriorityIdx (selectBugType (fs.map classifyBugType)) ≤ bugPriorityIdx b) ∧
    (let fs : List TestFailure :=
      [{ test_name := "test_a", file_path := "test_a.py",
         error_message := "ModuleNotFoundError: No module named 'mathutil'",
         error_type := "ModuleNotFoundError" },
       { test_name := "test_b", file_path := "test_a.py",
         error_message := "SyntaxError: invalid syntax",
         error_type := "SyntaxError" }]
     fs.map classifyBugType = [BugType.IMPORT, BugType.SYNTAX] ∧
       selectBugType (fs.map classifyBugType) = BugType.SYNTAX) :=
  ⟨C5_classifier_priority _ (by decide), by decide⟩

theorem stripDotDot_no_traversal (l : List Char) :
    ("../".data.isPrefixOf (stripDotDotGo l)) = false := by
  induction l using stripDotDotGo.induct with
  | case1 rest ih => simpa [stripDotDotGo] using ih
  | case2 l h1 =>
    rw [stripDotDotGo.eq_def]
    split
    · exact absurd rfl (fun h => h1 _ h)
    · rename_i hne
      by_contra hc
      rw [Bool.not_eq_false, List.isPrefixOf_iff_prefix] at hc
      obtain ⟨t, ht⟩ := hc
      exact hne t (by simpa using ht.symm)

/-- C6 (amended): in the line-oriented pytest dialect, every `FAILED`-line
record and every collection-error-with-message record stores a file path with
all leading `../` segments stripped.  (The bare collection-error resolution and
the Jest/Vitest dialect store paths as found, without stripping.) -/
theorem C6_line_dialect_strips_traversal (output : List Char) :
    (∀ r ∈ failedRecords output, hasLeadingTraversal r.file_path = false) ∧
      (∀ r ∈ collectMsgRecords output, hasLeadingTraversal r.file_path = false) := by
  constructor
  · intro r hr
    rw [failedRecords, List.mem_map] at hr
    obtain ⟨m, _, rfl⟩ := hr
    simpa [mkFailedRecord, hasLeadingTraversal, stripLeadingTraversal, List.asString]
      using stripDotDot_no_traversal m.1.data
  · intro r hr
    rw [collectMsgRecords, List.mem_map] at hr
    obtain ⟨m, _, rfl⟩ := hr
    simpa [mkCollectMsgRecord, hasLeadingTraversal, stripLeadingTraversal, List.asString]
      using stripDotDot_no_traversal m.1.data

/-- C6 counterexample: the block-oriented (Jest) dialect stores the path of a
`FAIL ../src/app.test.js` header verbatim: the produced Failure Record keeps
its leading `../` segment, so stripping does not happen in every dialect. -/
theorem C6_jest_keeps_traversal :
    (parseFailures [] ["javascript"] "FAIL ../src/app.test.js\n● adds numbers\n").map
        TestFailure.file_path = ["../src/app.test.js"] ∧
      hasLeadingTraversal "../src/app.test.js" = true := by
  constructor
  · rfl
  · decide

/-- C4 (amended): failure parsing reads no file-system state unless the
(sanitised) output contains a bare `ERROR <path>` collection-error line: with
no such line, any two repository file-system states yield identical Failure
Records for the same output and hints. -/
theorem C4_interpreter_fs_independent (fs1 fs2 languages : List String)
    (output : String) (h : bareCollectNew (stripAnsiStr output).data = []) :
    parseFailures fs1 languages output = parseFailures fs2 languages output := by
  have hp : parsePytestFailures fs1 (stripAnsiStr output) =
      parsePytestFailures fs2 (stripAnsiStr output) := by
    simp [parsePytestFailures, h]
  simp only [parseFailures, hp]

theorem C4_interpreter_fs_independent_witness :
    (bareCollectNew (stripAnsiStr "FAILED a.py::t - E: x\n").data = []) ∧
      parseFailures ["a.py"] ["python"] "FAILED a.py::t - E: x\n" =
        parseFailures [] ["python"] "FAILED a.py::t - E: x\n" :=
  ⟨by decide, C4_interpreter_fs_independent _ _ _ _ (by decide)⟩

/-- C4 counterexample: on a bare collection error the parser resolves the
failing file against the on-disk tree (`os.path.exists`), so the same raw
output yields different Failure Records under different file-system states. -/
theorem C4_interpreter_reads_fs :
    parseFailures ["test.py", "bug.py"] ["python"]
        "ERROR test.py\nbug.py:3: IndentationError x\n" ≠
      parseFailures ["test.py"] ["python"]
        "ERROR test.py\nbug.py:3: IndentationError x\n" := by
  decide

/-- C1 (amended): for a record whose category/message carries a structural
parse-failure keyword, the Localizer returns the record's own file, provided
that file exists in the repository — the shortcut pre-empts every other
strategy. -/
theorem C1_syntax_shortcut (failure : TestFailure) (repo : Repo)
    (hk : syntaxKeywords.any
      (containsSub (lowerStr (failure.error_message ++ " " ++ failure.error_type))) = true)
    (he : repoExists repo failure.file_path = true) :
    locateSourceFile failure repo = some failure.file_path := by
  simp [locateSourceFile, hk, he]

theorem C1_syntax_shortcut_witness :
    syntaxKeywords.any (containsSub (lowerStr
        (exFailSyn.error_message ++ " " ++ exFailSyn.error_type))) = true ∧
      repoExists exRepoSyn exFailSyn.file_path = true ∧
      locateSourceFile exFailSyn exRepoSyn = some exFailSyn.file_path :=
  ⟨by decide, by decide, C1_syntax_shortcut _ _ (by decide) (by decide)⟩

/-- C1 counterexample: a SyntaxError record naming a file that does not exist
falls through the shortcut (which requires `os.path.exists`) and the Localizer
returns a different file found by the fallback strategies. -/
theorem C1_shortcut_requires_existing_file :
    syntaxKeywords.any (containsSub (lowerStr
        ("SyntaxError: invalid syntax" ++ " " ++ "SyntaxError"))) = true ∧
      repoExists [⟨"real.py", "x = 1\n"⟩] "ghost.py" = false ∧
      locateSourceFile
          { file_path := "ghost.py", error_message := "SyntaxError: invalid syntax",
            error_type := "SyntaxError" }
          [⟨"real.py", "x = 1\n"⟩] = some "real.py" := by
  decide

theorem tryProgImportFix_not_test (failure : TestFailure) (repo : Repo) (src : String)
    (hnt : startsWithStr (pathBasename src) "test" = false) :
    tryProgImportFix failure repo src = none := by
  have hargs : progImportArgs failure repo src = none := by
    simp only [progImportArgs, hnt]
    split
    · split <;> rfl
    · rfl
  simp [tryProgImportFix, hargs]

theorem genFix_status (resp : Option String) (failure : TestFailure) (repo : Repo)
    (ch : FileChange) (h : (generateFix resp failure repo).change = some ch) :
    ch.status = "fixed" := by
  unfold generateFix at h
  split at h
  · simp at h
  · split at h
    · rename_i change repo' heq
      simp only at h
      obtain ⟨a, _, ha⟩ := Option.map_eq_some'.mp heq
      simp only [Prod.mk.injEq] at ha
      have : change = ch := by simpa using h
      rw [← this, ← ha.1]
      rfl
    · split at h
      · simp at h
      · simp only at h
        obtain ⟨fx, _, hfx⟩ := Option.map_eq_some'.mp h
        rw [← hfx]
        rfl

theorem genFixForFile_status (resp : Option String) (failures : List TestFailure)
    (src : String) (repo : Repo) (ch : FileChange)
    (h : (generateFixForFile resp failures src repo).change = some ch) :
    ch.status = "fixed" := by
  unfold generateFixForFile at h
  split at h
  · simp at h
  · split at h
    · simp at h
    · simp only at h
      obtain ⟨fx, _, hfx⟩ := Option.map_eq_some'.mp h
      rw [← hfx]
      rfl

/-- C9 (amended): every Change Record the Fix Applier produces — through
either `generate_fix` or `generate_fix_for_file` — has status `"fixed"`
(`models.py` line 75 documents the field as `"fixed" or "failed"`). -/
theorem C9_change_status (resp resp2 : Option String) (failure : TestFailure)
    (failures : List TestFailure) (src : String) (repo repo2 : Repo) (ch : FileChange)
    (h : (generateFix resp failure repo).change = some ch ∨
      (generateFixForFile resp2 failures src repo2).change = some ch) :
    ch.status = "fixed" :=
  h.elim (genFix_status resp failure repo ch) (genFixForFile_status resp2 failures src repo2 ch)

theorem C9_change_status_witness :
    (generateFix (some exOracleResponse) exFailMod exRepoMod).change = some exAiChange ∧
      exAiChange.status = "fixed" :=
  ⟨by decide, C9_change_status (some exOracleResponse) none exFailMod [] "" exRepoMod []
    exAiChange (Or.inl (by decide))⟩

/-- C9 counterexample: a successfully produced fix (extracted content differs
from the original, file written) carries status `"fixed"`, not `"applied"`. -/
theorem C9_status_is_not_applied :
    (generateFix (some exOracleResponse) exFailMod exRepoMod).change.map
        FileChange.status = some "fixed" ∧ ("fixed" : String) ≠ "applied" := by
  decide

/-- C10: the programmatic missing-dependency import rewrite fires only when
the localized file's basename starts with `test`: for a missing-module failure
localized to a non-test-named file, the programmatic fix yields nothing and
the applier falls through to the Fix Oracle, even when a real module
fuzzy-matches the missing name. -/
theorem C10_rewrite_requires_test_name (resp : Option String) (failure : TestFailure)
    (repo : Repo) (src : String)
    (hloc : locateSourceFile failure repo = some src)
    (hnt : startsWithStr (pathBasename src) "test" = false)
    (hread : repoRead repo src ≠ none)
    (_hmod : containsSub (lowerStr (failure.error_message ++ " " ++ failure.error_type ++
      " " ++ failure.raw_output)) "modulenotfounderror" = true)
    (_hfuzzy : ∃ m, missingModuleSearch (lowerStr (failure.error_message ++ " " ++
        failure.error_type ++ " " ++ failure.raw_output)) = some m ∧
      findRealModule repo (lastDotComponent m) ≠ none) :
    tryProgImportFix failure repo src = none ∧
      (generateFix resp failure repo).oracleCalled = true := by
  have hprog := tryProgImportFix_not_test failure repo src hnt
  refine ⟨hprog, ?_⟩
  unfold generateFix
  rw [hloc]
  simp only [hprog]
  cases hr : repoRead repo src with
  | none => exact absurd hr hread
  | some original => simp

theorem C10_rewrite_requires_test_name_witness :
    locateSourceFile exFailMod exRepoMod = some "mathutils.py" ∧
      startsWithStr (pathBasename "mathutils.py") "test" = false ∧
      findRealModule exRepoMod "mathutil" ≠ none ∧
      tryProgImportFix exFailMod exRepoMod "mathutils.py" = none ∧
      (generateFix (some exOracleResponse) exFailMod exRepoMod).oracleCalled = true :=
  ⟨by decide, by decide, by decide,
    (C10_rewrite_requires_test_name (some exOracleResponse) exFailMod exRepoMod
        "mathutils.py" (by decide) (by decide) (by decide) (by decide)
        ⟨"mathutil", by decide, by decide⟩).1,
    (C10_rewrite_requires_test_name (some exOracleResponse) exFailMod exRepoMod
        "mathutils.py" (by decide) (by decide) (by decide) (by decide)
        ⟨"mathutil", by decide, by decide⟩).2⟩

theorem fixEvents_not_commit (fxs : List FileChange) :
    ∀ e ∈ fxs.map (fun fx => LoopEvent.fixApplied fx.file_path), isCommitEvent e = false := by
  intro e he
  obtain ⟨fx, _, rfl⟩ := List.mem_map.mp he
  rfl

theorem agentLoop_trace_no_commit (w : AgentWorld) :
    ∀ n it k tr, ∀ e ∈ (agentLoop w n it k tr).trace, isCommitEvent e = false := by
  intro n
  induction n with
  | zero => intro it k tr e he; simp [agentLoop] at he
  | succ n ih =>
    intro it k tr e he
    rw [agentLoop] at he
    split at he
    · simp at he
    · simp only at he
      split at he
      · rcases List.mem_append.mp he with h1 | h2
        · exact fixEvents_not_commit _ e h1
        · simp at h2; subst h2; rfl
      · rw [List.append_assoc] at he
        rcases List.mem_append.mp he with h1 | h2
        · exact fixEvents_not_commit _ e h1
        · rcases List.mem_append.mp h2 with h3 | h4
          · simp at h3; subst h3; rfl
          · exact ih _ _ _ e h4

theorem fixEvents_filter_testExec (fxs : List FileChange) :
    ((fxs.map (fun fx => LoopEvent.fixApplied fx.file_path)).filter isTestExecEvent) = [] := by
  induction fxs <;> simp_all [isTestExecEvent]

theorem agentLoop_testExec_count (w : AgentWorld) :
    ∀ n it k tr,
      ((agentLoop w n it k tr).trace.filter isTestExecEvent).length ≤ n := by
  intro n
  induction n with
  | zero => intro it k tr; simp [agentLoop]
  | succ n ih =>
    intro it k tr
    rw [agentLoop]
    split
    · simp
    · simp only
      split
      · simp [List.filter_append, fixEvents_filter_testExec, isTestExecEvent]
      · rw [List.append_assoc, List.filter_append, List.length_append,
          fixEvents_filter_testExec, List.filter_append, List.length_append]
        have := ih (it + 1) (k + 1) (w.testResults k)
        have hone : (([LoopEvent.testExec] : List LoopEvent).filter isTestExecEvent).length = 1 := rfl
        simp only [List.length_nil, hone]
        omega

/-- C7: across one run the Controller performs at most `N + 1` test-suite
executions — the initial run plus at most one re-run per repair iteration. -/
theorem C7_test_executions_bounded (w : AgentWorld) (N : Nat) :
    ((agentRun w N).trace.filter isTestExecEvent).length ≤ N + 1 := by
  simp only [agentRun]
  split
  · simp [isTestExecEvent]
  · have h1 := agentLoop_testExec_count w N 1 1 (w.testResults 0)
    simp only [List.filter_cons, List.filter_append, isTestExecEvent, if_true,
      List.length_cons, List.length_append]
    have h3 : ∀ (b : Bool) (msg : String),
        (List.filter isTestExecEvent
          (if b = true then ([] : List LoopEvent) else [.commitCall msg])).length = 0 := by
      intro b msg
      cases b <;> rfl
    rw [h3]
    omega

/-- C3 (amended): a run whose initial test execution reports zero Failure
Records performs zero iterations and produces zero Change Records; its status
is PASSED exactly when the initial execution's exit status was success —
a failed execution with zero parsed records (e.g. a timeout) ends FAILED. -/
theorem C3_zero_failures_zero_iterations (w : AgentWorld) (N : Nat)
    (h : (w.testResults 0).failures = []) :
    (agentRun w N).iterations = [] ∧ (agentRun w N).allChanges = [] ∧
      ((agentRun w N).cicdStatus = CicdStatus.PASSED ↔ (w.testResults 0).success = true) := by
  cases hs : (w.testResults 0).success with
  | true => simp [agentRun, hs]
  | false =>
    have hloop : agentLoop w N 1 1 (w.testResults 0) = ⟨[], [], w.testResults 0, []⟩ := by
      cases N with
      | zero => rfl
      | succ n =>
        rw [agentLoop]
        simp [h]
    simp [agentRun, hs, hloop]

theorem C3_zero_failures_witness :
    (exWorldPassing.testResults 0).failures = [] ∧
      ((agentRun exWorldPassing 5).iterations = [] ∧
        (agentRun exWorldPassing 5).allChanges = [] ∧
        ((agentRun exWorldPassing 5).cicdStatus = CicdStatus.PASSED ↔
          (exWorldPassing.testResults 0).success = true)) :=
  ⟨by decide, C3_zero_failures_zero_iterations exWorldPassing 5 (by decide)⟩

/-- C3 counterexample: a failed test execution with zero Failure Records
(a timeout) yields zero iterations and zero Change Records but terminates
with status FAILED, not success. -/
theorem C3_failed_run_with_zero_records :
    (exWorldTimeout.testResults 0).failures = [] ∧
      (agentRun exWorldTimeout 5).iterations = [] ∧
      (agentRun exWorldTimeout 5).allChanges = [] ∧
      (agentRun exWorldTimeout 5).cicdStatus = CicdStatus.FAILED ∧
      CicdStatus.FAILED ≠ CicdStatus.PASSED := by
  decide

theorem batched_commit_shape (tr : List LoopEvent) (b : Bool) (msg : String)
    (htr : ∀ e ∈ tr, isCommitEvent e = false) :
    ∃ t c,
      (LoopEvent.testExec ::
          (tr ++ (if b = true then [] else [LoopEvent.commitCall msg]))) = t ++ c ∧
        (∀ e ∈ t, isCommitEvent e = false) ∧ (∀ e ∈ c, isCommitEvent e = true) ∧
        c.length = (if b = true then 0 else 1) := by
  refine ⟨LoopEvent.testExec :: tr,
    if b = true then [] else [LoopEvent.commitCall msg], by simp, ?_, ?_, ?_⟩
  · intro e he
    rcases List.mem_cons.mp he with rfl | hm
    · rfl
    · exact htr e hm
  · intro e he
    cases b with
    | true => simp at he
    | false =>
      simp at he
      subst he
      rfl
  · cases b <;> rfl

/-- C2 (amended): no commit is issued during the iterations; after the loop
the accumulated Change Records are committed in exactly one `commit_changes`
invocation (zero when no Change Record was produced): the run's trace is a
commit-free prefix followed by at most one trailing commit. -/
theorem C2_single_batched_commit (w : AgentWorld) (N : Nat) :
    ∃ t c, (agentRun w N).trace = t ++ c ∧
      (∀ e ∈ t, isCommitEvent e = false) ∧
      (∀ e ∈ c, isCommitEvent e = true) ∧
      c.length = (if (agentRun w N).allChanges.isEmpty then 0 else 1) := by
  simp only [agentRun]
  split
  · refine ⟨[.testExec], [], rfl, ?_, by simp, by simp⟩
    intro e he
    simp at he
    subst he
    rfl
  · exact batched_commit_shape _ _ _ (agentLoop_trace_no_commit w N 1 1 _)

/-- C2 counterexample: an iteration that fixes two localized file groups
triggers one single batched commit after the loop (not one commit per group):
the trace holds both fix applications, the re-run, and then a single commit. -/
theorem C2_commit_not_per_group :
    (agentRun exWorldTwoGroups 5).allChanges.length = 2 ∧
      ((agentRun exWorldTwoGroups 5).trace.filter isCommitEvent).length = 1 ∧
      (agentRun exWorldTwoGroups 5).trace =
        [.testExec, .fixApplied "a.py", .fixApplied "b.py", .testExec,
         .commitCall "Fix: 2 fix(es) applied across 2 file(s)"] := by
  decide

-- A. slice lemmas
theorem sliceList_self (l : List String) : sliceList l 0 l.length = l := by
  simp [sliceList]

theorem sliceList_drop (l : List String) (i : Nat) : sliceList l i l.length = l.drop i := by
  simp [sliceList]

theorem sliceList_parts (l : List String) {i j k : Nat} (h1 : i ≤ j) (h2 : j ≤ k) :
    sliceList l i k = sliceList l i j ++ sliceList l j k := by
  simp only [sliceList]
  rw [show k - i = (j - i) + (k - j) by omega, List.take_add]
  congr 1
  rw [List.drop_drop, show i + (j - i) = j by omega]

theorem sliceList_get? (l : List String) (i j t : Nat) (ht : t < j - i) :
    (sliceList l i j).get? t = l.get? (i + t) := by
  simp only [sliceList]
  rw [List.get?_take ht, List.get?_drop]

theorem sliceList_length (l : List String) {i j : Nat} (h1 : i ≤ j) (h2 : j ≤ l.length) :
    (sliceList l i j).length = j - i := by
  simp [sliceList]
  omega

theorem sliceList_eq_of_get? {a b : List String} {i j k : Nat}
    (hg : ∀ t < k, a.get? (i + t) = b.get? (j + t))
    (ha : i + k ≤ a.length) (hb : j + k ≤ b.length) :
    sliceList a i (i + k) = sliceList b j (j + k) := by
  apply List.ext
  intro t
  by_cases ht : t < k
  · rw [sliceList_get? _ _ _ _ (by omega), sliceList_get? _ _ _ _ (by omega)]
    exact hg t ht
  · have h1 := sliceList_length a (i := i) (j := i + k) (by omega) ha
    have h2 := sliceList_length b (i := j) (j := j + k) (by omega) hb
    rw [List.get?_eq_none.mpr (by omega), List.get?_eq_none.mpr (by omega)]

theorem sliceList_get?_of_eq {a b : List String} {i1 i2 j1 j2 : Nat}
    (h : sliceList a i1 i2 = sliceList b j1 j2) (t : Nat) (ht : t < i2 - i1)
    (ht' : t < j2 - j1) : a.get? (i1 + t) = b.get? (j1 + t) := by
  rw [← sliceList_get? a i1 i2 t ht, ← sliceList_get? b j1 j2 t ht', h]

/-- Aligned sub-segments of equal segments are equal. -/
theorem subsliceEq {a b : List String} {i1 i2 j1 j2 : Nat}
    (h : sliceList a i1 i2 = sliceList b j1 j2) (hlen : i2 - i1 = j2 - j1)
    (hord : i1 ≤ i2) (hjord : j1 ≤ j2) (ha : i2 ≤ a.length) (hb : j2 ≤ b.length)
    {d e : Nat} (hde : d ≤ e) (he : e ≤ i2 - i1) :
    sliceList a (i1 + d) (i1 + e) = sliceList b (j1 + d) (j1 + e) := by
  have : ∀ t < e - d, a.get? (i1 + d + t) = b.get? (j1 + d + t) := by
    intro t ht
    have h1 := sliceList_get?_of_eq h (d + t) (by omega) (by omega)
    rw [show i1 + d + t = i1 + (d + t) by omega, show j1 + d + t = j1 + (d + t) by omega]
    exact h1
  have := sliceList_eq_of_get? this (by omega) (by omega)
  rw [show i1 + d + (e - d) = i1 + e by omega, show j1 + d + (e - d) = j1 + e by omega] at this
  exact this

-- B. join/split lemmas
theorem splitKeepGo_join (l : List Char) :
    ∀ cur, (splitKeepGo cur l).join = cur.reverse ++ l := by
  induction l with
  | nil =>
    intro cur
    rw [splitKeepGo]
    by_cases h : cur.isEmpty
    · rw [if_pos h]
      simp [List.isEmpty_iff.mp h]
    · rw [if_neg h]
      simp
  | cons c t ih =>
    intro cur
    rw [splitKeepGo]
    by_cases hc : c = '\n'
    · subst hc
      simp [ih, List.join]
    · rw [if_neg hc, ih]
      simp

theorem join_data (ls : List String) : (String.join ls).data = (ls.map String.data).join := by
  have haux : ∀ (acc : String) (ls : List String),
      (ls.foldl (· ++ ·) acc).data = acc.data ++ (ls.map String.data).join := by
    intro acc ls
    induction ls generalizing acc with
    | nil => simp
    | cons s t ih => simp [ih, String.data_append]
  simpa using haux "" ls

theorem stringDataInj {x y : String} (h : x.data = y.data) : x = y := by
  cases x
  cases y
  exact congrArg String.mk h

theorem asString_data (l : List Char) : (l.asString).data = l := rfl

theorem splitKeepNl_join_eq (s : String) : String.join (splitKeepNl s) = s := by
  apply stringDataInj
  rw [join_data, splitKeepNl]
  rw [List.map_map]
  have : (String.data ∘ List.asString) = id := by
    funext l
    rfl
  rw [this, List.map_id, splitKeepGo_join]
  simp


theorem splitKeepGo_proper (l : List Char) :
    ∀ cur, (∀ c ∈ cur, c ≠ '\n') →
      (l.getLast? = some '\n' ∨ (l = [] ∧ cur = [])) →
      ∀ ln ∈ splitKeepGo cur l, ∃ core, ln = core ++ ['\n'] ∧ ∀ c ∈ core, c ≠ '\n' := by
  induction l with
  | nil =>
    intro cur hcur hend ln hln
    rcases hend with h | ⟨_, rfl⟩
    · simp at h
    · simp [splitKeepGo] at hln
  | cons c t ih =>
    intro cur hcur hend ln hln
    rw [splitKeepGo] at hln
    by_cases hc : c = '\n'
    · subst hc
      rw [if_pos rfl] at hln
      rcases List.mem_cons.mp hln with rfl | hm
      · exact ⟨cur.reverse, by simp, by intro x hx; exact hcur x (by simpa using hx)⟩
      · apply ih [] (by simp) _ ln hm
        cases t with
        | nil => exact Or.inr ⟨rfl, rfl⟩
        | cons d u =>
          left
          rcases hend with h | ⟨h, _⟩
          · simpa using h
          · simp at h
    · rw [if_neg hc] at hln
      apply ih (c :: cur) _ _ ln hln
      · intro x hx
        rcases List.mem_cons.mp hx with rfl | hm
        · exact hc
        · exact hcur x hm
      · cases t with
        | nil =>
          rcases hend with h | ⟨h, _⟩
          · simp at h
            exact absurd h hc
          · simp at h
        | cons d u =>
          left
          rcases hend with h | ⟨h, _⟩
          · simpa using h
          · simp at h

theorem isPrefixOf_singleton_iff (c : Char) (l : List Char) :
    ([c].isPrefixOf l) = true ↔ l.head? = some c := by
  cases l with
  | nil => simp [List.isPrefixOf]
  | cons d t =>
    constructor
    · intro h
      rw [List.isPrefixOf_iff_prefix] at h
      obtain ⟨u, hu⟩ := h
      simp at hu
      simp [hu.1]
    · intro h
      simp at h
      subst h
      rw [List.isPrefixOf_iff_prefix]
      exact ⟨t, by simp⟩

theorem splitKeepNl_proper (s : String) (hs : s = "" ∨ endsWithStr s "\n" = true) :
    ∀ ln ∈ splitKeepNl s, ProperLine ln := by
  intro ln hln
  rw [splitKeepNl] at hln
  obtain ⟨lc, hlc, rfl⟩ := List.mem_map.mp hln
  have := splitKeepGo_proper s.data [] (by simp) ?hend lc hlc
  · obtain ⟨core, hcore, hno⟩ := this
    exact ⟨core, by simpa [asString_data] using hcore, hno⟩
  case hend =>
    rcases hs with rfl | h
    · exact Or.inr ⟨rfl, rfl⟩
    · left
      rw [endsWithStr] at h
      have h2 := (isPrefixOf_singleton_iff '\n' s.data.reverse).mp (by simpa using h)
      rw [List.head?_reverse] at h2
      exact h2

theorem splitKeepGo_flush (core : List Char) (hcore : ∀ c ∈ core, c ≠ '\n') :
    ∀ cur rest, splitKeepGo cur (core ++ '\n' :: rest) =
      (cur.reverse ++ core ++ ['\n']) :: splitKeepGo [] rest := by
  induction core with
  | nil => intro cur rest; simp [splitKeepGo]
  | cons c t ih =>
    intro cur rest
    have hc : c ≠ '\n' := hcore c (by simp)
    rw [List.cons_append, splitKeepGo, if_neg hc, ih (fun x hx => hcore x (by simp [hx]))]
    simp

theorem splitKeepGo_flatten (lines : List (List Char))
    (h : ∀ ln ∈ lines, ∃ core, ln = core ++ ['\n'] ∧ ∀ c ∈ core, c ≠ '\n') :
    splitKeepGo [] lines.flatten = lines := by
  induction lines with
  | nil => rfl
  | cons ln rest ih =>
    obtain ⟨core, rfl, hno⟩ := h ln (by simp)
    rw [List.flatten_cons, List.append_assoc, List.singleton_append,
      splitKeepGo_flush core hno, ih (fun x hx => h x (by simp [hx]))]
    simp

theorem splitKeepNl_join (lines : List String) (h : ∀ ln ∈ lines, ProperLine ln) :
    splitKeepNl (String.join lines) = lines := by
  rw [splitKeepNl, join_data, splitKeepGo_flatten]
  · rw [List.map_map]
    have : (List.asString ∘ String.data) = id := by
      funext s
      rfl
    rw [this, List.map_id]
  · intro ln hln
    obtain ⟨s, hs, rfl⟩ := List.mem_map.mp hln
    exact h s hs

theorem digitsVal_append_digit (xs : List Char) (c : Char) :
    digitsVal (xs ++ [c]) = digitsVal xs * 10 + (c.toNat - 48) := by
  simp [digitsVal, List.foldl_append]

theorem char_ofNat_digit (r : Nat) (hr : r < 10) :
    (Char.ofNat (48 + r)).toNat = 48 + r ∧ (Char.ofNat (48 + r)).isDigit = true := by
  interval_cases r <;> exact ⟨by decide, by decide⟩

theorem natDigitsGo_val : ∀ fuel n, n ≤ fuel → digitsVal (natDigitsGo fuel n) = n := by
  intro fuel
  induction fuel with
  | zero =>
    intro n hn
    interval_cases n
    rfl
  | succ fuel ih =>
    intro n hn
    rw [natDigitsGo]
    by_cases h0 : n = 0
    · simp [h0, digitsVal]
    · rw [if_neg h0, digitsVal_append_digit, ih (n / 10) (by omega),
        (char_ofNat_digit (n % 10) (by omega)).1]
      omega

theorem natDigitsGo_digits : ∀ fuel n c, c ∈ natDigitsGo fuel n → c.isDigit = true := by
  intro fuel
  induction fuel with
  | zero => intro n c hc; simp [natDigitsGo] at hc
  | succ fuel ih =>
    intro n c hc
    rw [natDigitsGo] at hc
    by_cases h0 : n = 0
    · simp [h0] at hc
    · rw [if_neg h0] at hc
      rcases List.mem_append.mp hc with h1 | h2
      · exact ih _ c h1
      · simp at h2
        subst h2
        exact (char_ofNat_digit (n % 10) (by omega)).2

theorem natToStr_spec (n : Nat) :
    (∀ c ∈ (natToStr n).data, c.isDigit = true) ∧ (natToStr n).data ≠ [] ∧
      digitsVal (natToStr n).data = n := by
  rw [natToStr]
  by_cases h0 : n = 0
  · subst h0
    exact ⟨by decide, by decide, by decide⟩
  · rw [if_neg h0]
    refine ⟨?_, ?_, ?_⟩
    · intro c hc
      exact natDigitsGo_digits (n + 1) n c (by simpa [asString_data] using hc)
    · rw [asString_data, natDigitsGo]
      rw [if_neg h0]
      simp
    · rw [asString_data]
      exact natDigitsGo_val (n + 1) n (by omega)

theorem takeWhile_append_exact (p : Char → Bool) (ds rest : List Char)
    (hds : ∀ c ∈ ds, p c = true)
    (hrest : ∀ c, rest.head? = some c → p c = false) :
    (ds ++ rest).takeWhile p = ds := by
  induction ds with
  | nil =>
    cases rest with
    | nil => rfl
    | cons c t =>
      simp [List.takeWhile, hrest c rfl]
  | cons d t ih =>
    rw [List.cons_append, List.takeWhile_cons, hds d (by simp)]
    rw [ih (fun c hc => hds c (by simp [hc]))]
    simp

theorem parseNatPrefix_natToStr (n : Nat) (rest : List Char)
    (hrest : ∀ c, rest.head? = some c → c.isDigit = false) :
    parseNatPrefix ((natToStr n).data ++ rest) = some (n, rest) := by
  obtain ⟨hdig, hne, hval⟩ := natToStr_spec n
  rw [parseNatPrefix]
  rw [takeWhile_append_exact _ _ _ hdig hrest]
  rw [if_neg (by simpa using hne)]
  rw [List.drop_left, hval]

theorem dropLit_append (lit rest : List Char) : dropLit lit (lit ++ rest) = some rest := by
  rw [dropLit, if_pos, List.drop_left]
  rw [List.isPrefixOf_iff_prefix]
  exact ⟨rest, rfl⟩

theorem parseRange_format (s e : Nat) (hse : s ≤ e) (rest : List Char)
    (hd : ∀ c, rest.head? = some c → c.isDigit = false) (hc : rest.head? ≠ some ',') :
    parseRange ((formatRangeUnified s e).data ++ rest) = some ((s, e - s), rest) := by
  simp only [formatRangeUnified]
  by_cases h1 : e - s = 1
  · rw [if_pos h1, parseRange]
    rw [parseNatPrefix_natToStr _ _ hd]
    simp only [Option.bind_eq_bind, Option.some_bind]
    rw [if_neg hc]
    simp [h1]
  · rw [if_neg h1, parseRange]
    by_cases h0 : e - s = 0
    · rw [if_pos h0]
      rw [String.data_append, String.data_append, List.append_assoc, List.append_assoc]
      rw [parseNatPrefix_natToStr _ _ (by intro c h; simp at h; rw [← h]; decide)]
      simp only [Option.bind_eq_bind, Option.some_bind]
      rw [if_pos (by simp)]
      simp only [List.singleton_append, List.drop_one, List.tail_cons]
      rw [parseNatPrefix_natToStr _ _ hd]
      simp [h0, show s + 1 - 1 = s by omega]
    · rw [if_neg h0]
      rw [String.data_append, String.data_append, List.append_assoc, List.append_assoc]
      rw [parseNatPrefix_natToStr _ _ (by intro c h; simp at h; rw [← h]; decide)]
      simp only [Option.bind_eq_bind, Option.some_bind]
      rw [if_pos (by simp)]
      simp only [List.singleton_append, List.drop_one, List.tail_cons]
      rw [parseNatPrefix_natToStr _ _ hd]
      simp [h0, show s + 1 - 1 = s by omega]
example : applyUnifiedDiff (generateDiff "a\nb\nc\n" "a\nx\nc\n" "demo.py") "a\nb\nc\n" = some "a\nx\nc\n" := by decide

theorem parseHunkHeader_format (s1 e1 s2 e2 : Nat) (h1 : s1 ≤ e1) (h2 : s2 ≤ e2) :
    parseHunkHeader ("@@ -" ++ formatRangeUnified s1 e1 ++ " +" ++
      formatRangeUnified s2 e2 ++ " @@\n").data = some (s1, e1 - s1, e2 - s2) := by
  have hdata : ("@@ -" ++ formatRangeUnified s1 e1 ++ " +" ++
      formatRangeUnified s2 e2 ++ " @@\n").data
      = "@@ -".data ++ ((formatRangeUnified s1 e1).data ++ (" +".data ++
        ((formatRangeUnified s2 e2).data ++ " @@\n".data))) := by
    simp [String.data_append]
  rw [parseHunkHeader, hdata, dropLit_append]
  simp only [Option.bind_eq_bind, Option.some_bind]
  rw [parseRange_format _ _ h1 _ (by intro c h; simp at h; rw [← h]; decide) (by simp)]
  simp only [Option.some_bind]
  rw [dropLit_append]
  simp only [Option.some_bind]
  rw [parseRange_format _ _ h2 _ (by intro c h; simp at h; rw [← h]; decide) (by simp)]
  simp only [Option.some_bind]
  rw [show dropLit [' ', '@', '@', '\n'] [' ', '@', '@', '\n'] = some [] from rfl]
  rfl

theorem Chain.start_le {a b : List String} {i j : Nat} {ops : List Op} {e e' : Nat}
    (h : Chain a b i j ops e e') : i ≤ e ∧ j ≤ e' := by
  induction h with
  | nil => exact ⟨le_refl _, le_refl _⟩
  | cons op ops e e' hok _ ih => exact ⟨le_trans hok.1 ih.1, le_trans hok.2.1 ih.2⟩

theorem Chain.nil_inv {a b : List String} {i j e e' : Nat}
    (h : Chain a b i j [] e e') : i = e ∧ j = e' := by
  cases h
  exact ⟨rfl, rfl⟩

theorem Chain.cons_inv {a b : List String} {i j e e' : Nat} {op : Op} {ops : List Op}
    (h : Chain a b i j (op :: ops) e e') :
    op.i1 = i ∧ op.j1 = j ∧ OpOK a b op ∧ Chain a b op.i2 op.j2 ops e e' := by
  cases h
  exact ⟨rfl, rfl, by assumption, by assumption⟩

theorem Chain.end_le {a b : List String} {op : Op} :
    ∀ {ops : List Op} {i j e e' : Nat}, Chain a b i j (op :: ops) e e' →
      e ≤ a.length ∧ e' ≤ b.length := by
  intro ops
  induction ops generalizing op with
  | nil =>
    intro i j e e' h
    obtain ⟨-, -, hok, htail⟩ := h.cons_inv
    obtain ⟨h1, h2⟩ := htail.nil_inv
    exact ⟨h1 ▸ hok.2.2.1, h2 ▸ hok.2.2.2.1⟩
  | cons o2 t2 ih =>
    intro i j e e' h
    exact ih h.cons_inv.2.2.2

theorem Chain.last_end {a b : List String} :
    ∀ {g : List Op} {i j e e' : Nat}, Chain a b i j g e e' → g ≠ [] →
      ∃ l, g.getLast? = some l ∧ l.i2 = e ∧ l.j2 = e' := by
  intro g
  induction g with
  | nil => intro i j e e' _ hne; exact absurd rfl hne
  | cons op ops ih =>
    intro i j e e' h _
    obtain ⟨-, -, hok, htail⟩ := h.cons_inv
    cases ops with
    | nil =>
      obtain ⟨h1, h2⟩ := htail.nil_inv
      exact ⟨op, rfl, h1, h2⟩
    | cons o2 t2 =>
      obtain ⟨l, hl, h2, h3⟩ := ih htail (by simp)
      exact ⟨l, by rw [List.getLast?_cons_cons]; exact hl, h2, h3⟩

theorem parseBody_ctx_run (seg : List String) :
    ∀ rest aL bL,
      parseBody (seg.map (" " ++ ·) ++ rest) (seg.length + aL) (seg.length + bL) =
        (parseBody rest aL bL).map
          (fun r => (seg.map (fun s => (HunkTag.ctx, s)) ++ r.1, r.2)) := by
  induction seg with
  | nil =>
    intro rest aL bL
    simp only [List.map_nil, List.nil_append, List.length_nil, Nat.zero_add]
    rcases h : parseBody rest aL bL with _ | ⟨items, rem⟩ <;> simp
  | cons s t ih =>
    intro rest aL bL
    rw [List.map_cons, List.cons_append, parseBody]
    rw [if_neg (by rintro ⟨h1, -⟩; simp at h1)]
    rw [show (" " ++ s).data = ' ' :: s.data from rfl]
    show (if (t.length + 1 + aL ≠ 0 ∧ t.length + 1 + bL ≠ 0) then
        (parseBody (t.map (" " ++ ·) ++ rest) (t.length + 1 + aL - 1)
          (t.length + 1 + bL - 1)).map
          (fun r => ((HunkTag.ctx, s.data.asString) :: r.1, r.2))
      else none) = _
    rw [if_pos ⟨by omega, by omega⟩]
    rw [show t.length + 1 + aL - 1 = t.length + aL by omega,
      show t.length + 1 + bL - 1 = t.length + bL by omega, ih]
    rcases h : parseBody rest aL bL with _ | ⟨items, rem⟩ <;>
      simp [show s.data.asString = s from rfl]

theorem parseBody_del_run (seg : List String) :
    ∀ rest aL bL,
      parseBody (seg.map ("-" ++ ·) ++ rest) (seg.length + aL) bL =
        (parseBody rest aL bL).map
          (fun r => (seg.map (fun s => (HunkTag.del, s)) ++ r.1, r.2)) := by
  induction seg with
  | nil =>
    intro rest aL bL
    simp only [List.map_nil, List.nil_append, List.length_nil, Nat.zero_add]
    rcases h : parseBody rest aL bL with _ | ⟨items, rem⟩ <;> simp
  | cons s t ih =>
    intro rest aL bL
    rw [List.map_cons, List.cons_append, parseBody]
    rw [if_neg (by rintro ⟨h1, -⟩; simp at h1)]
    rw [show ("-" ++ s).data = '-' :: s.data from rfl]
    show (if (t.length + 1 + aL ≠ 0) then
        (parseBody (t.map ("-" ++ ·) ++ rest) (t.length + 1 + aL - 1) bL).map
          (fun r => ((HunkTag.del, s.data.asString) :: r.1, r.2))
      else none) = _
    rw [if_pos (by omega)]
    rw [show t.length + 1 + aL - 1 = t.length + aL by omega, ih]
    rcases h : parseBody rest aL bL with _ | ⟨items, rem⟩ <;>
      simp [show s.data.asString = s from rfl]

theorem parseBody_ins_run (seg : List String) :
    ∀ rest aL bL,
      parseBody (seg.map ("+" ++ ·) ++ rest) aL (seg.length + bL) =
        (parseBody rest aL bL).map
          (fun r => (seg.map (fun s => (HunkTag.ins, s)) ++ r.1, r.2)) := by
  induction seg with
  | nil =>
    intro rest aL bL
    simp only [List.map_nil, List.nil_append, List.length_nil, Nat.zero_add]
    rcases h : parseBody rest aL bL with _ | ⟨items, rem⟩ <;> simp
  | cons s t ih =>
    intro rest aL bL
    rw [List.map_cons, List.cons_append, parseBody]
    rw [if_neg (by rintro ⟨-, h1⟩; simp at h1)]
    rw [show ("+" ++ s).data = '+' :: s.data from rfl]
    show (if (t.length + 1 + bL ≠ 0) then
        (parseBody (t.map ("+" ++ ·) ++ rest) aL (t.length + 1 + bL - 1)).map
          (fun r => ((HunkTag.ins, s.data.asString) :: r.1, r.2))
      else none) = _
    rw [if_pos (by omega)]
    rw [show t.length + 1 + bL - 1 = t.length + bL by omega, ih]
    rcases h : parseBody rest aL bL with _ | ⟨items, rem⟩ <;>
      simp [show s.data.asString = s from rfl]

theorem parseBody_op {a b : List String} (op : Op) (hok : OpOK a b op)
    (aL bL : Nat) (rest : List String) :
    parseBody (opLines a b op ++ rest) ((op.i2 - op.i1) + aL) ((op.j2 - op.j1) + bL) =
      (parseBody rest aL bL).map (fun r => (opItems a b op ++ r.1, r.2)) := by
  obtain ⟨h12, hj12, hila, hjlb, heq, hins, hdel⟩ := hok
  have hlenA : (sliceList a op.i1 op.i2).length = op.i2 - op.i1 := sliceList_length a h12 hila
  have hlenB : (sliceList b op.j1 op.j2).length = op.j2 - op.j1 := sliceList_length b hj12 hjlb
  cases htag : op.tag with
  | equal =>
    obtain ⟨hseq, hsamelen⟩ := heq htag
    have hL : opLines a b op = (sliceList a op.i1 op.i2).map (" " ++ ·) := by
      simp [opLines, htag]
    have hI : opItems a b op =
        (sliceList a op.i1 op.i2).map (fun s => (HunkTag.ctx, s)) := by
      simp [opItems, htag]
    rw [hL, hI, show (op.j2 - op.j1) + bL = (op.i2 - op.i1) + bL by omega]
    rw [← hlenA, parseBody_ctx_run]
  | replace =>
    have hL : opLines a b op = (sliceList a op.i1 op.i2).map ("-" ++ ·) ++
        (sliceList b op.j1 op.j2).map ("+" ++ ·) := by
      simp [opLines, htag]
    have hI : opItems a b op =
        (sliceList a op.i1 op.i2).map (fun s => (HunkTag.del, s)) ++
        (sliceList b op.j1 op.j2).map (fun s => (HunkTag.ins, s)) := by
      simp [opItems, htag]
    rw [hL, hI, List.append_assoc, ← hlenA, parseBody_del_run, ← hlenB, parseBody_ins_run]
    rcases h : parseBody rest aL bL with _ | ⟨items, rem⟩ <;> simp
  | delete =>
    have hL : opLines a b op = (sliceList a op.i1 op.i2).map ("-" ++ ·) := by
      simp [opLines, htag]
    have hI : opItems a b op =
        (sliceList a op.i1 op.i2).map (fun s => (HunkTag.del, s)) := by
      simp [opItems, htag]
    rw [hL, hI, show op.j2 - op.j1 = 0 from by have := hdel htag; omega, Nat.zero_add,
      ← hlenA, parseBody_del_run]
  | insert =>
    have hL : opLines a b op = (sliceList b op.j1 op.j2).map ("+" ++ ·) := by
      simp [opLines, htag]
    have hI : opItems a b op =
        (sliceList b op.j1 op.j2).map (fun s => (HunkTag.ins, s)) := by
      simp [opItems, htag]
    rw [hL, hI, show op.i2 - op.i1 = 0 from by have := hins htag; omega, Nat.zero_add,
      ← hlenB, parseBody_ins_run]

theorem parseBody_group {a b : List String} {g : List Op} :
    ∀ {i j e e'}, Chain a b i j g e e' → ∀ rest,
      parseBody ((g.map (opLines a b)).flatten ++ rest) (e - i) (e' - j) =
        some (groupItems a b g, rest) := by
  induction g with
  | nil =>
    intro i j e e' hch rest
    obtain ⟨he, he'⟩ := hch.nil_inv
    subst he he'
    simp only [List.map_nil, List.flatten_nil, List.nil_append, Nat.sub_self]
    cases rest <;> rfl
  | cons op ops ih =>
    intro i j e e' hch rest
    obtain ⟨hi, hj, hok, htail⟩ := hch.cons_inv
    subst hi hj
    have hi2e : op.i2 ≤ e := htail.start_le.1
    have hj2e : op.j2 ≤ e' := htail.start_le.2
    have h12 : op.i1 ≤ op.i2 := hok.1
    have hj12 : op.j1 ≤ op.j2 := hok.2.1
    rw [List.map_cons, List.flatten_cons, List.append_assoc]
    rw [show e - op.i1 = (op.i2 - op.i1) + (e - op.i2) by omega]
    rw [show e' - op.j1 = (op.j2 - op.j1) + (e' - op.j2) by omega]
    rw [parseBody_op op hok, ih htail rest]
    rw [show groupItems a b (op :: ops) = opItems a b op ++ groupItems a b ops from rfl]
    rfl

theorem parseHunksGo_render {a b : List String} :
    ∀ (groups : List (List Op)) (fuel : Nat), groups.length ≤ fuel →
      (∀ g ∈ groups, g ≠ [] ∧ ∃ i j e e', Chain a b i j g e e') →
      parseHunksGo fuel ((groups.map (renderGroup a b)).flatten) =
        some (groups.map (toHunk a b)) := by
  intro groups
  induction groups with
  | nil =>
    intro fuel _ _
    cases fuel <;> rfl
  | cons g gs ih =>
    intro fuel hfuel hgs
    obtain ⟨hne, i, j, e, e', hch⟩ := hgs g (List.mem_cons_self g gs)
    cases hg : g with
    | nil => exact absurd hg hne
    | cons op ops =>
    subst hg
    cases fuel with
    | zero => simp at hfuel
    | succ f =>
    obtain ⟨hi1, hj1, hok, _⟩ := hch.cons_inv
    obtain ⟨l, hlast, hli2, hlj2⟩ := hch.last_end (by simp)
    have hie : i ≤ e := hch.start_le.1
    have hje : j ≤ e' := hch.start_le.2
    have hR : renderGroup a b (op :: ops) =
        ("@@ -" ++ formatRangeUnified op.i1 l.i2 ++ " +" ++
          formatRangeUnified op.j1 l.j2 ++ " @@\n") ::
          ((op :: ops).map (opLines a b)).flatten := by
      rw [renderGroup, hlast, List.head?_cons]
    have hT : toHunk a b (op :: ops) =
        ⟨op.i1, l.i2 - op.i1, l.j2 - op.j1, groupItems a b (op :: ops)⟩ := by
      rw [toHunk, hlast, List.head?_cons]
    rw [List.map_cons, List.flatten_cons, hR, List.cons_append, parseHunksGo]
    rw [parseHunkHeader_format op.i1 l.i2 op.j1 l.j2
      (by omega) (by omega)]
    simp only [Option.bind_eq_bind, Option.some_bind]
    rw [show l.i2 - op.i1 = e - i by omega,
      show l.j2 - op.j1 = e' - j by omega, parseBody_group hch]
    simp only [Option.some_bind]
    rw [ih f (by simpa using hfuel)
      (fun g hg => hgs g (List.mem_cons_of_mem _ hg))]
    simp only [Option.some_bind, List.map_cons, hT]
    rw [show e - i = l.i2 - op.i1 by omega, show e' - j = l.j2 - op.j1 by omega]
    rfl

theorem applyBody_ctx_run {a : List String} (seg : List String) :
    ∀ p, (∀ t, t < seg.length → a.get? (p + t) = seg.get? t) →
    ∀ rest, applyBody a p (seg.map (fun s => (HunkTag.ctx, s)) ++ rest) =
      (applyBody a (p + seg.length) rest).map (fun r => (seg ++ r.1, r.2)) := by
  induction seg with
  | nil =>
    intro p _ rest
    simp only [List.map_nil, List.nil_append, List.length_nil, Nat.add_zero]
    rcases hx : applyBody a p rest with _ | r <;> simp
  | cons s t ih =>
    intro p h rest
    have h0 : a.get? p = some s := by simpa using h 0 (by simp)
    rw [List.map_cons, List.cons_append, applyBody, h0]
    show (if s = s then
        Option.map (fun r => (s :: r.1, r.2))
          (applyBody a (p + 1) (List.map (fun s => (HunkTag.ctx, s)) t ++ rest))
      else none) = _
    rw [if_pos rfl]
    rw [ih (p + 1) (fun u hu => by
      have := h (u + 1) (by simpa using Nat.succ_lt_succ hu)
      rw [show p + 1 + u = p + (u + 1) by omega]
      simpa using this) rest]
    rw [List.length_cons, show p + (t.length + 1) = p + 1 + t.length by omega]
    rcases hx : applyBody a (p + 1 + t.length) rest with _ | r <;> simp

theorem applyBody_del_run {a : List String} (seg : List String) :
    ∀ p, (∀ t, t < seg.length → a.get? (p + t) = seg.get? t) →
    ∀ rest, applyBody a p (seg.map (fun s => (HunkTag.del, s)) ++ rest) =
      applyBody a (p + seg.length) rest := by
  induction seg with
  | nil =>
    intro p _ rest
    simp only [List.map_nil, List.nil_append, List.length_nil, Nat.add_zero]
  | cons s t ih =>
    intro p h rest
    have h0 : a.get? p = some s := by simpa using h 0 (by simp)
    rw [List.map_cons, List.cons_append, applyBody, h0]
    show (if s = s then
        applyBody a (p + 1) (List.map (fun s => (HunkTag.del, s)) t ++ rest)
      else none) = _
    rw [if_pos rfl]
    rw [ih (p + 1) (fun u hu => by
      have := h (u + 1) (by simpa using Nat.succ_lt_succ hu)
      rw [show p + 1 + u = p + (u + 1) by omega]
      simpa using this) rest]
    rw [List.length_cons, show p + (t.length + 1) = p + 1 + t.length by omega]

theorem applyBody_ins_run {a : List String} (seg : List String) :
    ∀ p rest, applyBody a p (seg.map (fun s => (HunkTag.ins, s)) ++ rest) =
      (applyBody a p rest).map (fun r => (seg ++ r.1, r.2)) := by
  induction seg with
  | nil =>
    intro p rest
    simp only [List.map_nil, List.nil_append]
    rcases hx : applyBody a p rest with _ | r <;> simp
  | cons s t ih =>
    intro p rest
    rw [List.map_cons, List.cons_append, applyBody, ih p rest]
    rcases hx : applyBody a p rest with _ | r <;> simp

theorem applyBody_op_bridge {a b : List String} (op : Op) (hok : OpOK a b op)
    (rest : List (HunkTag × String)) :
    applyBody a op.i1 (opItems a b op ++ rest) =
      (applyBody a op.i2 rest).map (fun r => (sliceList b op.j1 op.j2 ++ r.1, r.2)) := by
  obtain ⟨h12, hj12, hila, hjlb, heq, hins, hdel⟩ := hok
  have hlenA : (sliceList a op.i1 op.i2).length = op.i2 - op.i1 := sliceList_length a h12 hila
  have hgetA : ∀ t, t < (sliceList a op.i1 op.i2).length →
      a.get? (op.i1 + t) = (sliceList a op.i1 op.i2).get? t := by
    intro t ht
    rw [sliceList_get? a op.i1 op.i2 t (by omega)]
  cases htag : op.tag with
  | equal =>
    obtain ⟨hseq, _⟩ := heq htag
    have hI : opItems a b op =
        (sliceList a op.i1 op.i2).map (fun s => (HunkTag.ctx, s)) := by
      simp [opItems, htag]
    rw [hI, applyBody_ctx_run _ op.i1 hgetA rest, hlenA,
      show op.i1 + (op.i2 - op.i1) = op.i2 by omega, hseq]
  | replace =>
    have hI : opItems a b op =
        (sliceList a op.i1 op.i2).map (fun s => (HunkTag.del, s)) ++
        (sliceList b op.j1 op.j2).map (fun s => (HunkTag.ins, s)) := by
      simp [opItems, htag]
    rw [hI, List.append_assoc, applyBody_del_run _ op.i1 hgetA, hlenA,
      show op.i1 + (op.i2 - op.i1) = op.i2 by omega, applyBody_ins_run]
  | delete =>
    have hI : opItems a b op =
        (sliceList a op.i1 op.i2).map (fun s => (HunkTag.del, s)) := by
      simp [opItems, htag]
    have hjj : op.j1 = op.j2 := hdel htag
    rw [hI, applyBody_del_run _ op.i1 hgetA, hlenA,
      show op.i1 + (op.i2 - op.i1) = op.i2 by omega, ← hjj]
    rcases hx : applyBody a op.i2 rest with _ | r <;>
      simp [sliceList, Nat.sub_self]
  | insert =>
    have hI : opItems a b op =
        (sliceList b op.j1 op.j2).map (fun s => (HunkTag.ins, s)) := by
      simp [opItems, htag]
    rw [hI, applyBody_ins_run, hins htag]

theorem applyBody_chain {a b : List String} : ∀ {g : List Op} {i j e e'},
    Chain a b i j g e e' → ∀ rest,
      applyBody a i (groupItems a b g ++ rest) =
        (applyBody a e rest).map (fun r => (sliceList b j e' ++ r.1, r.2)) := by
  intro g
  induction g with
  | nil =>
    intro i j e e' hch rest
    obtain ⟨hi, hj⟩ := hch.nil_inv
    subst hi hj
    rw [show groupItems a b [] = [] from rfl, List.nil_append]
    rcases hx : applyBody a i rest with _ | r <;>
      simp [sliceList, Nat.sub_self]
  | cons op ops ih =>
    intro i j e e' hch rest
    obtain ⟨hi, hj, hok, htail⟩ := hch.cons_inv
    subst hi hj
    rw [show groupItems a b (op :: ops) = opItems a b op ++ groupItems a b ops from rfl,
      List.append_assoc, applyBody_op_bridge op hok, ih htail rest]
    have hparts : sliceList b op.j1 e' = sliceList b op.j1 op.j2 ++ sliceList b op.j2 e' :=
      sliceList_parts b hok.2.1 htail.start_le.2
    rcases hx : applyBody a e rest with _ | r <;> simp [hparts]

theorem applyHunksFrom_groups {a b : List String} : ∀ {groups : List (List Op)} {p p' : Nat},
    GroupsSpec a b p p' groups →
      applyHunksFrom a p (groups.map (toHunk a b)) = some (sliceList b p' b.length) := by
  intro groups
  induction groups with
  | nil =>
    intro p p' h
    obtain ⟨hs, hpa, _⟩ := h
    rw [List.map_nil, applyHunksFrom, if_pos hpa, ← sliceList_drop, hs]
  | cons g gs ih =>
    intro p p' h
    obtain ⟨s, s', e, e', hne, hch, hps, hps', hsl, hrest⟩ := h
    cases hg : g with
    | nil => exact absurd hg hne
    | cons op ops =>
    subst hg
    obtain ⟨hi1, hj1, hok, htail⟩ := hch.cons_inv
    obtain ⟨l, hlast, hli2, hlj2⟩ := hch.last_end (by simp)
    have hT : toHunk a b (op :: ops) =
        ⟨op.i1, l.i2 - op.i1, l.j2 - op.j1, groupItems a b (op :: ops)⟩ := by
      rw [toHunk, hlast, List.head?_cons]
    have happ : applyBody a s (groupItems a b (op :: ops)) = some (sliceList b s' e', e) := by
      have hb := applyBody_chain hch []
      rw [List.append_nil, show applyBody a e [] = some ([], e) from rfl] at hb
      simpa using hb
    have hse : s' ≤ e' := hch.start_le.2
    have heb : e' ≤ b.length := (hch.end_le).2
    rw [List.map_cons, applyHunksFrom, hT]
    rw [if_pos (show p ≤ op.i1 from hi1 ▸ hps)]
    rw [show (⟨op.i1, l.i2 - op.i1, l.j2 - op.j1,
      groupItems a b (op :: ops)⟩ : Hunk).body = groupItems a b (op :: ops) from rfl]
    rw [show (⟨op.i1, l.i2 - op.i1, l.j2 - op.j1,
      groupItems a b (op :: ops)⟩ : Hunk).aStart = op.i1 from rfl]
    rw [hi1, happ]
    simp only [ih hrest, Option.map_some]
    rw [hsl, ← sliceList_parts b hps' hse]
    simp [← sliceList_parts b (le_trans hps' hse) heb]

theorem matchLen_spec {a b : List String} {ahi bhi : Nat} :
    ∀ fuel i j t, t < matchLen a b ahi bhi fuel i j →
      i + t < ahi ∧ j + t < bhi ∧ a.get? (i + t) = b.get? (j + t) := by
  intro fuel
  induction fuel with
  | zero => intro i j t ht; simp [matchLen] at ht
  | succ fuel ih =>
    intro i j t ht
    rw [matchLen] at ht
    by_cases hc : i < ahi ∧ j < bhi
    · rw [if_pos (by simp [hc.1, hc.2])] at ht
      split at ht
      case _ x y hga hgb =>
        by_cases hxy : x = y
        · rw [if_pos hxy] at ht
          cases t with
          | zero =>
            refine ⟨by simpa using hc.1, by simpa using hc.2, ?_⟩
            rw [Nat.add_zero, Nat.add_zero, hga, hgb, hxy]
          | succ t =>
            have := ih (i + 1) (j + 1) t (by omega)
            refine ⟨by omega, by omega, ?_⟩
            rw [show i + (t + 1) = i + 1 + t by omega, show j + (t + 1) = j + 1 + t by omega]
            exact this.2.2
        · rw [if_neg hxy] at ht; omega
      case _ => omega
    · rw [if_neg (by
        rcases Decidable.not_and_iff_or_not.mp hc with h | h <;> simp [h])] at ht
      omega


theorem findLongestMatch_spec (a b : List String) (alo ahi blo bhi : Nat) :
    FLMInv a b alo ahi blo bhi (findLongestMatch a b alo ahi blo bhi) := by
  rw [findLongestMatch]
  apply List.foldlRecOn
  · exact ⟨fun _ => rfl, fun h => absurd h (by simp)⟩
  · intro best hbest i hi
    apply List.foldlRecOn
    · exact hbest
    · intro cur hcur j hj
      by_cases hk : matchLen a b ahi bhi (ahi - i) i j > cur.2.2
      · rw [if_pos hk]
        have hialo : alo ≤ i := (List.mem_range'_1.mp hi).1
        have hjblo : blo ≤ j := (List.mem_range'_1.mp hj).1
        have hml : ∀ t, t < matchLen a b ahi bhi (ahi - i) i j →
            i + t < ahi ∧ j + t < bhi ∧ a.get? (i + t) = b.get? (j + t) :=
          fun t ht => matchLen_spec (ahi - i) i j t ht
        have hend := hml (matchLen a b ahi bhi (ahi - i) i j - 1) (by omega)
        constructor
        · intro h0
          exact absurd (show matchLen a b ahi bhi (ahi - i) i j = 0 from h0) (by omega)
        · intro _
          refine ⟨hialo, hjblo, ?_, ?_, fun t ht => (hml t ht).2.2⟩
          · show i + matchLen a b ahi bhi (ahi - i) i j ≤ ahi
            omega
          · show j + matchLen a b ahi bhi (ahi - i) i j ≤ bhi
            omega
      · rw [if_neg hk]
        exact hcur

theorem BlocksIn_mono {a b : List String} :
    ∀ {xs : List (Nat × Nat × Nat)} {alo blo ahi bhi alo' blo' ahi' bhi' : Nat},
      BlocksIn a b alo blo ahi bhi xs → alo' ≤ alo → blo' ≤ blo → ahi ≤ ahi' →
        bhi ≤ bhi' → BlocksIn a b alo' blo' ahi' bhi' xs := by
  intro xs
  induction xs with
  | nil => intro _ _ _ _ _ _ _ _ _ _ _ _ _; trivial
  | cons x rest ih =>
    intro alo blo ahi bhi alo' blo' ahi' bhi' h h1 h2 h3 h4
    obtain ⟨x1, x2, x3⟩ := x
    obtain ⟨ha, hb, hc, hd, hg, hrest⟩ := h
    exact ⟨by omega, by omega, by omega, by omega, hg,
      ih hrest (le_refl _) (le_refl _) h3 h4⟩

theorem BlocksIn_append {a b : List String} :
    ∀ {xs ys : List (Nat × Nat × Nat)} {alo blo m1 m2 ahi bhi : Nat},
      BlocksIn a b alo blo m1 m2 xs → BlocksIn a b m1 m2 ahi bhi ys →
      alo ≤ m1 → blo ≤ m2 → m1 ≤ ahi → m2 ≤ bhi →
      BlocksIn a b alo blo ahi bhi (xs ++ ys) := by
  intro xs
  induction xs with
  | nil =>
    intro ys alo blo m1 m2 ahi bhi _ hys h1 h2 _ _
    exact BlocksIn_mono hys h1 h2 (le_refl _) (le_refl _)
  | cons x rest ih =>
    intro ys alo blo m1 m2 ahi bhi hxs hys h1 h2 h3 h4
    obtain ⟨x1, x2, x3⟩ := x
    obtain ⟨ha, hb, hc, hd, hg, hrest⟩ := hxs
    exact ⟨ha, hb, by omega, by omega, hg, ih hrest hys (by omega) (by omega) h3 h4⟩

theorem matchingBlocksGo_spec {a b : List String} :
    ∀ (fuel alo ahi blo bhi : Nat),
      BlocksIn a b alo blo ahi bhi (matchingBlocksGo a b fuel alo ahi blo bhi) := by
  intro fuel
  induction fuel with
  | zero => intro alo ahi blo bhi; rw [matchingBlocksGo]; trivial
  | succ fuel ih =>
    intro alo ahi blo bhi
    rw [matchingBlocksGo]
    by_cases hk : (findLongestMatch a b alo ahi blo bhi).2.2 = 0
    · rw [if_pos hk]; trivial
    · rw [if_neg hk]
      obtain ⟨_, hpos⟩ := findLongestMatch_spec a b alo ahi blo bhi
      obtain ⟨h1, h2, h3, h4, hg⟩ := hpos (by omega)
      refine BlocksIn_append (ih alo (findLongestMatch a b alo ahi blo bhi).1 blo
        (findLongestMatch a b alo ahi blo bhi).2.1) ?_ h1 h2 (by omega) (by omega)
      exact ⟨le_refl _, le_refl _, h3, h4, hg,
        ih ((findLongestMatch a b alo ahi blo bhi).1 +
            (findLongestMatch a b alo ahi blo bhi).2.2) ahi
          ((findLongestMatch a b alo ahi blo bhi).2.1 +
            (findLongestMatch a b alo ahi blo bhi).2.2) bhi⟩

theorem BlocksSpec_mono {a b : List String} {x : Nat × Nat × Nat}
    {xs : List (Nat × Nat × Nat)} {i j i' j' : Nat}
    (h : BlocksSpec a b i j (x :: xs)) (h1 : i' ≤ i) (h2 : j' ≤ j) :
    BlocksSpec a b i' j' (x :: xs) := by
  obtain ⟨x1, x2, x3⟩ := x
  obtain ⟨ha, hb, hc, hd, hg, hrest⟩ := h
  exact ⟨by omega, by omega, hc, hd, hg, hrest⟩

theorem mergeAdjacent_blocksSpec {a b : List String} :
    ∀ (rest : List (Nat × Nat × Nat)) (i1 j1 k1 : Nat),
      BlocksIn a b (i1 + k1) (j1 + k1) a.length b.length rest →
      (∀ t < k1, a.get? (i1 + t) = b.get? (j1 + t)) →
      i1 + k1 ≤ a.length → j1 + k1 ≤ b.length →
      BlocksSpec a b i1 j1
        (mergeAdjacent (i1, j1, k1) rest ++ [(a.length, b.length, 0)]) := by
  intro rest
  induction rest with
  | nil =>
    intro i1 j1 k1 _ hg ha hb
    rw [mergeAdjacent]
    by_cases hk : k1 ≠ 0
    · rw [if_pos hk]
      exact ⟨le_refl _, le_refl _, ha, hb, hg,
        by omega, by omega, by simp, by simp, by omega, rfl, rfl⟩
    · rw [if_neg hk]
      exact ⟨by omega, by omega, by simp, by simp, by omega, rfl, rfl⟩
  | cons x rest ih =>
    intro i1 j1 k1 hin hg ha hb
    obtain ⟨i2, j2, k2⟩ := x
    obtain ⟨h2a, h2b, h2c, h2d, h2g, h2rest⟩ := hin
    rw [mergeAdjacent]
    by_cases hadj : i1 + k1 = i2 ∧ j1 + k1 = j2
    · rw [if_pos (by simp [hadj.1, hadj.2])]
      apply ih i1 j1 (k1 + k2)
      · have : i1 + (k1 + k2) = i2 + k2 := by omega
        rw [this, show j1 + (k1 + k2) = j2 + k2 by omega]
        exact h2rest
      · intro t ht
        by_cases htk : t < k1
        · exact hg t htk
        · have := h2g (t - k1) (by omega)
          rw [show i1 + t = i2 + (t - k1) by omega, show j1 + t = j2 + (t - k1) by omega]
          exact this
      · omega
      · omega
    · rw [if_neg (by
        intro hcon
        rcases Decidable.not_and_iff_or_not.mp hadj with h | h <;>
          simp [h] at hcon <;> exact absurd hcon.2 (by omega))]
      have hrec := ih i2 j2 k2 h2rest h2g (by omega) (by omega)
      by_cases hk : k1 ≠ 0
      · rw [if_pos hk, List.cons_append, List.nil_append]
        have hne : mergeAdjacent (i2, j2, k2) rest ++ [(a.length, b.length, 0)] ≠ [] := by
          simp
        refine ⟨le_refl _, le_refl _, by omega, by omega, hg, ?_⟩
        show BlocksSpec a b (i1 + k1) (j1 + k1)
          (mergeAdjacent (i2, j2, k2) rest ++ [(a.length, b.length, 0)])
        cases hm : mergeAdjacent (i2, j2, k2) rest ++ [(a.length, b.length, 0)] with
        | nil => exact absurd hm hne
        | cons y ys =>
          rw [hm] at hrec
          show BlocksSpec a b (i1 + k1) (j1 + k1) (y :: ys)
          exact BlocksSpec_mono hrec (show i1 + k1 ≤ i2 by omega)
            (show j1 + k1 ≤ j2 by omega)
      · rw [if_neg hk, List.nil_append]
        show BlocksSpec a b i1 j1
          (mergeAdjacent (i2, j2, k2) rest ++ [(a.length, b.length, 0)])
        cases hm : mergeAdjacent (i2, j2, k2) rest ++ [(a.length, b.length, 0)] with
        | nil => simp at hm
        | cons y ys =>
          rw [hm] at hrec
          show BlocksSpec a b i1 j1 (y :: ys)
          exact BlocksSpec_mono hrec (show i1 ≤ i2 by omega) (show j1 ≤ j2 by omega)

theorem getMatchingBlocks_spec (a b : List String) :
    BlocksSpec a b 0 0 (getMatchingBlocks a b) := by
  rw [getMatchingBlocks]
  exact mergeAdjacent_blocksSpec _ 0 0 0
    (matchingBlocksGo_spec (a.length + b.length + 1) 0 a.length 0 b.length)
    (fun t ht => absurd ht (by omega)) (by simp) (by simp)

theorem Chain.append {a b : List String} :
    ∀ {xs ys : List Op} {i j m m' e e' : Nat},
      Chain a b i j xs m m' → Chain a b m m' ys e e' →
      Chain a b i j (xs ++ ys) e e' := by
  intro xs
  induction xs with
  | nil =>
    intro ys i j m m' e e' hxs hys
    obtain ⟨rfl, rfl⟩ := hxs.nil_inv
    simpa using hys
  | cons op ops ih =>
    intro ys i j m m' e e' hxs hys
    obtain ⟨rfl, rfl, hok, htail⟩ := hxs.cons_inv
    exact Chain.cons op (ops ++ ys) e e' hok (ih htail hys)

theorem OpOK_mk {a b : List String} (tag : OpTag) (i1 i2 j1 j2 : Nat)
    (h1 : i1 ≤ i2) (h2 : j1 ≤ j2) (h3 : i2 ≤ a.length) (h4 : j2 ≤ b.length)
    (he : tag = .equal → sliceList a i1 i2 = sliceList b j1 j2 ∧ i2 - i1 = j2 - j1)
    (hi : tag = .insert → i1 = i2) (hd : tag = .delete → j1 = j2) :
    OpOK a b ⟨tag, i1, i2, j1, j2⟩ :=
  ⟨h1, h2, h3, h4, he, hi, hd⟩

theorem opcodesGo_chain {a b : List String} :
    ∀ (blocks : List (Nat × Nat × Nat)) (i j : Nat), BlocksSpec a b i j blocks →
      Chain a b i j (opcodesGo i j blocks) a.length b.length := by
  intro blocks
  induction blocks with
  | nil =>
    intro i j h
    obtain ⟨rfl, rfl⟩ := h
    exact Chain.nil _ _
  | cons blk rest ih =>
    intro i j h
    obtain ⟨ai, bj, size⟩ := blk
    obtain ⟨h1, h2, h3, h4, hg, hrest⟩ := h
    rw [opcodesGo, List.append_assoc]
    have hrec := ih (ai + size) (bj + size) hrest
    have heqchain : Chain a b ai bj
        ((if size ≠ 0 then [⟨.equal, ai, ai + size, bj, bj + size⟩] else []) ++
          opcodesGo (ai + size) (bj + size) rest) a.length b.length := by
      by_cases hs : size ≠ 0
      · rw [if_pos hs]
        have hok : OpOK a b ⟨.equal, ai, ai + size, bj, bj + size⟩ :=
          OpOK_mk .equal ai (ai + size) bj (bj + size) (by omega) (by omega) h3 h4
            (fun _ => ⟨sliceList_eq_of_get? hg h3 h4, by omega⟩)
            (fun hc => by cases hc) (fun hc => by cases hc)
        have hone : Chain a b ai bj [⟨.equal, ai, ai + size, bj, bj + size⟩]
            (ai + size) (bj + size) := Chain.cons _ [] _ _ hok (Chain.nil _ _)
        exact Chain.append hone hrec
      · rw [if_neg hs, List.nil_append]
        have hzero : size = 0 := by omega
        subst hzero
        simpa using hrec
    by_cases hc1 : i < ai ∧ j < bj
    · rw [if_pos (by simp [hc1.1, hc1.2])]
      have hok : OpOK a b ⟨.replace, i, ai, j, bj⟩ :=
        OpOK_mk .replace i ai j bj (by omega) (by omega) (by omega) (by omega)
          (fun hc => by cases hc) (fun hc => by cases hc) (fun hc => by cases hc)
      have hone : Chain a b i j [⟨.replace, i, ai, j, bj⟩] ai bj :=
        Chain.cons _ [] _ _ hok (Chain.nil _ _)
      exact Chain.append hone heqchain
    · rw [if_neg (by
        rcases Decidable.not_and_iff_or_not.mp hc1 with h | h <;> simp [h])]
      by_cases hc2 : i < ai
      · rw [if_pos (by simpa using hc2)]
        have hjbj : j = bj := by
          rcases Decidable.not_and_iff_or_not.mp hc1 with h | h
          · exact absurd hc2 h
          · omega
        have hok : OpOK a b ⟨.delete, i, ai, j, bj⟩ :=
          OpOK_mk .delete i ai j bj (by omega) (by omega) (by omega) (by omega)
            (fun hc => by cases hc) (fun hc => by cases hc) (fun _ => hjbj)
        have hone : Chain a b i j [⟨.delete, i, ai, j, bj⟩] ai bj :=
          Chain.cons _ [] _ _ hok (Chain.nil _ _)
        exact Chain.append hone heqchain
      · rw [if_neg (by simpa using hc2)]
        have hiai : i = ai := by omega
        by_cases hc3 : j < bj
        · rw [if_pos (by simpa using hc3)]
          have hok : OpOK a b ⟨.insert, i, ai, j, bj⟩ :=
            OpOK_mk .insert i ai j bj (by omega) (by omega) (by omega) (by omega)
              (fun hc => by cases hc) (fun _ => hiai) (fun hc => by cases hc)
          have hone : Chain a b i j [⟨.insert, i, ai, j, bj⟩] ai bj :=
            Chain.cons _ [] _ _ hok (Chain.nil _ _)
          exact Chain.append hone heqchain
        · rw [if_neg (by simpa using hc3), List.nil_append]
          have hjbj : j = bj := by omega
          subst hiai
          subst hjbj
          exact heqchain

theorem sliceList_nil (l : List String) (i : Nat) : sliceList l i i = [] := by
  simp [sliceList]

theorem getOpcodes_chain (a b : List String) :
    Chain a b 0 0 (getOpcodes a b) a.length b.length :=
  opcodesGo_chain _ 0 0 (getMatchingBlocks_spec a b)

theorem equal_subslice {a b : List String} {c : Op} (hok : OpOK a b c)
    (htag : c.tag = .equal) {d e : Nat} (hde : d ≤ e) (he : e ≤ c.i2 - c.i1) :
    sliceList a (c.i1 + d) (c.i1 + e) = sliceList b (c.j1 + d) (c.j1 + e) :=
  subsliceEq (hok.2.2.2.2.1 htag).1 (hok.2.2.2.2.1 htag).2 hok.1 hok.2.1
    hok.2.2.1 hok.2.2.2.1 hde he

theorem Chain.append_inv {a b : List String} :
    ∀ {xs : List Op} {c : Op} {i j e e' : Nat},
      Chain a b i j (xs ++ [c]) e e' →
      ∃ m m', Chain a b i j xs m m' ∧ c.i1 = m ∧ c.j1 = m' ∧ OpOK a b c ∧
        c.i2 = e ∧ c.j2 = e' := by
  intro xs
  induction xs with
  | nil =>
    intro c i j e e' h
    rw [List.nil_append] at h
    obtain ⟨h1, h2, hok, htail⟩ := h.cons_inv
    obtain ⟨h3, h4⟩ := htail.nil_inv
    exact ⟨i, j, Chain.nil _ _, h1, h2, hok, h3, h4⟩
  | cons x xs ih =>
    intro c i j e e' h
    rw [List.cons_append] at h
    obtain ⟨h1, h2, hok, htail⟩ := h.cons_inv
    obtain ⟨m, m', hxs, hc1, hc2, hcok, hc3, hc4⟩ := ih htail
    exact ⟨m, m', h1 ▸ h2 ▸ Chain.cons x xs m m' hok hxs, hc1, hc2, hcok, hc3, hc4⟩

theorem trimHeadOp_chain {a b : List String} {codes : List Op} {i j E E' : Nat} (n : Nat)
    (h : Chain a b i j codes E E') :
    ∃ i0 j0, Chain a b i0 j0 (trimHeadOp n codes) E E' ∧
      sliceList a i i0 = sliceList b j j0 ∧ i ≤ i0 ∧ j ≤ j0 := by
  cases codes with
  | nil =>
    exact ⟨i, j, by rw [trimHeadOp]; exact h, by rw [sliceList_nil, sliceList_nil],
      le_refl _, le_refl _⟩
  | cons c rest =>
    obtain ⟨h1, h2, hok, htail⟩ := h.cons_inv
    rw [trimHeadOp]
    by_cases htag : c.tag = .equal
    · rw [if_pos htag]
      obtain ⟨hseq, hlen⟩ := hok.2.2.2.2.1 htag
      have hokH : OpOK a b { c with i1 := max c.i1 (c.i2 - n), j1 := max c.j1 (c.j2 - n) } := by
        refine ⟨?_, ?_, hok.2.2.1, hok.2.2.2.1, fun _ => ⟨?_, ?_⟩,
          fun hc => ?_, fun hc => ?_⟩
        · show max c.i1 (c.i2 - n) ≤ c.i2
          have := hok.1
          omega
        · show max c.j1 (c.j2 - n) ≤ c.j2
          have := hok.2.1
          omega
        · show sliceList a (max c.i1 (c.i2 - n)) c.i2 = sliceList b (max c.j1 (c.j2 - n)) c.j2
          have h12 := hok.1
          have hj12 := hok.2.1
          have := equal_subslice hok htag
            (show c.i2 - c.i1 - n ≤ c.i2 - c.i1 by omega) (le_refl _)
          rw [show c.i1 + (c.i2 - c.i1 - n) = max c.i1 (c.i2 - n) by omega,
            show c.i1 + (c.i2 - c.i1) = c.i2 by omega,
            show c.j1 + (c.i2 - c.i1 - n) = max c.j1 (c.j2 - n) by omega,
            show c.j1 + (c.i2 - c.i1) = c.j2 by omega] at this
          exact this
        · show c.i2 - max c.i1 (c.i2 - n) = c.j2 - max c.j1 (c.j2 - n)
          have h12 := hok.1
          have hj12 := hok.2.1
          omega
        · have hc' : c.tag = OpTag.insert := hc
          rw [htag] at hc'
          cases hc'
        · have hc' : c.tag = OpTag.delete := hc
          rw [htag] at hc'
          cases hc'
      refine ⟨max c.i1 (c.i2 - n), max c.j1 (c.j2 - n),
        Chain.cons _ rest E E' hokH htail, ?_, ?_, ?_⟩
      · have h12 := hok.1
        have hj12 := hok.2.1
        have := equal_subslice hok htag (Nat.zero_le (c.i2 - c.i1 - n))
          (show c.i2 - c.i1 - n ≤ c.i2 - c.i1 by omega)
        rw [show c.i1 + 0 = c.i1 from rfl, show c.j1 + 0 = c.j1 from rfl,
          show c.i1 + (c.i2 - c.i1 - n) = max c.i1 (c.i2 - n) by omega,
          show c.j1 + (c.i2 - c.i1 - n) = max c.j1 (c.j2 - n) by omega] at this
        rw [← h1, ← h2]
        exact this
      · omega
      · omega
    · rw [if_neg htag]
      exact ⟨i, j, h, by rw [sliceList_nil, sliceList_nil], le_refl _, le_refl _⟩

theorem trimLastOp_chain {a b : List String} {codes : List Op} {i j E E' : Nat} (n : Nat)
    (h : Chain a b i j codes E E') :
    ∃ E0 E0', Chain a b i j (trimLastOp n codes) E0 E0' ∧
      sliceList a E0 E = sliceList b E0' E' ∧ E0 ≤ E ∧ E0' ≤ E' := by
  cases hrev : codes.reverse with
  | nil =>
    have hnil : codes = [] := by
      have := congrArg List.reverse hrev
      simpa using this
    subst hnil
    obtain ⟨rfl, rfl⟩ := h.nil_inv
    rw [trimLastOp]
    exact ⟨i, j, by rw [hrev]; exact Chain.nil _ _,
      by rw [sliceList_nil, sliceList_nil], le_refl _, le_refl _⟩
  | cons c restRev =>
    have hcodes : codes = restRev.reverse ++ [c] := by
      have := congrArg List.reverse hrev
      simpa using this
    subst hcodes
    obtain ⟨m, m', hxs, hc1, hc2, hok, hc3, hc4⟩ := Chain.append_inv h
    have htrim : trimLastOp n (restRev.reverse ++ [c]) =
        restRev.reverse ++ [if c.tag = OpTag.equal then
          { c with i2 := min c.i2 (c.i1 + n), j2 := min c.j2 (c.j1 + n) } else c] := by
      rw [trimLastOp, hrev]
      show ((if c.tag = OpTag.equal then
          { c with i2 := min c.i2 (c.i1 + n), j2 := min c.j2 (c.j1 + n) } else c) ::
          restRev).reverse = _
      rw [List.reverse_cons]
    rw [htrim]
    by_cases htag : c.tag = .equal
    · rw [if_pos htag]
      obtain ⟨hseq, hlen⟩ := hok.2.2.2.2.1 htag
      have h12 := hok.1
      have hj12 := hok.2.1
      have hokT : OpOK a b { c with i2 := min c.i2 (c.i1 + n), j2 := min c.j2 (c.j1 + n) } := by
        refine ⟨?_, ?_, ?_, ?_, fun _ => ⟨?_, ?_⟩, fun hc => ?_, fun hc => ?_⟩
        · show c.i1 ≤ min c.i2 (c.i1 + n)
          omega
        · show c.j1 ≤ min c.j2 (c.j1 + n)
          omega
        · show min c.i2 (c.i1 + n) ≤ a.length
          have := hok.2.2.1
          omega
        · show min c.j2 (c.j1 + n) ≤ b.length
          have := hok.2.2.2.1
          omega
        · show sliceList a c.i1 (min c.i2 (c.i1 + n)) = sliceList b c.j1 (min c.j2 (c.j1 + n))
          have := equal_subslice hok htag (Nat.zero_le (min (c.i2 - c.i1) n))
            (show min (c.i2 - c.i1) n ≤ c.i2 - c.i1 by omega)
          rw [show c.i1 + 0 = c.i1 from rfl, show c.j1 + 0 = c.j1 from rfl,
            show c.i1 + min (c.i2 - c.i1) n = min c.i2 (c.i1 + n) by omega,
            show c.j1 + min (c.i2 - c.i1) n = min c.j2 (c.j1 + n) by omega] at this
          exact this
        · show min c.i2 (c.i1 + n) - c.i1 = min c.j2 (c.j1 + n) - c.j1
          omega
        · have hc' : c.tag = OpTag.insert := hc
          rw [htag] at hc'
          cases hc'
        · have hc' : c.tag = OpTag.delete := hc
          rw [htag] at hc'
          cases hc'
      refine ⟨min c.i2 (c.i1 + n), min c.j2 (c.j1 + n), ?_, ?_, by omega, by omega⟩
      · refine Chain.append hxs ?_
        rw [← hc1, ← hc2]
        exact Chain.cons _ [] _ _ hokT (Chain.nil _ _)
      · have := equal_subslice hok htag
          (show min (c.i2 - c.i1) n ≤ c.i2 - c.i1 by omega) (le_refl _)
        rw [show c.i1 + min (c.i2 - c.i1) n = min c.i2 (c.i1 + n) by omega,
          show c.i1 + (c.i2 - c.i1) = c.i2 by omega,
          show c.j1 + min (c.i2 - c.i1) n = min c.j2 (c.j1 + n) by omega,
          show c.j1 + (c.i2 - c.i1) = c.j2 by omega] at this
        rw [← hc3, ← hc4]
        exact this
    · rw [if_neg htag]
      exact ⟨E, E', h, by rw [sliceList_nil, sliceList_nil], le_refl _, le_refl _⟩

theorem isTrivialGroup_true {group : List Op} (h : isTrivialGroup group = true) :
    group = [] ∨ ∃ o, group = [o] ∧ o.tag = OpTag.equal := by
  cases group with
  | nil => exact Or.inl rfl
  | cons o rest =>
    cases rest with
    | nil =>
      refine Or.inr ⟨o, rfl, ?_⟩
      simpa [isTrivialGroup] using h
    | cons o2 r2 => simp [isTrivialGroup] at h

theorem groupGo_spec {a b : List String} (n : Nat) :
    ∀ (codes group : List Op) {p p' gs gs' i j E E' : Nat},
      Chain a b gs gs' group i j →
      p ≤ gs → p' ≤ gs' → sliceList a p gs = sliceList b p' gs' →
      Chain a b i j codes E E' →
      sliceList a E a.length = sliceList b E' b.length →
      E ≤ a.length → E' ≤ b.length →
      GroupsSpec a b p p' (groupGo n group codes) := by
  intro codes
  induction codes with
  | nil =>
    intro group p p' gs gs' i j E E' hgr hp hp' hgap hcodes htg hE hE'
    obtain ⟨rfl, rfl⟩ := hcodes.nil_inv
    rw [groupGo]
    by_cases htriv : isTrivialGroup group = true
    · rw [if_pos htriv]
      rcases isTrivialGroup_true htriv with rfl | ⟨o, rfl, htag⟩
      · obtain ⟨rfl, rfl⟩ := hgr.nil_inv
        refine ⟨?_, by omega, by omega⟩
        rw [sliceList_parts a hp hE, sliceList_parts b hp' hE', hgap, htg]
      · obtain ⟨h1, h2, hok, htail⟩ := hgr.cons_inv
        obtain ⟨h3, h4⟩ := htail.nil_inv
        obtain ⟨hseq, hlen⟩ := hok.2.2.2.2.1 htag
        have h12 := hok.1
        have hj12 := hok.2.1
        refine ⟨?_, by omega, by omega⟩
        rw [sliceList_parts a (show p ≤ o.i1 by omega) (show o.i1 ≤ a.length by omega),
          sliceList_parts b (show p' ≤ o.j1 by omega) (show o.j1 ≤ b.length by omega),
          sliceList_parts a (show o.i1 ≤ o.i2 by omega) (show o.i2 ≤ a.length by omega),
          sliceList_parts b (show o.j1 ≤ o.j2 by omega) (show o.j2 ≤ b.length by omega)]
        rw [← h1, ← h2] at hgap
        rw [hgap, hseq, h3, h4, htg]
    · rw [if_neg htriv]
      have hne : group ≠ [] := by
        intro hcon
        subst hcon
        simp [isTrivialGroup] at htriv
      exact ⟨gs, gs', i, j, hne, hgr, hp, hp', hgap, htg, hE, hE'⟩
  | cons c rest ih =>
    intro group p p' gs gs' i j E E' hgr hp hp' hgap hcodes htg hE hE'
    obtain ⟨h1, h2, hok, htail⟩ := hcodes.cons_inv
    have h12 := hok.1
    have hj12 := hok.2.1
    have hi2a : c.i2 ≤ a.length := hok.2.2.1
    have hj2b : c.j2 ≤ b.length := hok.2.2.2.1
    rw [groupGo]
    by_cases hlong : c.tag = .equal ∧ c.i2 - c.i1 > n + n
    · rw [if_pos (by simp [hlong.1, hlong.2])]
      obtain ⟨hseq, hlen⟩ := hok.2.2.2.2.1 hlong.1
      have hokR : OpOK a b { c with i2 := min c.i2 (c.i1 + n), j2 := min c.j2 (c.j1 + n) } := by
        refine ⟨?_, ?_, ?_, ?_, fun _ => ⟨?_, ?_⟩, fun hc => ?_, fun hc => ?_⟩
        · show c.i1 ≤ min c.i2 (c.i1 + n)
          omega
        · show c.j1 ≤ min c.j2 (c.j1 + n)
          omega
        · show min c.i2 (c.i1 + n) ≤ a.length
          omega
        · show min c.j2 (c.j1 + n) ≤ b.length
          omega
        · show sliceList a c.i1 (min c.i2 (c.i1 + n)) = sliceList b c.j1 (min c.j2 (c.j1 + n))
          have := equal_subslice hok hlong.1 (Nat.zero_le (min (c.i2 - c.i1) n))
            (show min (c.i2 - c.i1) n ≤ c.i2 - c.i1 by omega)
          rw [show c.i1 + 0 = c.i1 from rfl, show c.j1 + 0 = c.j1 from rfl,
            show c.i1 + min (c.i2 - c.i1) n = min c.i2 (c.i1 + n) by omega,
            show c.j1 + min (c.i2 - c.i1) n = min c.j2 (c.j1 + n) by omega] at this
          exact this
        · show min c.i2 (c.i1 + n) - c.i1 = min c.j2 (c.j1 + n) - c.j1
          omega
        · have hc' : c.tag = OpTag.insert := hc
          rw [hlong.1] at hc'
          cases hc'
        · have hc' : c.tag = OpTag.delete := hc
          rw [hlong.1] at hc'
          cases hc'
      have hokL : OpOK a b { c with i1 := max c.i1 (c.i2 - n), j1 := max c.j1 (c.j2 - n) } := by
        refine ⟨?_, ?_, hi2a, hj2b, fun _ => ⟨?_, ?_⟩, fun hc => ?_, fun hc => ?_⟩
        · show max c.i1 (c.i2 - n) ≤ c.i2
          omega
        · show max c.j1 (c.j2 - n) ≤ c.j2
          omega
        · show sliceList a (max c.i1 (c.i2 - n)) c.i2 = sliceList b (max c.j1 (c.j2 - n)) c.j2
          have := equal_subslice hok hlong.1
            (show c.i2 - c.i1 - n ≤ c.i2 - c.i1 by omega) (le_refl _)
          rw [show c.i1 + (c.i2 - c.i1 - n) = max c.i1 (c.i2 - n) by omega,
            show c.i1 + (c.i2 - c.i1) = c.i2 by omega,
            show c.j1 + (c.i2 - c.i1 - n) = max c.j1 (c.j2 - n) by omega,
            show c.j1 + (c.i2 - c.i1) = c.j2 by omega] at this
          exact this
        · show c.i2 - max c.i1 (c.i2 - n) = c.j2 - max c.j1 (c.j2 - n)
          omega
        · have hc' : c.tag = OpTag.insert := hc
          rw [hlong.1] at hc'
          cases hc'
        · have hc' : c.tag = OpTag.delete := hc
          rw [hlong.1] at hc'
          cases hc'
      have hchR : Chain a b gs gs'
          (group ++ [{ c with i2 := min c.i2 (c.i1 + n), j2 := min c.j2 (c.j1 + n) }])
          (min c.i2 (c.i1 + n)) (min c.j2 (c.j1 + n)) := by
        refine Chain.append hgr ?_
        rw [← h1, ← h2]
        exact Chain.cons _ [] _ _ hokR (Chain.nil _ _)
      have hgs_le : gs ≤ i := hgr.start_le.1
      have hgs'_le : gs' ≤ j := hgr.start_le.2
      refine ⟨gs, gs', min c.i2 (c.i1 + n), min c.j2 (c.j1 + n), by simp, hchR,
        hp, hp', hgap, ?_⟩
      have hmidgap : sliceList a (min c.i2 (c.i1 + n)) (max c.i1 (c.i2 - n)) =
          sliceList b (min c.j2 (c.j1 + n)) (max c.j1 (c.j2 - n)) := by
        have := equal_subslice hok hlong.1
          (show min (c.i2 - c.i1) n ≤ c.i2 - c.i1 - n by omega)
          (show c.i2 - c.i1 - n ≤ c.i2 - c.i1 by omega)
        rw [show c.i1 + min (c.i2 - c.i1) n = min c.i2 (c.i1 + n) by omega,
          show c.i1 + (c.i2 - c.i1 - n) = max c.i1 (c.i2 - n) by omega,
          show c.j1 + min (c.i2 - c.i1) n = min c.j2 (c.j1 + n) by omega,
          show c.j1 + (c.i2 - c.i1 - n) = max c.j1 (c.j2 - n) by omega] at this
        exact this
      refine ih [{ c with i1 := max c.i1 (c.i2 - n), j1 := max c.j1 (c.j2 - n) }]
        (Chain.cons _ [] _ _ hokL (Chain.nil _ _)) (by
          show min c.i2 (c.i1 + n) ≤ max c.i1 (c.i2 - n)
          omega) (by
          show min c.j2 (c.j1 + n) ≤ max c.j1 (c.j2 - n)
          omega) hmidgap htail htg hE hE'
    · rw [if_neg (by
        intro hcon
        rcases Decidable.not_and_iff_or_not.mp hlong with hx | hx
        · rw [Bool.and_eq_true] at hcon
          exact hx (by simpa using hcon.1)
        · rw [Bool.and_eq_true] at hcon
          exact hx (by simpa using hcon.2))]
      have hch2 : Chain a b gs gs' (group ++ [c]) c.i2 c.j2 := by
        refine Chain.append hgr ?_
        rw [← h1, ← h2]
        exact Chain.cons _ [] _ _ hok (Chain.nil _ _)
      exact ih (group ++ [c]) hch2 hp hp' hgap htail htg hE hE'

theorem getGroupedOpcodes_spec (a b : List String) :
    GroupsSpec a b 0 0 (getGroupedOpcodes 3 a b) := by
  by_cases hemp : (getOpcodes a b).isEmpty = true
  · have hchain := getOpcodes_chain a b
    have hnil : getOpcodes a b = [] := by simpa using hemp
    rw [hnil] at hchain
    obtain ⟨h1, h2⟩ := hchain.nil_inv
    have ha : a = [] := List.eq_nil_of_length_eq_zero h1.symm
    have hb : b = [] := List.eq_nil_of_length_eq_zero h2.symm
    subst ha hb
    have hval : getGroupedOpcodes 3 ([] : List String) [] = [] := rfl
    rw [hval]
    exact ⟨rfl, Nat.le_refl 0, Nat.le_refl 0⟩
  · have hchain := getOpcodes_chain a b
    obtain ⟨i0, j0, hch1, hgap1, hi0, hj0⟩ := trimHeadOp_chain 3 hchain
    obtain ⟨E0, E0', hch2, hgap2, hE0, hE0'⟩ := trimLastOp_chain 3 hch1
    have hrw : getGroupedOpcodes 3 a b =
        groupGo 3 [] (trimLastOp 3 (trimHeadOp 3 (getOpcodes a b))) := by
      rw [getGroupedOpcodes]
      show groupGo 3 [] (trimLastOp 3 (trimHeadOp 3
        (if (getOpcodes a b).isEmpty then [⟨.equal, 0, 1, 0, 1⟩] else getOpcodes a b))) = _
      rw [if_neg hemp]
    rw [hrw]
    exact groupGo_spec 3 _ [] (Chain.nil i0 j0) (Nat.zero_le _) (Nat.zero_le _)
      hgap1 hch2 hgap2 hE0 hE0'

theorem GroupsSpec_chains {a b : List String} :
    ∀ {gs : List (List Op)} {p p' : Nat}, GroupsSpec a b p p' gs →
      ∀ g ∈ gs, g ≠ [] ∧ ∃ i j e e', Chain a b i j g e e' := by
  intro gs
  induction gs with
  | nil => intro p p' _ g hg; cases hg
  | cons g0 rest ih =>
    intro p p' h g hg
    obtain ⟨s, s', e, e', hne, hch, _, _, _, hrest⟩ := h
    rcases List.mem_cons.mp hg with rfl | hg'
    · exact ⟨hne, s, s', e, e', hch⟩
    · exact ih hrest g hg'

theorem GroupsSpec_nil_eq {a b : List String} (h : GroupsSpec a b 0 0 []) : a = b := by
  obtain ⟨hs, _, _⟩ := h
  rwa [sliceList_self, sliceList_self] at hs

theorem mem_of_mem_sliceList {l : List String} {x : String} {i j : Nat}
    (h : x ∈ sliceList l i j) : x ∈ l :=
  List.mem_of_mem_drop (List.mem_of_mem_take h)

theorem ProperLine_concat_nl (x : String) (h : ∀ c ∈ x.data, c ≠ '\n') :
    ProperLine (x ++ "\n") :=
  ⟨x.data, by rw [String.data_append], h⟩

theorem ProperLine_prefix (p s : String) (hp : ∀ c ∈ p.data, c ≠ '\n')
    (hs : ProperLine s) : ProperLine (p ++ s) := by
  obtain ⟨core, hcore, hno⟩ := hs
  refine ⟨p.data ++ core, ?_, fun c hc => ?_⟩
  · rw [String.data_append, hcore, List.append_assoc]
  · rcases List.mem_append.mp hc with h | h
    · exact hp c h
    · exact hno c h

theorem natToStr_no_nl (n : Nat) : ∀ c ∈ (natToStr n).data, c ≠ '\n' := by
  intro c hc hcon
  have := (natToStr_spec n).1 c hc
  rw [hcon] at this
  cases this

theorem formatRangeUnified_no_nl (s e : Nat) :
    ∀ c ∈ (formatRangeUnified s e).data, c ≠ '\n' := by
  intro c hc
  rw [formatRangeUnified] at hc
  by_cases h1 : e - s = 1
  · rw [if_pos h1] at hc
    exact natToStr_no_nl _ c hc
  · rw [if_neg h1, String.data_append, String.data_append] at hc
    rcases List.mem_append.mp hc with h | h
    · rcases List.mem_append.mp h with h' | h'
      · exact natToStr_no_nl _ c h'
      · intro hcon
        subst hcon
        exact absurd h' (by decide)
    · exact natToStr_no_nl _ c h

theorem hunkHeader_proper (s1 e1 s2 e2 : Nat) :
    ProperLine ("@@ -" ++ formatRangeUnified s1 e1 ++ " +" ++
      formatRangeUnified s2 e2 ++ " @@\n") := by
  refine ⟨"@@ -".data ++ (formatRangeUnified s1 e1).data ++ " +".data ++
    (formatRangeUnified s2 e2).data ++ " @@".data, ?_, fun c hc => ?_⟩
  · simp [String.data_append, List.append_assoc]
  · simp only [List.mem_append] at hc
    rcases hc with ((((h | h) | h) | h) | h)
    · intro hcon; subst hcon; simp at h
    · exact formatRangeUnified_no_nl _ _ c h
    · intro hcon; subst hcon; simp at h
    · exact formatRangeUnified_no_nl _ _ c h
    · intro hcon; subst hcon; simp at h

theorem opLines_proper {a b : List String} (ha : ∀ x ∈ a, ProperLine x)
    (hb : ∀ x ∈ b, ProperLine x) (op : Op) :
    ∀ ln ∈ opLines a b op, ProperLine ln := by
  intro ln hln
  rw [opLines] at hln
  have hmapA : ∀ (p : String), (∀ c ∈ p.data, c ≠ '\n') →
      ∀ ln ∈ (sliceList a op.i1 op.i2).map (p ++ ·), ProperLine ln := by
    intro p hpc ln hln
    obtain ⟨x, hx, rfl⟩ := List.mem_map.mp hln
    exact ProperLine_prefix p x hpc (ha x (mem_of_mem_sliceList hx))
  have hmapB : ∀ (p : String), (∀ c ∈ p.data, c ≠ '\n') →
      ∀ ln ∈ (sliceList b op.j1 op.j2).map (p ++ ·), ProperLine ln := by
    intro p hpc ln hln
    obtain ⟨x, hx, rfl⟩ := List.mem_map.mp hln
    exact ProperLine_prefix p x hpc (hb x (mem_of_mem_sliceList hx))
  by_cases htag : op.tag = .equal
  · rw [if_pos htag] at hln
    exact hmapA " " (by decide) ln hln
  · rw [if_neg htag] at hln
    rcases List.mem_append.mp hln with h | h
    · by_cases hc : (op.tag = OpTag.replace || op.tag = OpTag.delete) = true
      · rw [if_pos hc] at h
        exact hmapA "-" (by decide) ln h
      · rw [if_neg hc] at h
        cases h
    · by_cases hc : (op.tag = OpTag.replace || op.tag = OpTag.insert) = true
      · rw [if_pos hc] at h
        exact hmapB "+" (by decide) ln h
      · rw [if_neg hc] at h
        cases h

theorem renderGroup_proper {a b : List String} (ha : ∀ x ∈ a, ProperLine x)
    (hb : ∀ x ∈ b, ProperLine x) (g : List Op) :
    ∀ ln ∈ renderGroup a b g, ProperLine ln := by
  intro ln hln
  rw [renderGroup] at hln
  cases hh : g.head? with
  | none => rw [hh] at hln; cases hg : g.getLast? <;> rw [hg] at hln <;> cases hln
  | some first =>
    cases hg : g.getLast? with
    | none => rw [hh, hg] at hln; cases hln
    | some last =>
      rw [hh, hg] at hln
      rcases List.mem_cons.mp hln with rfl | hln'
      · exact hunkHeader_proper _ _ _ _
      · obtain ⟨ls, hls, hmem⟩ := List.mem_flatten.mp hln'
        obtain ⟨op, _, rfl⟩ := List.mem_map.mp hls
        exact opLines_proper ha hb op ln hmem

theorem startsWithStr_append_append (p x y : String) :
    startsWithStr (p ++ x ++ y) p = true := by
  rw [startsWithStr, String.data_append, String.data_append, List.append_assoc]
  exact List.isPrefixOf_iff_prefix.mpr (List.prefix_append _ _)

theorem renderGroup_length_pos {a b : List String} {g : List Op} (h : g ≠ []) :
    0 < (renderGroup a b g).length := by
  cases g with
  | nil => exact absurd rfl h
  | cons op ops =>
    cases hg : (op :: ops).getLast? with
    | none => simp at hg
    | some l =>
      rw [renderGroup, hg, List.head?_cons]
      simp

theorem groups_length_le_flatten {a b : List String} :
    ∀ {groups : List (List Op)}, (∀ g ∈ groups, g ≠ []) →
      groups.length ≤ ((groups.map (renderGroup a b)).flatten).length := by
  intro groups
  induction groups with
  | nil => intro _; simp
  | cons g gs ih =>
    intro h
    rw [List.map_cons, List.flatten_cons, List.length_cons, List.length_append]
    have h1 := renderGroup_length_pos (a := a) (b := b) (h g (List.mem_cons_self g gs))
    have h2 := ih (fun g' hg' => h g' (List.mem_cons_of_mem _ hg'))
    omega

theorem splitKeepGo_single (cur : List Char) (c : Char) :
    splitKeepGo cur [c] = [(c :: cur).reverse] := by
  rw [splitKeepGo]
  by_cases hcn : c = '\n'
  · rw [if_pos hcn]
    rfl
  · rw [if_neg hcn]
    rfl

theorem pySplitGo_eq_splitKeepGo (l : List Char)
    (h : ∀ c ∈ l, isPyLineBreak c = true → c = '\n') :
    ∀ cur, pySplitGo cur l = splitKeepGo cur l := by
  induction l with
  | nil => intro cur; rfl
  | cons c t ih =>
    intro cur
    have hc := h c (List.mem_cons_self c t)
    have ht : ∀ c ∈ t, isPyLineBreak c = true → c = '\n' :=
      fun c hmem => h c (List.mem_cons_of_mem _ hmem)
    have hcr : c ≠ '\r' := by
      intro hcon
      subst hcon
      cases hc (by decide)
    cases t with
    | nil => rw [pySplitGo, splitKeepGo_single]
    | cons d t2 =>
      rw [pySplitGo, splitKeepGo]
      rw [if_neg (show ¬ (c = '\r' && d = '\n') = true by simp [hcr])]
      by_cases hcn : c = '\n'
      · subst hcn
        rw [if_pos (by decide), if_pos rfl, ih ht]
      · have hbrk : ¬ isPyLineBreak c = true := fun hb => hcn (hc hb)
        rw [if_neg hbrk, if_neg hcn, ih ht]

theorem pySplitlines_eq_splitKeepNl (s : String)
    (h : ∀ c ∈ s.data, isPyLineBreak c = true → c = '\n') :
    pySplitlines s = splitKeepNl s := by
  rw [pySplitlines, splitKeepNl, pySplitGo_eq_splitKeepGo s.data h]

theorem applyUnifiedDiff_parse (diff original : String) (l1 l2 : String)
    (rest : List String) (hsplit : splitKeepNl diff = l1 :: l2 :: rest)
    (h1 : startsWithStr l1 "--- " = true) (h2 : startsWithStr l2 "+++ " = true)
    (hunks : List Hunk) (hparse : parseHunks rest = some hunks) :
    applyUnifiedDiff diff original =
      (applyHunksFrom (splitKeepNl original) 0 hunks).map String.join := by
  rw [applyUnifiedDiff, hsplit]
  show (if (startsWithStr l1 "--- " && startsWithStr l2 "+++ ") = true then
      match parseHunks rest with
      | some hunks => (applyHunksFrom (splitKeepNl original) 0 hunks).map String.join
      | none => none
    else none) = _
  rw [h1, h2, hparse]
  rfl

theorem diff_round_trip (original fixed filepath : String)
    (ho : original = "" ∨ endsWithStr original "\n" = true)
    (hf : fixed = "" ∨ endsWithStr fixed "\n" = true)
    (hto : ∀ c ∈ original.data, isPyLineBreak c = true → c = '\n')
    (htf : ∀ c ∈ fixed.data, isPyLineBreak c = true → c = '\n')
    (hp : ∀ c ∈ (pathBasename filepath).data, c ≠ '\n') :
    applyUnifiedDiff (generateDiff original fixed filepath) original = some fixed := by
  have ha : ∀ x ∈ splitKeepNl original, ProperLine x := splitKeepNl_proper original ho
  have hb : ∀ x ∈ splitKeepNl fixed, ProperLine x := splitKeepNl_proper fixed hf
  have hga := getGroupedOpcodes_spec (splitKeepNl original) (splitKeepNl fixed)
  rw [generateDiff, pySplitlines_eq_splitKeepNl original hto,
    pySplitlines_eq_splitKeepNl fixed htf]
  cases hgg : getGroupedOpcodes 3 (splitKeepNl original) (splitKeepNl fixed) with
  | nil =>
    rw [hgg] at hga
    have hab := GroupsSpec_nil_eq hga
    have hudl : unifiedDiffLines (splitKeepNl original) (splitKeepNl fixed)
        ("a/" ++ pathBasename filepath) ("b/" ++ pathBasename filepath) = [] := by
      rw [unifiedDiffLines, hgg]
    rw [hudl, show String.join ([] : List String) = "" from rfl, applyUnifiedDiff,
      show splitKeepNl "" = [] from rfl]
    show some original = some fixed
    rw [← splitKeepNl_join_eq original, hab, splitKeepNl_join_eq]
  | cons g gs =>
    rw [hgg] at hga
    have hchains := GroupsSpec_chains hga
    have hudl : unifiedDiffLines (splitKeepNl original) (splitKeepNl fixed)
        ("a/" ++ pathBasename filepath) ("b/" ++ pathBasename filepath) =
        ("--- " ++ ("a/" ++ pathBasename filepath) ++ "\n") ::
        ("+++ " ++ ("b/" ++ pathBasename filepath) ++ "\n") ::
        ((g :: gs).map (renderGroup (splitKeepNl original) (splitKeepNl fixed))).flatten := by
      rw [unifiedDiffLines, hgg]
    rw [hudl]
    have hl1 : ProperLine ("--- " ++ ("a/" ++ pathBasename filepath) ++ "\n") := by
      apply ProperLine_concat_nl
      intro c hc
      rw [String.data_append, String.data_append] at hc
      rcases List.mem_append.mp hc with h | h
      · exact fun hcon => by subst hcon; exact absurd h (by decide)
      · rcases List.mem_append.mp h with h' | h'
        · exact fun hcon => by subst hcon; exact absurd h' (by decide)
        · exact hp c h'
    have hl2 : ProperLine ("+++ " ++ ("b/" ++ pathBasename filepath) ++ "\n") := by
      apply ProperLine_concat_nl
      intro c hc
      rw [String.data_append, String.data_append] at hc
      rcases List.mem_append.mp hc with h | h
      · exact fun hcon => by subst hcon; exact absurd h (by decide)
      · rcases List.mem_append.mp h with h' | h'
        · exact fun hcon => by subst hcon; exact absurd h' (by decide)
        · exact hp c h'
    have hproper : ∀ ln ∈ ("--- " ++ ("a/" ++ pathBasename filepath) ++ "\n") ::
        ("+++ " ++ ("b/" ++ pathBasename filepath) ++ "\n") ::
        ((g :: gs).map (renderGroup (splitKeepNl original) (splitKeepNl fixed))).flatten,
        ProperLine ln := by
      intro ln hln
      rcases List.mem_cons.mp hln with rfl | hln'
      · exact hl1
      rcases List.mem_cons.mp hln' with rfl | hln''
      · exact hl2
      obtain ⟨ls, hls, hmem⟩ := List.mem_flatten.mp hln''
      obtain ⟨grp, _, rfl⟩ := List.mem_map.mp hls
      exact renderGroup_proper ha hb grp ln hmem
    have hsplit := splitKeepNl_join _ hproper
    have hparse : parseHunks
        (((g :: gs).map (renderGroup (splitKeepNl original) (splitKeepNl fixed))).flatten) =
        some ((g :: gs).map (toHunk (splitKeepNl original) (splitKeepNl fixed))) := by
      rw [parseHunks]
      exact parseHunksGo_render (g :: gs) _
        (groups_length_le_flatten (fun g' hg' => (hchains g' hg').1))
        (fun g' hg' => ⟨(hchains g' hg').1, (hchains g' hg').2⟩)
    rw [applyUnifiedDiff_parse _ original _ _ _ hsplit
      (startsWithStr_append_append _ _ _) (startsWithStr_append_append _ _ _)
      _ hparse]
    rw [applyHunksFrom_groups hga, sliceList_self]
    show some (String.join (splitKeepNl fixed)) = some fixed
    rw [splitKeepNl_join_eq]

theorem genFix_diff (resp : Option String) (failure : TestFailure) (repo : Repo)
    (ch : FileChange) (h : (generateFix resp failure repo).change = some ch) :
    ch.diff = generateDiff ch.original_content ch.fixed_content ch.file_path := by
  unfold generateFix at h
  split at h
  · simp at h
  · split at h
    · rename_i change repo' heq
      simp only at h
      obtain ⟨a, _, ha⟩ := Option.map_eq_some'.mp heq
      simp only [Prod.mk.injEq] at ha
      have : change = ch := by simpa using h
      rw [← this, ← ha.1]
      rfl
    · split at h
      · simp at h
      · simp only at h
        obtain ⟨fx, _, hfx⟩ := Option.map_eq_some'.mp h
        rw [← hfx]
        rfl

theorem genFixForFile_diff (resp : Option String) (failures : List TestFailure)
    (src : String) (repo : Repo) (ch : FileChange)
    (h : (generateFixForFile resp failures src repo).change = some ch) :
    ch.diff = generateDiff ch.original_content ch.fixed_content ch.file_path := by
  unfold generateFixForFile at h
  split at h
  · simp at h
  · split at h
    · simp at h
    · simp only at h
      obtain ⟨fx, _, hfx⟩ := Option.map_eq_some'.mp h
      rw [← hfx]
      rfl

/-- C8 (amended): for every Change Record the Fix Applier produces — through
either `generate_fix` or `generate_fix_for_file` — whose `original_content`
and `fixed_content` each contain no line terminator other than `\n` and are
each empty or newline-terminated (and whose target basename contains no
newline), applying the stored unified diff to `original_content` reproduces
`fixed_content` byte-for-byte. -/
theorem C8_diff_round_trip (resp resp2 : Option String) (failure : TestFailure)
    (failures : List TestFailure) (src : String) (repo repo2 : Repo) (ch : FileChange)
    (h : (generateFix resp failure repo).change = some ch ∨
      (generateFixForFile resp2 failures src repo2).change = some ch)
    (ho : ch.original_content = "" ∨ endsWithStr ch.original_content "\n" = true)
    (hf : ch.fixed_content = "" ∨ endsWithStr ch.fixed_content "\n" = true)
    (hto : ∀ c ∈ ch.original_content.data, isPyLineBreak c = true → c = '\n')
    (htf : ∀ c ∈ ch.fixed_content.data, isPyLineBreak c = true → c = '\n')
    (hp : ∀ c ∈ (pathBasename ch.file_path).data, c ≠ '\n') :
    applyUnifiedDiff ch.diff ch.original_content = some ch.fixed_content := by
  have hdiff : ch.diff = generateDiff ch.original_content ch.fixed_content ch.file_path :=
    h.elim (genFix_diff resp failure repo ch) (genFixForFile_diff resp2 failures src repo2 ch)
  rw [hdiff]
  exact diff_round_trip _ _ _ ho hf hto htf hp

theorem C8_diff_round_trip_witness :
    (generateFix (some exOracleResponse) exFailMod exRepoMod).change = some exAiChange ∧
      applyUnifiedDiff exAiChange.diff exAiChange.original_content =
        some exAiChange.fixed_content :=
  ⟨by decide, C8_diff_round_trip (some exOracleResponse) none exFailMod [] "" exRepoMod []
    exAiChange (Or.inl (by decide)) (Or.inr (by decide)) (Or.inr (by decide))
    (by decide) (by decide) (by decide)⟩


/-- C8 counterexample: a Change Record whose contents do not end in a newline
carries a corrupt diff (`splitlines(keepends=True)` leaves the last line
unterminated and `"".join` glues it to the next), so applying the stored diff
does not reproduce `fixed_content`. -/
theorem C8_unterminated_content_not_round_trip :
    (generateFix (some "```\nb\n```") exFailNoNl exRepoNoNl).change = some exNoNlChange ∧
      exNoNlChange.original_content = "a" ∧ exNoNlChange.fixed_content = "b\n" ∧
      applyUnifiedDiff exNoNlChange.diff exNoNlChange.original_content = none := by
  decide
